import Mathlib

/-! # grim: the implicit solver (`timeStepper::solve`) and the torus floors (`applyFloor`)

A shallow embedding of `src/timestepper/solve.cpp` and, from
`src/problem/torus/problem.cpp`, of the floor routine `applyFloor`, the
Lorentz-factor clamp of `inflowCheck`, the relaxation time of
`setFluidElementParameters`, the torus enthalpy `computeLnOfh` and the flux
filter `applyProblemSpecificFluxFilter`.

Conventions of the embedding.

* A C++ `double` is an element of an arbitrary linear ordered field `K`
  (exact arithmetic; rounding, infinities and NaN are outside the model, and
  `x / 0 = 0` as in every Lean field).  The definitions are computable for
  `K = ℚ`.
* Where a property turns on rounding (the sum `1. + epsilon` of the Jacobian
  assembly, the cancelling sum of `computeLnOfh`), the rounding of the result
  of an operation is an explicit function `fl : K → K`; it is the identity in
  exact arithmetic and `roundDouble` for binary64 on `ℚ`.
* Where a property turns on the values being finite (a division by zero in
  `applyFloor` would put a NaN into an arithmetic blend), the theorem carries
  the hypothesis that the divisors are non-zero and the arguments of the
  square roots non-negative (`CapsDefined`, `VelocityRepairDefined`,
  `LimitersDefined`).
* An ArrayFire `array` over the grid is a function `ι → K` on the cells `ι`;
  an arithmetic expression on arrays acts cell by cell.  The only operations
  that look at all cells at once are `af::norm` and `where(...).elements()`.
* A comparison of arrays yields an array of 0/1 values (`ind`), which the
  source then uses in arithmetic blends such as `c*a + (1.-c)*b`.
* A loop over `var` that assigns one array per variable is a function of
  `var`; loops that carry state (Jacobian assembly, line search, outer
  iteration) are folds or recursions over the state they carry.
* `af::sqrt`, `af::pow`, `af::exp`, `log`, `sin`, `cos` and `af::solve` are
  library functions and `fluidElement::set`, `computeResidual` are repository
  functions that are not part of the translated sources; they are parameters
  of the definitions.
-/

set_option autoImplicit false

namespace Grim

open Finset

variable {K : Type} [LinearOrderedField K]

/-- The 0/1 value of a comparison, as stored in an ArrayFire mask. -/
def ind (p : Prop) [Decidable p] : K := if p then 1 else 0

/-! ## Data of `applyFloor` (problem.cpp, lines 494-666) -/

/-- The problem parameters read by `applyFloor` (namespace `params`). -/
structure FloorParams (K : Type) where
  RhoFloorSlope : K
  RhoFloorAmpl : K
  UFloorSlope : K
  UFloorAmpl : K
  BsqrOverRhoMax : K
  BsqrOverUMax : K
  MaxLorentzFactor : K
  adiabaticIndex : K
  bSqrFloorInFluidElement : K
  ConductionClosureFactor : K
  ViscosityClosureFactor : K
  conduction : Bool
  viscosity : Bool

/-- The primitive variables of one cell (`prim->vars[vars::RHO]`, ...). -/
structure Prim (K : Type) where
  RHO : K
  U : K
  U1 : K
  U2 : K
  U3 : K
  B1 : K
  B2 : K
  B3 : K
  Q : K
  DP : K

/-- The geometry of one cell: radius `xCoords[0]`, covariant and contravariant metric. -/
structure Geom (K : Type) where
  Radius : K
  gCov : Fin 4 → Fin 4 → K
  gCon : Fin 4 → Fin 4 → K

/-- The fields of `fluidElement` (physics.hpp) that `applyFloor` reads, for one cell. -/
structure Elem (K : Type) where
  bSqr : K
  gammaLorentzFactor : K
  soundSpeed : K
  pressure : K
  q : K
  deltaP : K
  uCon : Fin 4 → K
  bCon : Fin 4 → K

/-- The library functions `af::sqrt` and `af::pow`. -/
structure Lib (K : Type) where
  sqrt : K → K
  pow : K → K → K

/-- What is assumed of `af::sqrt` where a theorem needs it: on non-negative
arguments it returns the non-negative square root. -/
def Lib.SqrtExact (L : Lib K) : Prop :=
  ∀ x : K, 0 ≤ x → 0 ≤ L.sqrt x ∧ L.sqrt x * L.sqrt x = x

/-- Line 500: `minRho = af::pow(Radius,RhoFloorSlope)*RhoFloorAmpl`. -/
def minRho (L : Lib K) (P : FloorParams K) (g : Geom K) : K :=
  L.pow g.Radius P.RhoFloorSlope * P.RhoFloorAmpl

/-- Line 501: `minU = af::pow(Radius,UFloorSlope)*UFloorAmpl`. -/
def minU (L : Lib K) (P : FloorParams K) (g : Geom K) : K :=
  L.pow g.Radius P.UFloorSlope * P.UFloorAmpl

/-- The state of one cell while `applyFloor` runs: the primitives and the `usefloor` mask. -/
structure FloorState (K : Type) where
  prim : Prim K
  usefloor : K

/-- Step 1, lines 510-516: density and internal-energy floors. -/
def floorStep (L : Lib K) (P : FloorParams K) (g : Geom K) (p : Prim K) : FloorState K :=
  let condition : K := ind (p.RHO < minRho L P g)
  let usefloor : K := condition
  let rho : K := condition * minRho L P g + (1 - condition) * p.RHO
  let condition : K := ind (p.U < minU L P g)
  let usefloor : K := max condition usefloor
  let u : K := condition * minU L P g + (1 - condition) * p.U
  { prim := { p with RHO := rho, U := u }, usefloor := usefloor }

/-- Step 2, lines 518-525: magnetization caps; `e` is the element set at line 518. -/
def capStep (P : FloorParams K) (e : Elem K) (s : FloorState K) : FloorState K :=
  let bSqr : K := e.bSqr
  let condition : K := ind (bSqr > P.BsqrOverRhoMax * s.prim.RHO)
  let usefloor : K := max condition s.usefloor
  let rho : K := s.prim.RHO * (1 - condition) + condition * bSqr / P.BsqrOverRhoMax
  let condition : K := ind (bSqr > P.BsqrOverUMax * s.prim.U)
  let usefloor : K := max condition usefloor
  let u : K := s.prim.U * (1 - condition) + condition * bSqr / P.BsqrOverUMax
  { prim := { s.prim with RHO := rho, U := u }, usefloor := usefloor }

/-- Line 537: `betapar = -elem->bCon[0]/bSqr/elem->uCon[0]`; `e` is the element
set at line 518. -/
def betapar (e : Elem K) : K :=
  -e.bCon 0 / e.bSqr / e.uCon 0

/-- Lines 538-540: the value of `betasqr` when line 541 takes
`1./af::sqrt(1.-betasqr)`. -/
def betasqr (P : FloorParams K) (e : Elem K) : K :=
  let bSqr : K := e.bSqr
  let betasqr : K := betapar e * betapar e * bSqr
  let betasqrmax : K := 1 - 1 / P.MaxLorentzFactor / P.MaxLorentzFactor
  min betasqr betasqrmax

/-- Lines 531-533: the blending weight `trans` of the velocity repair; `e` is
the element set at line 518 and `s` the state after step 2. -/
def trans (e : Elem K) (s : FloorState K) : K :=
  let bSqr : K := e.bSqr
  let usefloor : K := s.usefloor
  let zero : K := usefloor * 0
  max (min (zero + 1) ((bSqr - 0.1 * s.prim.RHO) / s.prim.RHO)) zero * ind (usefloor > zero)

/-- Lines 537-587 ("Sasha's floor method"): the new contravariant 3-velocity
`vcon`.  `e` is the element set at line 518 (nothing resets it before line
619), `p0` holds the pre-floor primitives (`rho_prefloor`, `u_prefloor`), `s`
is the state after step 2.  The accumulation loops over `NDIM = 4` indices are
written as sums. -/
def vcon (L : Lib K) (P : FloorParams K) (g : Geom K) (e : Elem K) (p0 : Prim K)
    (s : FloorState K) : Fin 4 → K :=
  let usefloor : K := s.usefloor
  let rho_prefloor : K := p0.RHO * 1
  let u_prefloor : K := p0.U * 1
  let zero : K := usefloor * 0
  let betapar : K := betapar e
  let betasqr : K := betasqr P e
  let gamma : K := 1 / L.sqrt (1 - betasqr)
  let ucondr : Fin 4 → K := fun m => gamma * (e.uCon m + betapar * e.bCon m)
  let Bcon : Fin 4 → K := ![zero, s.prim.B1, s.prim.B2, s.prim.B3]
  let Bcov : Fin 4 → K := fun m => zero + ∑ n : Fin 4, g.gCov n m * Bcon n
  let udotB : K := zero + ∑ n : Fin 4, Bcov n * e.uCon n
  let bSqr_fl : K := zero + ∑ n : Fin 4, Bcov n * Bcon n
  let bNorm : K := L.sqrt bSqr_fl
  let bMin : K := L.sqrt P.bSqrFloorInFluidElement
  let bNorm : K := max bNorm bMin
  let wold : K := rho_prefloor + u_prefloor * P.adiabaticIndex
  let QdotB : K := udotB * wold * e.uCon 0
  let wnew : K := s.prim.RHO + s.prim.U * P.adiabaticIndex
  let x : K := 2 * QdotB / (bNorm * wnew * ucondr 0)
  let vpar : K := x / (ucondr 0 * (1 + L.sqrt (1 + x * x)))
  let one_over_ucondr_t : K := 1 / ucondr 0
  fun m => if m = 0 then zero + 1 else vpar * Bcon m / bNorm + ucondr m * one_over_ucondr_t

/-- Lines 588-591: `vsqr` before the guard, the metric square of `vcon`. -/
def vsqr (g : Geom K) (zero : K) (vcon : Fin 4 → K) : K :=
  zero + ∑ m : Fin 4, ∑ n : Fin 4, g.gCov m n * vcon m * vcon n

/-- Line 593: the guard `condition_v = (vsqr>=0.|| vsqr<1./geom->gCon[0][0])`. -/
def condition_v (g : Geom K) (vsqr : K) : K :=
  ind (vsqr ≥ 0 ∨ vsqr < 1 / g.gCon 0 0)

/-- Line 594: `vsqr` after the guard,
`vsqr=(1.-condition_v)*vsqr+condition_v/geom->gCon[0][0]`. -/
def vsqrGuarded (g : Geom K) (vsqr : K) : K :=
  let condition_v : K := condition_v g vsqr
  (1 - condition_v) * vsqr + condition_v / g.gCon 0 0

/-- Line 596: `ut = af::sqrt(-1./vsqr)`, of the guarded `vsqr`. -/
def ut (L : Lib K) (g : Geom K) (vsqr : K) : K :=
  L.sqrt (-1 / vsqrGuarded g vsqr)

/-- Lines 588-603: the velocity `utcon` that the repair blends in. -/
def utcon (L : Lib K) (P : FloorParams K) (g : Geom K) (e : Elem K) (p0 : Prim K)
    (s : FloorState K) : Fin 4 → K :=
  let zero : K := s.usefloor * 0
  let vcon : Fin 4 → K := vcon L P g e p0 s
  let ut : K := ut L g (vsqr g zero vcon)
  fun m => if m = 0 then zero else ut * (vcon m - g.gCon 0 m / g.gCon 0 0)

/-- Step 3, lines 531-615: velocity repair.  `e` is the element set at line 518,
`p0` holds the pre-floor primitives, `s` is the state after step 2. -/
def velocityStep (L : Lib K) (P : FloorParams K) (g : Geom K) (e : Elem K) (p0 : Prim K)
    (s : FloorState K) : FloorState K :=
  let usefloor : K := s.usefloor
  let trans : K := trans e s
  let utcon : Fin 4 → K := utcon L P g e p0 s
  { prim := { s.prim with
        U1 := s.prim.U1 * (1 - trans) + trans * utcon 1
        U2 := s.prim.U2 * (1 - trans) + trans * utcon 2
        U3 := s.prim.U3 * (1 - trans) + trans * utcon 3 },
    usefloor := usefloor }

/-- Line 624: the mask of the cells above the Lorentz-factor cap; `e` is the
element reset at line 619. -/
def lorentzCondition (P : FloorParams K) (e : Elem K) : K :=
  let lorentzFactor : K := e.gammaLorentzFactor
  let lorentzFactorSqr : K := lorentzFactor * lorentzFactor
  ind (lorentzFactorSqr > P.MaxLorentzFactor * P.MaxLorentzFactor)

/-- Line 628-629: the factor `MultFac` of one cell. -/
def MultFac (L : Lib K) (P : FloorParams K) (e : Elem K) : K :=
  let lorentzFactor : K := e.gammaLorentzFactor
  let lorentzFactorSqr : K := lorentzFactor * lorentzFactor
  let MultFac : K :=
    L.sqrt (max ((lorentzFactorSqr - 1) / (P.MaxLorentzFactor * P.MaxLorentzFactor - 1)) 1)
  1 / MultFac

/-- Lines 631-633: the body of the branch at line 626, for one cell. -/
def lorentzRescale (L : Lib K) (P : FloorParams K) (e : Elem K) (p : Prim K) : Prim K :=
  { p with U1 := p.U1 * MultFac L P e, U2 := p.U2 * MultFac L P e, U3 := p.U3 * MultFac L P e }

/-- Line 645: `Qmax = 1.07*ConductionClosureFactor*rho*pow(cs,3.)` (`pow(cs,3.)`
is the cube); `e` is the element set at line 639. -/
def Qmax (P : FloorParams K) (e : Elem K) (p : Prim K) : K :=
  let rho : K := p.RHO
  let cs : K := e.soundSpeed
  1.07 * P.ConductionClosureFactor * rho * cs ^ 3

/-- Lines 641-649: heat-flux limiter; `e` is the element set at line 639. -/
def conductionStep (P : FloorParams K) (e : Elem K) (p : Prim K) : Prim K :=
  if P.conduction then
    let LimFac : K := max (|e.q| / Qmax P e p) 1
    { p with Q := p.Q / LimFac }
  else p

/-- Line 654: `dPmod`. -/
def dPmod (P : FloorParams K) (e : Elem K) : K :=
  let pressure : K := e.pressure
  let deltaP : K := e.deltaP
  max (pressure - 2 / 3 * deltaP) (0.01 * P.bSqrFloorInFluidElement)
    / max (pressure + 1 / 3 * deltaP) P.bSqrFloorInFluidElement

/-- Line 655: `dPmaxPlus`; `bSqr` is a reference to `elem->bSqr`, so it is the
value set at line 639. -/
def dPmaxPlus (P : FloorParams K) (e : Elem K) : K :=
  let bSqr : K := e.bSqr
  let pressure : K := e.pressure
  min (1.07 * P.ViscosityClosureFactor * bSqr * 0.5 * dPmod P e) (1.49 * pressure)

/-- Line 656: `dPmaxMinus`. -/
def dPmaxMinus (P : FloorParams K) (e : Elem K) : K :=
  let bSqr : K := e.bSqr
  let pressure : K := e.pressure
  max (-1.07 * P.ViscosityClosureFactor * bSqr) (-2.99 * pressure)

/-- Lines 650-662: pressure-anisotropy limiter; `e` is the element set at line 639. -/
def viscosityStep (P : FloorParams K) (e : Elem K) (p : Prim K) : Prim K :=
  if P.viscosity then
    let deltaP : K := e.deltaP
    let condition : K := ind (deltaP > 0)
    { p with DP := p.DP *
        (condition / max (deltaP / dPmaxPlus P e) 1
          + (1 - condition) / max (deltaP / dPmaxMinus P e) 1) }
  else p

/-- Modelled from the spec: `fluidElement::set` is not among the translated
sources; the quadratic form of the spatial metric in `(U1,U2,U3)` from which
it derives the Lorentz factor, `gamma^2 - 1 = sum_{i,j=1..3} gCov[i][j] u^i u^j`. -/
def spatialQuad (g : Geom K) (p : Prim K) : K :=
  let u : Fin 4 → K := ![0, p.U1, p.U2, p.U3]
  ∑ i : Fin 4, ∑ j : Fin 4, g.gCov i j * u i * u j

/-- Modelled from the spec: what is assumed of the Lorentz factor that the absent
`fluidElement::set` derives in a cell of geometry `g`: it is non-negative and
`gamma^2 - 1` is the quadratic form `spatialQuad` of the velocity components. -/
def LorentzOfMetric (set : Geom K → Prim K → Elem K) (g : Geom K) : Prop :=
  ∀ p : Prim K, 0 ≤ (set g p).gammaLorentzFactor ∧
    (set g p).gammaLorentzFactor ^ 2 - 1 = spatialQuad g p

section Grid

variable {ι : Type} [Fintype ι]

/-- The state after steps 1-3 (lines 500-615) in every cell.  `set` is
`fluidElement::set` restricted to one cell (it acts cell by cell). -/
def floorSteps123 (L : Lib K) (P : FloorParams K) (set : Geom K → Prim K → Elem K)
    (geom : ι → Geom K) (prim : ι → Prim K) : ι → FloorState K :=
  fun c =>
    let s1 := floorStep L P (geom c) (prim c)
    let e := set (geom c) s1.prim
    velocityStep L P (geom c) e (prim c) (capStep P e s1)

/-- Step 4, lines 618-637: the hard Lorentz-factor cap.  The branch at line 626
is taken for the whole grid as soon as one cell is above the cap. -/
def lorentzStep (L : Lib K) (P : FloorParams K) (set : Geom K → Prim K → Elem K)
    (geom : ι → Geom K) (prim : ι → Prim K) : ι → Prim K :=
  let elem : ι → Elem K := fun c => set (geom c) (prim c)
  let conditionIndices : Finset ι := univ.filter (fun c => lorentzCondition P (elem c) > 0)
  if conditionIndices.card > 0 then fun c => lorentzRescale L P (elem c) (prim c) else prim

/-- The routine `applyFloor` (lines 494-666): the primitives it leaves in
`prim` and its local mask `usefloor`, for every cell. -/
def applyFloor (L : Lib K) (P : FloorParams K) (set : Geom K → Prim K → Elem K)
    (geom : ι → Geom K) (prim : ι → Prim K) : ι → FloorState K :=
  let s3 := floorSteps123 L P set geom prim
  let p4 := lorentzStep L P set geom (fun c => (s3 c).prim)
  fun c =>
    let e := set (geom c) (p4 c)
    { prim := viscosityStep P e (conductionStep P e (p4 c)), usefloor := (s3 c).usefloor }

end Grid

/-! ## `timeStepper::solve` (solve.cpp, lines 4-163) -/

/-- The parameters read by `timeStepper::solve` (namespace `params`).  The two
iteration caps are C++ `int`s; a negative cap runs no iteration, like 0. -/
structure SolveParams (K : Type) where
  maxNonLinearIter : ℕ
  maxLineSearchIters : ℕ
  nonlinearsolve_atol : K
  JacobianAssembleEpsilon : K
  linesearchfloor : K

/-- A `grid`: one array over the cells for each of the `vars::dof = D` variables. -/
abbrev Grid (ι : Type) (D : ℕ) (K : Type) := Fin D → ι → K

/-- The functions `timeStepper::solve` calls and that are not translated:
`computeResidual(prim, residual, mode)` (a pure function of the state; `mode`
is `true` for the full residual and `false` for the one without explicit
terms) and ArrayFire's dense solver `af::solve(A, b)`. -/
structure SolveEnv (ι : Type) (D : ℕ) (K : Type) where
  computeResidual : Grid ι D K → Bool → Grid ι D K
  solve : (Fin D → Fin D → K) → (Fin D → K) → (Fin D → K)

section Solve

variable {ι : Type} [Fintype ι] {D : ℕ}

/-- Line 23: `af::norm(af::flat(residualSoA))`, the 2-norm over all cells and variables. -/
def globalL2Norm (L : Lib K) (residualSoA : Grid ι D K) : K :=
  L.sqrt (∑ var : Fin D, ∑ c : ι, residualSoA var c * residualSoA var c)

/-- Lines 46-48: the perturbed value of one entry of `primGuess.vars[row]`. -/
def perturb (epsilon p : K) : K :=
  let smallPrim : K := ind (|p| < 0.5 * epsilon)
  (1 + epsilon) * p * (1 - smallPrim) + smallPrim * epsilon

/-- The two arrays the Jacobian loop writes: `primGuessPlusEps` and `jacobianSoA`
(indexed by its fourth dimension). -/
structure JacobianState (ι : Type) (D : ℕ) (K : Type) where
  primGuessPlusEps : Grid ι D K
  jacobianSoA : ℕ → ι → K

/-- Lines 52-59: the loop over `column` for a fixed `row`. -/
def jacobianColumns (residualPlusEps residual primGuessPlusEps primGuess : Grid ι D K)
    (row : Fin D) (jacobianSoA : ℕ → ι → K) : ℕ → ι → K :=
  (List.finRange D).foldl
    (fun jac column => Function.update jac (column.val + D * row.val)
      (fun c => (residualPlusEps column c - residual column c)
        / (primGuessPlusEps row c - primGuess row c)))
    jacobianSoA

/-- Lines 42-61: the body of the loop over `row`. -/
def jacobianRow (E : SolveEnv ι D K) (S : SolveParams K) (primGuess residual : Grid ι D K)
    (st : JacobianState ι D K) (row : Fin D) : JacobianState ι D K :=
  let epsilon : K := S.JacobianAssembleEpsilon
  let primGuessPlusEps : Grid ι D K :=
    Function.update st.primGuessPlusEps row (fun c => perturb epsilon (primGuess row c))
  let residualPlusEps : Grid ι D K := E.computeResidual primGuessPlusEps false
  let jacobianSoA : ℕ → ι → K :=
    jacobianColumns residualPlusEps residual primGuessPlusEps primGuess row st.jacobianSoA
  { primGuessPlusEps := Function.update primGuessPlusEps row (primGuess row),
    jacobianSoA := jacobianSoA }

/-- Lines 36-62: Jacobian assembly.  `primGuessPlusEps` starts as a copy of
`primGuess` (line 19); the previous content of `jacobianSoA` is irrelevant
(every entry is overwritten) and is taken to be 0. -/
def assembleJacobian (E : SolveEnv ι D K) (S : SolveParams K) (primGuess : Grid ι D K) :
    JacobianState ι D K :=
  let residual : Grid ι D K := E.computeResidual primGuess false
  (List.finRange D).foldl (jacobianRow E S primGuess residual)
    { primGuessPlusEps := primGuess, jacobianSoA := fun _ _ => 0 }

/-- Lines 68 and 84-86: the matrix `A` of one cell, `moddims` of the `D*D`
entries of `jacobianAoS(span,i,j,k)` in column-major order. -/
def cellMatrix (jacobianSoA : ℕ → ι → K) (c : ι) : Fin D → Fin D → K :=
  fun i j => jacobianSoA (i.val + D * j.val) c

/-- Lines 28-33 and 65-94: right-hand side `b = -residual` and the per-cell
solve; the result is `deltaPrimSoA`. -/
def deltaPrimSoA (E : SolveEnv ι D K) (S : SolveParams K) (primGuess residual : Grid ι D K) :
    Grid ι D K :=
  let bSoA : Grid ι D K := fun var c => -residual var c
  let jacobianSoA : ℕ → ι → K := (assembleJacobian E S primGuess).jacobianSoA
  fun var c => E.solve (cellMatrix jacobianSoA c) (fun v => bSoA v c) var

/-- Lines 108 and 132: `0.5 * af::sum(af::pow(residualSoA, 2.), 3)`. -/
def merit (residualSoA : Grid ι D K) : ι → K :=
  fun c => 0.5 * ∑ var : Fin D, residualSoA var c ^ 2

/-- What one pass of the line-search body computes: the new `stepLength`, the
mask `condition` and the divisor `denom`. -/
structure LineSearchPass (ι : Type) (K : Type) where
  stepLength : ι → K
  condition : ι → K
  denom : ι → K

/-- Lines 119-145: the body of the line-search loop up to the update of `stepLength`. -/
def lineSearchBody (E : SolveEnv ι D K) (S : SolveParams K) (primGuess deltaPrim : Grid ι D K)
    (f0 : ι → K) (stepLength : ι → K) : LineSearchPass ι K :=
  let fPrime0 : ι → K := fun c => -2 * f0 c
  let primGuessLineSearchTrial : Grid ι D K :=
    fun var c => primGuess var c + stepLength c * deltaPrim var c
  let residualSoA : Grid ι D K := E.computeResidual primGuessLineSearchTrial true
  let f1 : ι → K := merit residualSoA
  let alpha : K := 1e-4
  let EPS : K := S.linesearchfloor
  let condition : ι → K := fun c => ind (f1 c > f0 c * (1 - alpha * stepLength c) + EPS)
  let denom : ι → K :=
    fun c => (f1 c - f0 c - fPrime0 c * stepLength c) * condition c + (1 - condition c)
  let nextStepLength : ι → K :=
    fun c => -fPrime0 c * stepLength c * stepLength c / denom c / 2
  { stepLength := fun c => stepLength c * (1 - condition c) + condition c * nextStepLength c,
    condition := condition,
    denom := denom }

/-- The variables that survive the line-search loop: `stepLength` and `lineSearchIter`. -/
structure LineSearchState (ι : Type) (K : Type) where
  stepLength : ι → K
  lineSearchIter : ℕ

/-- Lines 116-152: the line-search loop; `fuel` is the number of iterations
still allowed, `maxLineSearchIters - lineSearchIter`. -/
def lineSearchLoop (E : SolveEnv ι D K) (S : SolveParams K) (primGuess deltaPrim : Grid ι D K)
    (f0 : ι → K) : ℕ → ℕ → (ι → K) → LineSearchState ι K
  | 0, lineSearchIter, stepLength => { stepLength := stepLength, lineSearchIter := lineSearchIter }
  | fuel + 1, lineSearchIter, stepLength =>
    let pass := lineSearchBody E S primGuess deltaPrim f0 stepLength
    let conditionIndices : Finset ι := univ.filter (fun c => pass.condition c > 0)
    if conditionIndices.card = 0 then
      { stepLength := pass.stepLength, lineSearchIter := lineSearchIter }
    else lineSearchLoop E S primGuess deltaPrim f0 fuel (lineSearchIter + 1) pass.stepLength

/-- Lines 113-152: the line search, started with a full step in every cell. -/
def lineSearch (E : SolveEnv ι D K) (S : SolveParams K) (primGuess deltaPrim : Grid ι D K)
    (f0 : ι → K) : LineSearchState ι K :=
  lineSearchLoop E S primGuess deltaPrim f0 S.maxLineSearchIters 0 (fun _ => 1)

/-- Lines 28-160: the part of the outer loop body after the convergence test;
`residualSoA` is the full residual of `primGuess` computed at line 11. -/
def newtonUpdate (E : SolveEnv ι D K) (S : SolveParams K) (primGuess residualSoA : Grid ι D K) :
    Grid ι D K :=
  let deltaPrim : Grid ι D K := deltaPrimSoA E S primGuess residualSoA
  let f0 : ι → K := merit residualSoA
  let stepLength : ι → K := (lineSearch E S primGuess deltaPrim f0).stepLength
  fun var c => primGuess var c + stepLength c * deltaPrim var c

/-- The variables that survive the outer loop: `primGuess` and the counter `nonLinearIter`. -/
structure SolveState (ι : Type) (D : ℕ) (K : Type) where
  primGuess : Grid ι D K
  nonLinearIter : ℕ

/-- Lines 6-161: the outer loop; `fuel` is `maxNonLinearIter - nonLinearIter`. -/
def solveLoop (L : Lib K) (E : SolveEnv ι D K) (S : SolveParams K) :
    ℕ → ℕ → Grid ι D K → SolveState ι D K
  | 0, nonLinearIter, primGuess => { primGuess := primGuess, nonLinearIter := nonLinearIter }
  | fuel + 1, nonLinearIter, primGuess =>
    let residualSoA : Grid ι D K := E.computeResidual primGuess true
    if globalL2Norm L residualSoA < S.nonlinearsolve_atol then
      { primGuess := primGuess, nonLinearIter := nonLinearIter }
    else solveLoop L E S fuel (nonLinearIter + 1) (newtonUpdate E S primGuess residualSoA)

/-- The routine `timeStepper::solve(grid &primGuess)`: the final content of
`primGuess`, with the value of the loop counter on exit. -/
def solve (L : Lib K) (E : SolveEnv ι D K) (S : SolveParams K) (primGuess : Grid ι D K) :
    SolveState ι D K :=
  solveLoop L E S S.maxNonLinearIter 0 primGuess

end Solve


/-! ## Derived quantities used in the statements -/

section SolveAux

variable {ι : Type} {D : ℕ}

/-- The grid handed to `computeResidual` at line 50 when `primGuessPlusEps` is a
copy of `primGuess`: only the entries of variable `row` are perturbed. -/
def perturbedGuess (epsilon : K) (primGuess : Grid ι D K) (row : Fin D) : Grid ι D K :=
  Function.update primGuess row (fun c => perturb epsilon (primGuess row c))

/-- The finite-difference quotient of lines 55-58 for residual component
`column` and perturbed variable `row`. -/
def fdQuotient (E : SolveEnv ι D K) (S : SolveParams K) (primGuess : Grid ι D K)
    (column row : Fin D) : ι → K :=
  fun c =>
    (E.computeResidual (perturbedGuess S.JacobianAssembleEpsilon primGuess row) false column c
        - E.computeResidual primGuess false column c)
      / (perturb S.JacobianAssembleEpsilon (primGuess row c) - primGuess row c)

/-- The merit function at the trial state: `f(primGuess + stepLength*deltaPrim)`,
with `f` half the sum of the squared full-mode residual components of a cell. -/
def trialMerit (E : SolveEnv ι D K) (primGuess deltaPrim : Grid ι D K) (stepLength : ι → K) :
    ι → K :=
  merit (E.computeResidual (fun var c => primGuess var c + stepLength c * deltaPrim var c) true)

/-- Modelled from the spec: `computeResidual` is not among the translated
sources.  The spec has the nonlinear system solved independently for every
cell, each cell's residual being a function of that cell's state vector; so
the residual of a cell depends only on the state of that cell. -/
def CellLocal (E : SolveEnv ι D K) : Prop :=
  ∀ (x y : Grid ι D K) (mode : Bool) (c : ι), (∀ var, x var c = y var c) →
    ∀ var, E.computeResidual x mode var c = E.computeResidual y mode var c

/-- The grid that differs from `primGuess` only in variable `row` of the one
cell `c`, which carries the perturbed value of lines 46-48. -/
def cellPerturbedGuess [DecidableEq ι] (epsilon : K) (primGuess : Grid ι D K) (row : Fin D)
    (c : ι) : Grid ι D K :=
  fun var c2 => if var = row ∧ c2 = c then perturb epsilon (primGuess row c) else primGuess var c2

end SolveAux

/-- The model of the comment at lines 96-106:
`f = (f1-f0-fPrime0*stepLength0)*(stepLength/stepLength0)^2 + fPrime0*stepLength + f0`
with `fPrime0 = -2*f0`. -/
def backtrackModel (f0 f1 stepLength0 stepLength : K) : K :=
  let fPrime0 : K := -2 * f0
  (f1 - f0 - fPrime0 * stepLength0) * (stepLength / stepLength0) ^ 2 + fPrime0 * stepLength + f0

/-- Flat space-time (Minkowski metric), at radius 1. -/
def flatGeom : Geom K where
  Radius := 1
  gCov := fun i j => if i = j then (if i = 0 then -1 else 1) else 0
  gCon := fun i j => if i = j then (if i = 0 then -1 else 1) else 0

/-- An instance of `fluidElement::set` for the examples: an ideal gas whose
Lorentz factor is derived from the metric, with the magnetic energy density of
a fluid at rest. -/
def flatSet (sqrt : K → K) (adiabaticIndex : K) (g : Geom K) (p : Prim K) : Elem K :=
  let gamma : K := sqrt (1 + spatialQuad g p)
  let pressure : K := (adiabaticIndex - 1) * p.U
  { bSqr := p.B1 * p.B1 + p.B2 * p.B2 + p.B3 * p.B3
    gammaLorentzFactor := gamma
    soundSpeed := sqrt (adiabaticIndex * pressure / (p.RHO + adiabaticIndex * p.U))
    pressure := pressure
    q := p.Q
    deltaP := p.DP
    uCon := ![gamma, p.U1, p.U2, p.U3]
    bCon := ![0, p.B1, p.B2, p.B3] }

/-- Floor parameters of the examples: floors `minRho = minU = 1` at radius 1,
magnetization caps 10 and 100, Lorentz-factor cap 10, both closures enabled. -/
def torusParams : FloorParams K where
  RhoFloorSlope := -2
  RhoFloorAmpl := 1
  UFloorSlope := -3
  UFloorAmpl := 1
  BsqrOverRhoMax := 10
  BsqrOverUMax := 100
  MaxLorentzFactor := 10
  adiabaticIndex := 4 / 3
  bSqrFloorInFluidElement := 1 / 10 ^ 6
  ConductionClosureFactor := 1
  ViscosityClosureFactor := 1
  conduction := true
  viscosity := true

/-- The library on the rationals: `Rat.sqrt` is the square root of a perfect
square and `x ^ ⌊y⌋` the power for an integer exponent `y`, which are the only
arguments the examples evaluate them at. -/
def ratLib : Lib ℚ where
  sqrt := Rat.sqrt
  pow := fun x y => x ^ ⌊y⌋

/-- A cell at rest with density 0 (below the floor) and `B1 = 4`. -/
def thinCell : Prim K where
  RHO := 0
  U := 3
  U1 := 0
  U2 := 0
  U3 := 0
  B1 := 4
  B2 := 0
  B3 := 0
  Q := 0
  DP := 0

/-- A cell at rest that respects every floor and cap: `rho = 8`, `u = 3`, `B1 = 1`. -/
def validCell : Prim K where
  RHO := 8
  U := 3
  U1 := 0
  U2 := 0
  U3 := 0
  B1 := 1
  B2 := 0
  B3 := 0
  Q := 0
  DP := 0

/-- A cell moving along the first axis with `U1 = 10`, above the Lorentz-factor cap 10. -/
def fastCell : Prim K where
  RHO := 8
  U := 3
  U1 := 10
  U2 := 0
  U3 := 0
  B1 := 1
  B2 := 0
  B3 := 0
  Q := 0
  DP := 0

/-- A valid cell at rest whose pressure anisotropy `DP = 5` and heat flux
`Q = 1` are above their closure bounds. -/
def stressedCell : Prim K where
  RHO := 8
  U := 3
  U1 := 0
  U2 := 0
  U3 := 0
  B1 := 1
  B2 := 0
  B3 := 0
  Q := 1
  DP := 5

/-- A grid of two cells: `fastCell` and `validCell`. -/
def twoCells : Fin 2 → Prim K := fun c => if c = 0 then fastCell else validCell

/-- One cell, one variable: full residual `1 + 20 x - 18 x^2`, residual without
explicit terms `1 - x`, so that the Newton correction at `x = 0` is `1`. -/
def bumpEnv : SolveEnv (Fin 1) 1 ℚ where
  computeResidual := fun x mode => fun var c =>
    if mode then 1 + 20 * x var c - 18 * x var c ^ 2 else 1 - x var c
  solve := fun A b => fun i => b i / A i i

/-- One cell, one variable, the residual `x` in both modes. -/
def identityEnv : SolveEnv (Fin 1) 1 ℚ where
  computeResidual := fun x _ => x
  solve := fun A b => fun i => b i / A i i

/-- One outer and one line-search iteration allowed, `linesearchfloor = 0`. -/
def bumpParams : SolveParams ℚ where
  maxNonLinearIter := 1
  maxLineSearchIters := 1
  nonlinearsolve_atol := 1 / 10 ^ 10
  JacobianAssembleEpsilon := 4 / 10 ^ 8
  linesearchfloor := 0

/-- The guess `x = 0` on the grid of `bumpEnv`. -/
def originGuess : Grid (Fin 1) 1 ℚ := fun _ _ => 0

/-- The exact solution of a two by two system by Cramer's rule, an instance of `af::solve`. -/
def cramer2 (A : Fin 2 → Fin 2 → K) (b : Fin 2 → K) : Fin 2 → K :=
  let det : K := A 0 0 * A 1 1 - A 0 1 * A 1 0
  ![(b 0 * A 1 1 - A 0 1 * b 1) / det, (A 0 0 * b 1 - A 1 0 * b 0) / det]

/-- One cell, two variables, the linear residual `M x - b` with
`M = [[2, 1], [0, 3]]` and `b = (3, 3)` in both modes; its root is `(1, 1)`. -/
def linearEnv : SolveEnv (Fin 1) 2 ℚ where
  computeResidual := fun x _ => fun i c =>
    ∑ j : Fin 2, (![![2, 1], ![0, 3]] : Fin 2 → Fin 2 → ℚ) i j * x j c - (![3, 3] : Fin 2 → ℚ) i
  solve := cramer2

/-- The state `(x, y)` on a grid of one cell with two variables. -/
def pointGuess (x y : K) : Grid (Fin 1) 2 K := ![fun _ => x, fun _ => y]

/-- What is assumed of `af::solve` for a two by two system where a theorem needs
it: for a non-singular matrix the result solves the system. -/
def ExactSolve2 (solve : (Fin 2 → Fin 2 → K) → (Fin 2 → K) → (Fin 2 → K)) : Prop :=
  ∀ (A : Fin 2 → Fin 2 → K) (b : Fin 2 → K), A 0 0 * A 1 1 - A 0 1 * A 1 0 ≠ 0 →
    ∀ i : Fin 2, ∑ j : Fin 2, A i j * solve A b j = b i

/-- The first component after one full Newton step of the residual `x^2 - 4` with
the finite-difference slope `(2 + eps)*x`. -/
def newtonX (eps x : K) : K := x - (x ^ 2 - 4) / ((2 + eps) * x)

/-- The guess `(1, 1)` on a grid of one cell with two variables. -/
def onesGuess : Grid (Fin 1) 2 K := fun _ _ => 1

/-- Solver parameters of the examples. -/
def newtonParams : SolveParams K where
  maxNonLinearIter := 40
  maxLineSearchIters := 5
  nonlinearsolve_atol := 1e-10
  JacobianAssembleEpsilon := 4e-8
  linesearchfloor := 0

/-- One cell, two variables, the residual `(x^2 - 4, y - 2)` in both modes. -/
def parabolaEnv (solve : (Fin 2 → Fin 2 → K) → (Fin 2 → K) → (Fin 2 → K)) :
    SolveEnv (Fin 1) 2 K where
  computeResidual := fun x _ => ![fun c => x 0 c ^ 2 - 4, fun c => x 1 c - 2]
  solve := solve

/-! ## `inflowCheck` (problem.cpp, lines 890-988): the Lorentz factor of a boundary cell -/

section SolveAux2

variable {ι : Type} {D : ℕ}

/-- What `void timeStepper::solve(grid &primGuess)` hands to its caller: the
function returns nothing and the counter `nonLinearIter` is local to its loop,
so the content of `primGuess` on exit is all the caller receives. -/
def solveResult [Fintype ι] (L : Lib K) (E : SolveEnv ι D K) (S : SolveParams K)
    (primGuess : Grid ι D K) : Grid ι D K :=
  (solve L E S primGuess).primGuess

/-- The state of the outer loop after `k` iterations that did not stop. -/
def outerIterate [Fintype ι] (E : SolveEnv ι D K) (S : SolveParams K) (primGuess : Grid ι D K)
    (k : ℕ) : Grid ι D K :=
  (fun p => newtonUpdate E S p (E.computeResidual p true))^[k] primGuess

/-- The convergence test of lines 23-26 on a given state. -/
def testSucceeds [Fintype ι] (L : Lib K) (E : SolveEnv ι D K) (S : SolveParams K)
    (primGuess : Grid ι D K) : Prop :=
  globalL2Norm L (E.computeResidual primGuess true) < S.nonlinearsolve_atol

/-- The grid of one cell that carries the values of cell `c` of `x`. -/
def cellGrid (x : Grid ι D K) (c : ι) : Grid Unit D K :=
  fun var _ => x var c

/-- The solver's functions for cell `c` alone: on a grid of one cell, the
residual that `computeResidual` gives in cell `c` when that cell carries the
state of the single cell. -/
def cellEnv (E : SolveEnv ι D K) (c : ι) : SolveEnv Unit D K where
  computeResidual := fun y mode var _ => E.computeResidual (fun v _ => y v ()) mode var c
  solve := E.solve

/-- What is assumed of `af::solve` where a theorem needs it: for a matrix with
non-zero determinant the result solves the system. -/
def ExactSolve (solve : (Fin D → Fin D → K) → (Fin D → K) → (Fin D → K)) : Prop :=
  ∀ (A : Fin D → Fin D → K) (b : Fin D → K), Matrix.det (Matrix.of A) ≠ 0 →
    ∀ i : Fin D, ∑ j : Fin D, A i j * solve A b j = b i

end SolveAux2

/-! ## Further inputs of the examples -/

/-- One cell, one variable, the constant residual 1 in both modes, so that the
Jacobian is the zero matrix; the instance of `af::solve` leaves the
right-hand side in place when the matrix is singular. -/
def constantEnv : SolveEnv (Fin 1) 1 ℚ where
  computeResidual := fun _ _ => fun _ _ => 1
  solve := fun A b => fun i => if A i i = 0 then b i else b i / A i i

/-- The guess `x = 1` on a grid of one cell with one variable. -/
def unitGuess : Grid (Fin 1) 1 ℚ := fun _ _ => 1

/-- Two cells, one variable, in both cells the residuals of `bumpEnv`. -/
def pairEnv : SolveEnv (Fin 2) 1 ℚ where
  computeResidual := fun x mode => fun var c =>
    if mode then 1 + 20 * x var c - 18 * x var c ^ 2 else 1 - x var c
  solve := fun A b => fun i => b i / A i i

/-- The library functions `exp`, `log`, `sin`, `cos` and the constant `M_PI`. -/
structure MathLib (K : Type) where
  exp : K → K
  log : K → K
  sin : K → K
  cos : K → K
  M_PI : K

/-- What is assumed of `af::exp` where a theorem needs it: its values are positive. -/
def MathLib.ExpPos (T : MathLib K) : Prop :=
  ∀ x : K, 0 < T.exp x

/-- What is assumed of `af::pow` where a theorem needs it: a power of a positive
base is positive. -/
def Lib.PowPos (L : Lib K) : Prop :=
  ∀ x y : K, 0 < x → 0 < L.pow x y

/-- Lines 14-19: the factor `fdCon` of the conduction branch; `rho` and `e` hold
the members `rho`, `soundSpeed` and `q` of the fluid element. -/
def fdCon (L : Lib K) (T : MathLib K) (P : FloorParams K) (rho : K) (e : Elem K) : K :=
  let Qmax : K := P.ConductionClosureFactor * rho * L.pow e.soundSpeed 3
  let lambda : K := 0.01
  let yCon : K := |e.q| / Qmax
  let yCon : K := T.exp (-(yCon - 1) / lambda)
  yCon / (yCon + 1) + 1e-5

/-- Lines 24-35: the factor `fdVis` of the viscosity branch. -/
def fdVis (T : MathLib K) (P : FloorParams K) (e : Elem K) : K :=
  let pressure : K := e.pressure
  let deltaP : K := e.deltaP
  let bSqr : K := e.bSqr
  let dPmod : K := max (pressure - 2 / 3 * deltaP) P.bSqrFloorInFluidElement
    / max (pressure + 1 / 3 * deltaP) P.bSqrFloorInFluidElement
  let dPmaxPlus : K := min (P.ViscosityClosureFactor * bSqr * 0.5 * dPmod) (1.49 * pressure / 1.07)
  let dPmaxMinus : K := max (-P.ViscosityClosureFactor * bSqr) (-2.99 * pressure / 1.07)
  let condition : K := ind (deltaP > 0)
  let dPmax : K := condition * dPmaxPlus + (1 - condition) * dPmaxMinus
  let lambda : K := 0.01
  let yVis : K := |deltaP| / (|dPmax| + P.bSqrFloorInFluidElement)
  let yVis : K := T.exp (-(yVis - 1) / lambda)
  yVis / (yVis + 1) + 1e-5

/-- Lines 5-37: the relaxation time `tau` that
`fluidElement::setFluidElementParameters` leaves in one cell. -/
def tau (L : Lib K) (T : MathLib K) (P : FloorParams K) (g : Geom K) (rho : K) (e : Elem K) : K :=
  let Radius : K := g.Radius
  let DynamicalTimescale : K := L.pow Radius 1.5
  let tau : K := DynamicalTimescale
  let tau : K :=
    if P.conduction then min tau (DynamicalTimescale * fdCon L T P rho e) else tau
  let tau : K :=
    if P.viscosity then min tau (DynamicalTimescale * fdVis T P e) else tau
  tau

/-! ## The torus enthalpy (problem.cpp, lines 50-132) -/

/-- The parameters read by `computeLnOfh` (namespace `params`). -/
structure DiskParams (K : Type) where
  PressureMaxRadius : K
  InnerEdgeRadius : K

/-- Lines 50-58: `lFishboneMoncrief`. -/
def lFishboneMoncrief (L : Lib K) (a r _theta : K) : K :=
  let M : K := 1
  L.sqrt (M / L.pow r 3)
    * (L.pow r 4 + r * r * a * a - 2 * M * r * a * a - a * L.sqrt (M * r) * (r * r - a * a))
    / (r * r - 3 * M * r + 2 * a * L.sqrt (M * r))

/-- Lines 98-102: `computeDelta`. -/
def computeDelta (a r _theta : K) : K :=
  let M : K := 1
  r * r - 2 * M * r + a * a

/-- Lines 104-107: `computeSigma`. -/
def computeSigma (T : MathLib K) (a r theta : K) : K :=
  r * r + a * a * T.cos theta * T.cos theta

/-- Lines 109-114: `computeA`. -/
def computeA (L : Lib K) (T : MathLib K) (a r theta : K) : K :=
  let Delta : K := computeDelta a r theta
  L.pow (r * r + a * a) 2 - Delta * a * a * T.sin theta * T.sin theta

/-- Lines 60-74: `lnOfhTerm1`. -/
def lnOfhTerm1 (L : Lib K) (T : MathLib K) (a r theta l : K) : K :=
  let Delta : K := computeDelta a r theta
  let Sigma : K := computeSigma T a r theta
  let A : K := computeA L T a r theta
  0.5 * T.log ((1 + L.sqrt (1 + (4 * l * l * Sigma * Sigma * Delta)
      / (A * T.sin theta * A * T.sin theta))) / (Sigma * Delta / A))

/-- Lines 76-88: `lnOfhTerm2`. -/
def lnOfhTerm2 (L : Lib K) (T : MathLib K) (a r theta l : K) : K :=
  let Delta : K := computeDelta a r theta
  let Sigma : K := computeSigma T a r theta
  let A : K := computeA L T a r theta
  (-0.5 * L.sqrt (1 + (4 * l * l * Sigma * Sigma * Delta) / (A * A * T.sin theta * T.sin theta)))

/-- Lines 90-96: `lnOfhTerm3`. -/
def lnOfhTerm3 (L : Lib K) (T : MathLib K) (a r theta l : K) : K :=
  let A : K := computeA L T a r theta
  let M : K := 1
  (-2 * a * M * r * l / A)

/-- Lines 129-130: the sum
`term1 + term2 + term3 - term1InnerEdge - term2InnerEdge - term3InnerEdge` of
doubles, taken from left to right; `fl` is the rounding of the result of one
addition or subtraction to a double (the identity in exact arithmetic). -/
def lnOfhSum (fl : K → K)
    (term1 term2 term3 term1InnerEdge term2InnerEdge term3InnerEdge : K) : K :=
  fl (fl (fl (fl (fl (term1 + term2) + term3) - term1InnerEdge) - term2InnerEdge)
    - term3InnerEdge)

/-- Lines 117-132: `computeLnOfh`.  The six terms are doubles, whatever rounding
went into them; the sum that combines them is rounded by `fl` after each
operation. -/
def computeLnOfh (fl : K → K) (L : Lib K) (T : MathLib K) (P : DiskParams K) (a r theta : K) :
    K :=
  let l : K := lFishboneMoncrief L a P.PressureMaxRadius (T.M_PI / 2)
  let term1 : K := lnOfhTerm1 L T a r theta l
  let term2 : K := lnOfhTerm2 L T a r theta l
  let term3 : K := lnOfhTerm3 L T a r theta l
  let term1InnerEdge : K := lnOfhTerm1 L T a P.InnerEdgeRadius (T.M_PI / 2) l
  let term2InnerEdge : K := lnOfhTerm2 L T a P.InnerEdgeRadius (T.M_PI / 2) l
  let term3InnerEdge : K := lnOfhTerm3 L T a P.InnerEdgeRadius (T.M_PI / 2) l
  lnOfhSum fl term1 term2 term3 term1InnerEdge term2InnerEdge term3InnerEdge

/-! ## `timeStepper::applyProblemSpecificFluxFilter` (problem.cpp, lines 1141-1183) -/

/-- The index `vars::RHO` of the enumeration of params.hpp. -/
def vars.RHO : ℕ := 0

/-- The index `vars::B2` of the enumeration of params.hpp. -/
def vars.B2 : ℕ := 6

/-- The members of the grid `primOld` that the filter reads (C++ `int`s). -/
structure GridInfo where
  iLocalStart : ℤ
  iLocalEnd : ℤ
  N1 : ℤ
  N1Local : ℤ
  jLocalStart : ℤ
  jLocalEnd : ℤ
  N2 : ℤ
  N2Local : ℤ

/-- The two flux grids the filter writes: for each variable an array indexed by
the zone indices `(i, j, k)`; `κ` is the type of the third index. -/
structure Fluxes (κ : Type) (K : Type) where
  fluxesX1 : ℕ → ℤ → ℤ → κ → K
  fluxesX2 : ℕ → ℤ → ℤ → κ → K

/-- Lines 1145-1151: the branch of a process that owns the inner radial
boundary.  An assignment to `a(idx,span,span)` changes the entries whose
first index is `idx`. -/
def filterInnerBoundary {κ : Type} (numGhost : ℤ) (primOld : GridInfo) (F : Fluxes κ K) :
    Fluxes κ K :=
  if primOld.iLocalStart = 0 then
    let idx : ℤ := numGhost
    let rho : ℤ → ℤ → κ → K := fun i j k =>
      if i = idx then min (F.fluxesX1 vars.RHO idx j k) 0 else F.fluxesX1 vars.RHO i j k
    { F with fluxesX1 := Function.update F.fluxesX1 vars.RHO rho }
  else F

/-- Lines 1152-1158: the branch of a process that owns the outer radial boundary. -/
def filterOuterBoundary {κ : Type} (numGhost : ℤ) (primOld : GridInfo) (F : Fluxes κ K) :
    Fluxes κ K :=
  if primOld.iLocalEnd = primOld.N1 then
    let idx : ℤ := primOld.N1Local + numGhost
    let rho : ℤ → ℤ → κ → K := fun i j k =>
      if i = idx then max (F.fluxesX1 vars.RHO idx j k) 0 else F.fluxesX1 vars.RHO i j k
    { F with fluxesX1 := Function.update F.fluxesX1 vars.RHO rho }
  else F

/-- Lines 1160-1171: the branch of a process that owns the lower polar axis.
The loop over `var < dof` is a function of `var`; an assignment to
`a(span,idx,span)` changes the entries whose second index is `idx`. -/
def filterLowerPole {κ : Type} (numGhost : ℤ) (dof : ℕ) (primOld : GridInfo) (F : Fluxes κ K) :
    Fluxes κ K :=
  if primOld.jLocalStart = 0 then
    let idx : ℤ := numGhost
    let fluxesX2 : ℕ → ℤ → ℤ → κ → K := fun var =>
      if var < dof then fun i j k => if j = idx then 0 else F.fluxesX2 var i j k
      else F.fluxesX2 var
    let b2 : ℤ → ℤ → κ → K := fun i j k =>
      if j = idx - 1 then F.fluxesX1 vars.B2 i idx k * (-1.0) else F.fluxesX1 vars.B2 i j k
    { fluxesX1 := Function.update F.fluxesX1 vars.B2 b2, fluxesX2 := fluxesX2 }
  else F

/-- Lines 1172-1182: the branch of a process that owns the upper polar axis. -/
def filterUpperPole {κ : Type} (numGhost : ℤ) (dof : ℕ) (primOld : GridInfo) (F : Fluxes κ K) :
    Fluxes κ K :=
  if primOld.jLocalEnd = primOld.N2 then
    let idx : ℤ := primOld.N2Local + numGhost
    let fluxesX2 : ℕ → ℤ → ℤ → κ → K := fun var =>
      if var < dof then fun i j k => if j = idx then 0 else F.fluxesX2 var i j k
      else F.fluxesX2 var
    let b2 : ℤ → ℤ → κ → K := fun i j k =>
      if j = idx then F.fluxesX1 vars.B2 i (idx - 1) k * (-1.0) else F.fluxesX1 vars.B2 i j k
    { fluxesX1 := Function.update F.fluxesX1 vars.B2 b2, fluxesX2 := fluxesX2 }
  else F

/-- The routine `timeStepper::applyProblemSpecificFluxFilter` (lines 1141-1183):
the content of `fluxesX1` and `fluxesX2` on exit, its four branches in the
order of the source. -/
def applyProblemSpecificFluxFilter {κ : Type} (numGhost : ℤ) (dof : ℕ) (primOld : GridInfo)
    (F : Fluxes κ K) : Fluxes κ K :=
  let F : Fluxes κ K := filterInnerBoundary numGhost primOld F
  let F : Fluxes κ K := filterOuterBoundary numGhost primOld F
  let F : Fluxes κ K := filterLowerPole numGhost dof primOld F
  let F : Fluxes κ K := filterUpperPole numGhost dof primOld F
  F

/-! ## Last inputs of the examples -/

/-- A grid that owns both radial boundaries, with four zones in each direction. -/
def smallGrid : GridInfo where
  iLocalStart := 0
  iLocalEnd := 4
  N1 := 4
  N1Local := 4
  jLocalStart := 0
  jLocalEnd := 4
  N2 := 4
  N2Local := 4

/-! ## Rounding to a double, where a claim turns on it -/

/-- Rounding of a rational to the nearest integer, a tie going to the even one. -/
def roundTiesEven (q : ℚ) : ℤ :=
  let f : ℤ := ⌊q⌋
  let r : ℚ := q - f
  if r < 1 / 2 then f else if 1 / 2 < r then f + 1 else if f % 2 = 0 then f else f + 1

/-- Rounding of a rational to a double (binary64, round to nearest, ties to
even): the significand has 53 bits.  The exponent is not bounded, so overflow
and subnormal numbers are outside the model. -/
def roundDouble (q : ℚ) : ℚ :=
  if q = 0 then 0
  else
    let e : ℤ := Int.log 2 |q|
    (roundTiesEven (q / 2 ^ (e - 52)) : ℚ) * 2 ^ (e - 52)

/-- Lines 46-48 with the rounding `fl` of the scalar sum `1. + epsilon`, which is
computed in double precision before it multiplies the array; the other
operations are exact.  In exact arithmetic `fl` is the identity and this is
`perturb`. -/
def perturbRounded (fl : K → K) (epsilon p : K) : K :=
  let smallPrim : K := ind (|p| < 0.5 * epsilon)
  fl (1 + epsilon) * p * (1 - smallPrim) + smallPrim * epsilon

/-! ## When the arithmetic of `applyFloor` is defined -/

/-- The divisors of step 2 (lines 522 and 525) are non-zero. -/
def CapsDefined (P : FloorParams K) : Prop :=
  P.BsqrOverRhoMax ≠ 0 ∧ P.BsqrOverUMax ≠ 0

/-- The conditions under which every division and every square root of the
velocity repair (lines 531-603) is defined in a cell: each divisor is
non-zero and each argument of a square root is non-negative.  Under them no
operation of the source yields an infinity or a NaN, and the arithmetic of
the embedding (in which `x / 0 = 0`) is that of the source up to rounding.
The arguments are those of `vcon`. -/
def VelocityRepairDefined (L : Lib K) (P : FloorParams K) (g : Geom K) (e : Elem K) (p0 : Prim K)
    (s : FloorState K) : Prop :=
  let usefloor : K := s.usefloor
  let rho_prefloor : K := p0.RHO * 1
  let u_prefloor : K := p0.U * 1
  let zero : K := usefloor * 0
  let betapar : K := betapar e
  let betasqr : K := betasqr P e
  let gamma : K := 1 / L.sqrt (1 - betasqr)
  let ucondr : Fin 4 → K := fun m => gamma * (e.uCon m + betapar * e.bCon m)
  let Bcon : Fin 4 → K := ![zero, s.prim.B1, s.prim.B2, s.prim.B3]
  let Bcov : Fin 4 → K := fun m => zero + ∑ n : Fin 4, g.gCov n m * Bcon n
  let udotB : K := zero + ∑ n : Fin 4, Bcov n * e.uCon n
  let bSqr_fl : K := zero + ∑ n : Fin 4, Bcov n * Bcon n
  let bNorm : K := L.sqrt bSqr_fl
  let bMin : K := L.sqrt P.bSqrFloorInFluidElement
  let bNorm : K := max bNorm bMin
  let wold : K := rho_prefloor + u_prefloor * P.adiabaticIndex
  let QdotB : K := udotB * wold * e.uCon 0
  let wnew : K := s.prim.RHO + s.prim.U * P.adiabaticIndex
  let x : K := 2 * QdotB / (bNorm * wnew * ucondr 0)
  let vsqr : K := vsqr g zero (vcon L P g e p0 s)
  s.prim.RHO ≠ 0 ∧ e.bSqr ≠ 0 ∧ e.uCon 0 ≠ 0 ∧ P.MaxLorentzFactor ≠ 0 ∧
    0 ≤ 1 - betasqr ∧ L.sqrt (1 - betasqr) ≠ 0 ∧
    0 ≤ bSqr_fl ∧ 0 ≤ P.bSqrFloorInFluidElement ∧ bNorm ≠ 0 ∧
    bNorm * wnew * ucondr 0 ≠ 0 ∧ ucondr 0 * (1 + L.sqrt (1 + x * x)) ≠ 0 ∧ ucondr 0 ≠ 0 ∧
    g.gCon 0 0 ≠ 0 ∧ vsqrGuarded g vsqr ≠ 0 ∧ 0 ≤ -1 / vsqrGuarded g vsqr

/-- The conditions under which the divisions of the two limiters (lines 641-662)
are defined in a cell: `Qmax`, the divisor of `dPmod`, `dPmaxPlus` and
`dPmaxMinus` are non-zero where the closure is enabled. -/
def LimitersDefined (P : FloorParams K) (e : Elem K) (p : Prim K) : Prop :=
  (P.conduction = true → Qmax P e p ≠ 0) ∧
  (P.viscosity = true →
    max (e.pressure + 1 / 3 * e.deltaP) P.bSqrFloorInFluidElement ≠ 0 ∧
    dPmaxPlus P e ≠ 0 ∧ dPmaxMinus P e ≠ 0)

/-! ## Further inputs of the examples -/

/-- A cell at rest within both floors whose field `B1 = 10` is above the
magnetization cap of the density: `bSqr = 100 > 10*8`. -/
def magnetizedCell : Prim K where
  RHO := 8
  U := 3
  U1 := 0
  U2 := 0
  U3 := 0
  B1 := 10
  B2 := 0
  B3 := 0
  Q := 0
  DP := 0

/-- The double `0x1.53b9fa2ece8e5p-1` (about 0.66353), the value of `lnOfhTerm1`
at `a = 0.9375`, `r = InnerEdgeRadius = 6`, `theta = M_PI/2.` with
`PressureMaxRadius = 12`. -/
def edgeTerm1 : ℚ := 5976531330197733 / 2 ^ 53

/-- The double `-0x1.85efda6440902p-1` (about -0.76160), the value of
`lnOfhTerm2` at the same arguments. -/
def edgeTerm2 : ℚ := -3429921475134593 / 2 ^ 52

/-- The double `-0x1.26d954a83241ap-5` (about -0.035992), the value of
`lnOfhTerm3` at the same arguments. -/
def edgeTerm3 : ℚ := -2593518774227469 / 2 ^ 56

/-! # Theorems -/

/-! ## Masks -/

theorem ind_pos {p : Prop} [Decidable p] (h : p) : (ind p : K) = 1 := by simp [ind, h]
theorem ind_neg {p : Prop} [Decidable p] (h : ¬ p) : (ind p : K) = 0 := by simp [ind, h]
theorem ind_nonneg (p : Prop) [Decidable p] : (0 : K) ≤ ind p := by
  unfold ind; split <;> norm_num
theorem ind_le_one (p : Prop) [Decidable p] : (ind p : K) ≤ 1 := by
  unfold ind; split <;> norm_num

theorem floorStep_RHO (L : Lib K) (P : FloorParams K) (g : Geom K) (p : Prim K) :
    (floorStep L P g p).prim.RHO = max p.RHO (minRho L P g) := by
  unfold floorStep
  by_cases h : p.RHO < minRho L P g
  · simp [ind_pos h, max_eq_right h.le]
  · simp [ind_neg h, max_eq_left (not_lt.mp h)]

theorem floorStep_U (L : Lib K) (P : FloorParams K) (g : Geom K) (p : Prim K) :
    (floorStep L P g p).prim.U = max p.U (minU L P g) := by
  unfold floorStep
  by_cases h : p.U < minU L P g
  · simp [ind_pos h, max_eq_right h.le]
  · simp [ind_neg h, max_eq_left (not_lt.mp h)]


/-! ## The floors: helper lemmas -/

theorem capStep_RHO (P : FloorParams K) (e : Elem K) (s : FloorState K) :
    (capStep P e s).prim.RHO
      = if e.bSqr > P.BsqrOverRhoMax * s.prim.RHO then e.bSqr / P.BsqrOverRhoMax else s.prim.RHO := by
  unfold capStep
  by_cases h : e.bSqr > P.BsqrOverRhoMax * s.prim.RHO
  · simp [ind, h]
  · simp [ind, h]

theorem capStep_U (P : FloorParams K) (e : Elem K) (s : FloorState K) :
    (capStep P e s).prim.U
      = if e.bSqr > P.BsqrOverUMax * s.prim.U then e.bSqr / P.BsqrOverUMax else s.prim.U := by
  unfold capStep
  by_cases h : e.bSqr > P.BsqrOverUMax * s.prim.U
  · simp [ind, h]
  · simp [ind, h]

theorem velocityStep_RHO (L : Lib K) (P : FloorParams K) (g : Geom K) (e : Elem K) (p0 : Prim K)
    (s : FloorState K) : (velocityStep L P g e p0 s).prim.RHO = s.prim.RHO := rfl

theorem velocityStep_U (L : Lib K) (P : FloorParams K) (g : Geom K) (e : Elem K) (p0 : Prim K)
    (s : FloorState K) : (velocityStep L P g e p0 s).prim.U = s.prim.U := rfl

theorem velocityStep_usefloor (L : Lib K) (P : FloorParams K) (g : Geom K) (e : Elem K)
    (p0 : Prim K) (s : FloorState K) : (velocityStep L P g e p0 s).usefloor = s.usefloor := rfl

section Grid

variable {ι : Type}

theorem lorentzStep_RHO [Fintype ι] (L : Lib K) (P : FloorParams K) (set : Geom K → Prim K → Elem K)
    (geom : ι → Geom K) (prim : ι → Prim K) (c : ι) :
    (lorentzStep L P set geom prim c).RHO = (prim c).RHO := by
  unfold lorentzStep
  dsimp only
  split <;> rfl

theorem lorentzStep_U [Fintype ι] (L : Lib K) (P : FloorParams K) (set : Geom K → Prim K → Elem K)
    (geom : ι → Geom K) (prim : ι → Prim K) (c : ι) :
    (lorentzStep L P set geom prim c).U = (prim c).U := by
  unfold lorentzStep
  dsimp only
  split <;> rfl

theorem conductionStep_RHO (P : FloorParams K) (e : Elem K) (p : Prim K) :
    (conductionStep P e p).RHO = p.RHO := by
  unfold conductionStep; split <;> rfl
theorem conductionStep_U (P : FloorParams K) (e : Elem K) (p : Prim K) :
    (conductionStep P e p).U = p.U := by
  unfold conductionStep; split <;> rfl
theorem viscosityStep_RHO (P : FloorParams K) (e : Elem K) (p : Prim K) :
    (viscosityStep P e p).RHO = p.RHO := by
  unfold viscosityStep; split <;> rfl
theorem viscosityStep_U (P : FloorParams K) (e : Elem K) (p : Prim K) :
    (viscosityStep P e p).U = p.U := by
  unfold viscosityStep; split <;> rfl

/-- The density and energy that `applyFloor` leaves are those after step 2. -/
theorem applyFloor_RHO [Fintype ι] (L : Lib K) (P : FloorParams K) (set : Geom K → Prim K → Elem K)
    (geom : ι → Geom K) (prim : ι → Prim K) (c : ι) :
    (applyFloor L P set geom prim c).prim.RHO
      = (capStep P (set (geom c) (floorStep L P (geom c) (prim c)).prim)
          (floorStep L P (geom c) (prim c))).prim.RHO := by
  simp only [applyFloor, viscosityStep_RHO, conductionStep_RHO, lorentzStep_RHO, floorSteps123,
    velocityStep_RHO]

theorem applyFloor_U [Fintype ι] (L : Lib K) (P : FloorParams K) (set : Geom K → Prim K → Elem K)
    (geom : ι → Geom K) (prim : ι → Prim K) (c : ι) :
    (applyFloor L P set geom prim c).prim.U
      = (capStep P (set (geom c) (floorStep L P (geom c) (prim c)).prim)
          (floorStep L P (geom c) (prim c))).prim.U := by
  simp only [applyFloor, viscosityStep_U, conductionStep_U, lorentzStep_U, floorSteps123,
    velocityStep_U]

theorem applyFloor_usefloor [Fintype ι] (L : Lib K) (P : FloorParams K) (set : Geom K → Prim K → Elem K)
    (geom : ι → Geom K) (prim : ι → Prim K) (c : ι) :
    (applyFloor L P set geom prim c).usefloor
      = (capStep P (set (geom c) (floorStep L P (geom c) (prim c)).prim)
          (floorStep L P (geom c) (prim c))).usefloor := by
  simp only [applyFloor, floorSteps123, velocityStep_usefloor]


theorem floorStep_usefloor_of_lt (L : Lib K) (P : FloorParams K) (g : Geom K) (p : Prim K)
    (h : p.RHO < minRho L P g) : (floorStep L P g p).usefloor = 1 := by
  unfold floorStep
  simp only [ind_pos h]
  exact max_eq_right (ind_le_one _)

theorem capStep_usefloor_of_one (P : FloorParams K) (e : Elem K) (s : FloorState K)
    (h : s.usefloor = 1) : (capStep P e s).usefloor = 1 := by
  unfold capStep
  simp only [h]
  simp [ind_le_one]

theorem floorStep_of_valid (L : Lib K) (P : FloorParams K) (g : Geom K) (p : Prim K)
    (h1 : ¬ p.RHO < minRho L P g) (h2 : ¬ p.U < minU L P g) :
    floorStep L P g p = { prim := p, usefloor := 0 } := by
  unfold floorStep
  simp [ind_neg h1, ind_neg h2]

theorem capStep_of_valid (P : FloorParams K) (e : Elem K) (p : Prim K)
    (h1 : ¬ e.bSqr > P.BsqrOverRhoMax * p.RHO) (h2 : ¬ e.bSqr > P.BsqrOverUMax * p.U) :
    capStep P e { prim := p, usefloor := 0 } = { prim := p, usefloor := 0 } := by
  unfold capStep
  simp [ind_neg h1, ind_neg h2]


theorem velocityStep_of_unflagged (L : Lib K) (P : FloorParams K) (g : Geom K) (e : Elem K)
    (p0 p : Prim K) :
    velocityStep L P g e p0 { prim := p, usefloor := 0 } = { prim := p, usefloor := 0 } := by
  unfold velocityStep trans
  simp [ind]

theorem floorSteps123_of_valid (L : Lib K) (P : FloorParams K) (set : Geom K → Prim K → Elem K)
    (geom : ι → Geom K) (prim : ι → Prim K) (c : ι)
    (h1 : ¬ (prim c).RHO < minRho L P (geom c)) (h2 : ¬ (prim c).U < minU L P (geom c))
    (h3 : ¬ (set (geom c) (prim c)).bSqr > P.BsqrOverRhoMax * (prim c).RHO)
    (h4 : ¬ (set (geom c) (prim c)).bSqr > P.BsqrOverUMax * (prim c).U) :
    floorSteps123 L P set geom prim c = { prim := prim c, usefloor := 0 } := by
  unfold floorSteps123
  simp only [floorStep_of_valid L P _ _ h1 h2, capStep_of_valid P _ _ h3 h4,
    velocityStep_of_unflagged]

theorem lorentzCondition_of_le (P : FloorParams K) (e : Elem K)
    (h0 : 0 ≤ e.gammaLorentzFactor) (h : e.gammaLorentzFactor ≤ P.MaxLorentzFactor) :
    lorentzCondition P e = 0 := by
  unfold lorentzCondition
  apply ind_neg
  simp only [gt_iff_lt, not_lt]
  exact mul_self_le_mul_self h0 h

theorem lorentzStep_of_none [Fintype ι] (L : Lib K) (P : FloorParams K) (set : Geom K → Prim K → Elem K)
    (geom : ι → Geom K) (prim : ι → Prim K)
    (h : ∀ c, lorentzCondition P (set (geom c) (prim c)) = 0) :
    lorentzStep L P set geom prim = prim := by
  unfold lorentzStep
  simp [h]

theorem conductionStep_of_le (P : FloorParams K) (e : Elem K) (p : Prim K)
    (h : P.conduction = true → |e.q| ≤ Qmax P e p) : conductionStep P e p = p := by
  unfold conductionStep
  split
  · rename_i hc
    have hq := h hc
    have : |e.q| / Qmax P e p ≤ 1 := div_le_one_of_le₀ hq ((abs_nonneg _).trans hq)
    simp [max_eq_right this]
  · rfl

theorem viscosityStep_of_mem (P : FloorParams K) (e : Elem K) (p : Prim K)
    (h : P.viscosity = true → dPmaxMinus P e ≤ e.deltaP ∧ e.deltaP ≤ dPmaxPlus P e) :
    viscosityStep P e p = p := by
  unfold viscosityStep
  split
  · rename_i hc
    obtain ⟨hlo, hhi⟩ := h hc
    by_cases hpos : e.deltaP > 0
    · have : e.deltaP / dPmaxPlus P e ≤ 1 := div_le_one_of_le₀ hhi (hpos.le.trans hhi)
      simp [ind, hpos, max_eq_right this]
    · have hle : e.deltaP ≤ 0 := not_lt.mp hpos
      have : e.deltaP / dPmaxMinus P e ≤ 1 := by
        rw [← neg_div_neg_eq]
        exact div_le_one_of_le₀ (neg_le_neg hlo) (neg_nonneg.mpr (hlo.trans hle))
      simp [ind, hpos, max_eq_right this]
  · rfl

end Grid

theorem SqrtExact.sq {L : Lib K} (hL : L.SqrtExact) {x : K} (hx : 0 ≤ x) :
    L.sqrt x ^ 2 = x := by
  rw [pow_two]; exact (hL x hx).2

theorem spatialQuad_rescale (L : Lib K) (P : FloorParams K) (g : Geom K) (e : Elem K) (p : Prim K) :
    spatialQuad g (lorentzRescale L P e p) = MultFac L P e ^ 2 * spatialQuad g p := by
  simp only [spatialQuad, lorentzRescale, Fin.sum_univ_four]
  simp
  ring

theorem MultFac_sq (L : Lib K) (P : FloorParams K) (e : Elem K) (hL : L.SqrtExact) :
    MultFac L P e ^ 2 = 1 / max ((e.gammaLorentzFactor * e.gammaLorentzFactor - 1)
      / (P.MaxLorentzFactor * P.MaxLorentzFactor - 1)) 1 := by
  unfold MultFac
  simp only [one_div, inv_pow]
  rw [SqrtExact.sq hL (le_trans zero_le_one (le_max_right _ _))]

theorem rescaled_gamma_sq (L : Lib K) (P : FloorParams K) (set : Geom K → Prim K → Elem K)
    (g : Geom K) (p : Prim K) (hL : L.SqrtExact) (hM : 1 < P.MaxLorentzFactor)
    (hset : LorentzOfMetric set g) :
    (set g (lorentzRescale L P (set g p) p)).gammaLorentzFactor ^ 2
      = if (set g p).gammaLorentzFactor ^ 2 > P.MaxLorentzFactor ^ 2
        then P.MaxLorentzFactor ^ 2 else (set g p).gammaLorentzFactor ^ 2 := by
  have h1 := (hset (lorentzRescale L P (set g p) p)).2
  have h2 := (hset p).2
  rw [spatialQuad_rescale, MultFac_sq L P _ hL, ← h2] at h1
  have hM2 : 0 < P.MaxLorentzFactor * P.MaxLorentzFactor - 1 := by nlinarith
  simp only [← pow_two] at h1 hM2
  split
  · rename_i hgt
    have hx : 1 ≤ ((set g p).gammaLorentzFactor ^ 2 - 1) / (P.MaxLorentzFactor ^ 2 - 1) := by
      rw [le_div_iff₀ hM2]; linarith
    rw [max_eq_left hx] at h1
    have hne : (set g p).gammaLorentzFactor ^ 2 - 1 ≠ 0 := by
      have : 0 < (set g p).gammaLorentzFactor ^ 2 - 1 := by linarith
      exact this.ne'
    field_simp at h1
    linarith
  · rename_i hle
    have hx : ((set g p).gammaLorentzFactor ^ 2 - 1) / (P.MaxLorentzFactor ^ 2 - 1) ≤ 1 := by
      rw [div_le_iff₀ hM2]; linarith [not_lt.mp hle]
    rw [max_eq_right hx] at h1
    simp at h1
    linarith


/-! ## The floors: the claims -/

section Grid

variable {ι : Type}

/-- C1: in every cell, immediately after the density/energy floor step of
`applyFloor` (step 1) the density is `max(rho_in, minRho)` and the internal
energy is `max(u_in, minU)`, with `minRho = RhoFloorAmpl*Radius^RhoFloorSlope`
and `minU = UFloorAmpl*Radius^UFloorSlope`; so density and energy are at least
their floors. -/
theorem floorStep_density_energy (L : Lib K) (P : FloorParams K) (geom : ι → Geom K)
    (prim : ι → Prim K) (c : ι) :
    (floorStep L P (geom c) (prim c)).prim.RHO
        = max (prim c).RHO (L.pow (geom c).Radius P.RhoFloorSlope * P.RhoFloorAmpl) ∧
    (floorStep L P (geom c) (prim c)).prim.U
        = max (prim c).U (L.pow (geom c).Radius P.UFloorSlope * P.UFloorAmpl) ∧
    (floorStep L P (geom c) (prim c)).prim.RHO ≥ minRho L P (geom c) ∧
    (floorStep L P (geom c) (prim c)).prim.U ≥ minU L P (geom c) := by
  refine ⟨floorStep_RHO L P _ _, floorStep_U L P _ _, ?_, ?_⟩
  · rw [floorStep_RHO]; exact le_max_right _ _
  · rw [floorStep_U]; exact le_max_right _ _

/-- C2: after the hard Lorentz-factor cap (step 4 of `applyFloor`) the Lorentz
factor of every cell is at most `MaxLorentzFactor`, when `MaxLorentzFactor > 1`
and the Lorentz factor is derived from the velocity by `gamma^2 - 1 =` a
quadratic form of the spatial metric in `(U1,U2,U3)`; a cell above the cap has
its three velocity components multiplied by `MultFac` and then has Lorentz
factor exactly `MaxLorentzFactor`. -/
theorem lorentzStep_le_max [Fintype ι] (L : Lib K) (P : FloorParams K) (set : Geom K → Prim K → Elem K)
    (geom : ι → Geom K) (prim : ι → Prim K) (hL : L.SqrtExact) (hM : 1 < P.MaxLorentzFactor)
    (hset : ∀ c, LorentzOfMetric set (geom c)) (c : ι) :
    (set (geom c) (lorentzStep L P set geom prim c)).gammaLorentzFactor ≤ P.MaxLorentzFactor ∧
    ((set (geom c) (prim c)).gammaLorentzFactor > P.MaxLorentzFactor →
      lorentzStep L P set geom prim c = lorentzRescale L P (set (geom c) (prim c)) (prim c) ∧
      (set (geom c) (lorentzStep L P set geom prim c)).gammaLorentzFactor
        = P.MaxLorentzFactor) := by
  have hM0 : 0 < P.MaxLorentzFactor := lt_trans zero_lt_one hM
  by_cases hany : (univ.filter
      (fun c => lorentzCondition P (set (geom c) (prim c)) > 0)).card > 0
  · have hstep : lorentzStep L P set geom prim c
        = lorentzRescale L P (set (geom c) (prim c)) (prim c) := by
      unfold lorentzStep; simp only [hany, if_true]
    have hsq := rescaled_gamma_sq L P set (geom c) (prim c) hL hM (hset c)
    have h0 := (hset c (lorentzRescale L P (set (geom c) (prim c)) (prim c))).1
    rw [hstep]
    constructor
    · split at hsq
      · nlinarith
      · rename_i hle
        nlinarith [not_lt.mp hle]
    · intro hgt
      refine ⟨rfl, ?_⟩
      have hgt2 : (set (geom c) (prim c)).gammaLorentzFactor ^ 2 > P.MaxLorentzFactor ^ 2 := by
        nlinarith
      rw [if_pos hgt2] at hsq
      exact (pow_left_inj₀ h0 hM0.le two_ne_zero).mp hsq
  · have hstep : lorentzStep L P set geom prim = prim := by
      unfold lorentzStep; simp only [hany, if_false]
    have hc : ¬ lorentzCondition P (set (geom c) (prim c)) > 0 := by
      intro h
      apply hany
      exact Finset.card_pos.mpr ⟨c, by simp [h]⟩
    have hle : (set (geom c) (prim c)).gammaLorentzFactor
          * (set (geom c) (prim c)).gammaLorentzFactor
        ≤ P.MaxLorentzFactor * P.MaxLorentzFactor := by
      by_contra hlt
      apply hc
      unfold lorentzCondition
      simp only [gt_iff_lt]
      rw [ind_pos (not_le.mp hlt)]
      exact zero_lt_one
    rw [hstep]
    constructor
    · nlinarith
    · intro hgt
      exfalso
      nlinarith

/-- C3: idempotence on valid states.  If in every cell `rho >= minRho`,
`u >= minU`, `bSqr <= BsqrOverRhoMax*rho`, `bSqr <= BsqrOverUMax*u`, the
(non-negative) Lorentz factor is at most `MaxLorentzFactor` and, for each
enabled closure, the auxiliary variable is within its closure bound, then
`applyFloor` leaves every primitive variable of every cell unchanged and its
`usefloor` mask is false in every cell.  The state is one on which the
arithmetic of `applyFloor` is defined: the source evaluates the velocity repair
and the limiters in every cell, also where the mask is false, and a division by
zero there (for instance by `bSqr = 0` at line 537) would put a NaN into the
blend of line 610; `hcaps`, `hvel` and `hlim` exclude it. -/
theorem applyFloor_of_valid [Fintype ι] (L : Lib K) (P : FloorParams K) (set : Geom K → Prim K → Elem K)
    (geom : ι → Geom K) (prim : ι → Prim K)
    (hcaps : CapsDefined P)
    (hvel : ∀ c, VelocityRepairDefined L P (geom c) (set (geom c) (prim c)) (prim c)
      { prim := prim c, usefloor := 0 })
    (hlim : ∀ c, LimitersDefined P (set (geom c) (prim c)) (prim c))
    (hrho : ∀ c, (prim c).RHO ≥ minRho L P (geom c))
    (hu : ∀ c, (prim c).U ≥ minU L P (geom c))
    (hbrho : ∀ c, (set (geom c) (prim c)).bSqr ≤ P.BsqrOverRhoMax * (prim c).RHO)
    (hbu : ∀ c, (set (geom c) (prim c)).bSqr ≤ P.BsqrOverUMax * (prim c).U)
    (hg0 : ∀ c, 0 ≤ (set (geom c) (prim c)).gammaLorentzFactor)
    (hg : ∀ c, (set (geom c) (prim c)).gammaLorentzFactor ≤ P.MaxLorentzFactor)
    (hq : P.conduction = true →
      ∀ c, |(set (geom c) (prim c)).q| ≤ Qmax P (set (geom c) (prim c)) (prim c))
    (hdp : P.viscosity = true →
      ∀ c, dPmaxMinus P (set (geom c) (prim c)) ≤ (set (geom c) (prim c)).deltaP ∧
        (set (geom c) (prim c)).deltaP ≤ dPmaxPlus P (set (geom c) (prim c))) :
    ∀ c, (applyFloor L P set geom prim c).prim = prim c ∧
      (applyFloor L P set geom prim c).usefloor = 0 := by
  -- `hcaps`, `hvel`, `hlim` delimit the states on which the exact arithmetic is
  -- that of the source; the algebra below holds without them
  have _ := hcaps
  have _ := hvel
  have _ := hlim
  have h123 : ∀ c, floorSteps123 L P set geom prim c = { prim := prim c, usefloor := 0 } :=
    fun c => floorSteps123_of_valid L P set geom prim c (not_lt.mpr (hrho c)) (not_lt.mpr (hu c))
      (not_lt.mpr (hbrho c)) (not_lt.mpr (hbu c))
  have h4 : lorentzStep L P set geom (fun c => (floorSteps123 L P set geom prim c).prim)
      = prim := by
    have : (fun c => (floorSteps123 L P set geom prim c).prim) = prim := by
      funext c; rw [h123 c]
    rw [this]
    exact lorentzStep_of_none L P set geom prim
      (fun c => lorentzCondition_of_le P _ (hg0 c) (hg c))
  intro c
  constructor
  · show viscosityStep P _ (conductionStep P _ _) = prim c
    rw [h4, conductionStep_of_le P _ _ (fun hc => hq hc c),
      viscosityStep_of_mem P _ _ (fun hc => hdp hc c)]
  · show (floorSteps123 L P set geom prim c).usefloor = 0
    rw [h123 c]

/-- C9 (as amended): in a cell whose input density is below `minRho`, the
`usefloor` entry is true, the floor step sets the density to exactly `minRho`,
and the density `applyFloor` leaves is `minRho` unless the magnetization cap
`bSqr > BsqrOverRhoMax*minRho` applies, in which case it is
`bSqr/BsqrOverRhoMax`.  In a cell in which none of `rho < minRho`, `u < minU`,
`bSqr > BsqrOverRhoMax*rho`, `bSqr > BsqrOverUMax*u` holds, the `usefloor` entry
is false and density and energy are unchanged. -/
theorem applyFloor_floor_scenario [Fintype ι] (L : Lib K) (P : FloorParams K)
    (set : Geom K → Prim K → Elem K) (geom : ι → Geom K) (prim : ι → Prim K) (c : ι) :
    ((prim c).RHO < minRho L P (geom c) →
      (applyFloor L P set geom prim c).usefloor = 1 ∧
      (floorStep L P (geom c) (prim c)).prim.RHO = minRho L P (geom c) ∧
      (applyFloor L P set geom prim c).prim.RHO =
        if (set (geom c) (floorStep L P (geom c) (prim c)).prim).bSqr
            > P.BsqrOverRhoMax * minRho L P (geom c)
        then (set (geom c) (floorStep L P (geom c) (prim c)).prim).bSqr / P.BsqrOverRhoMax
        else minRho L P (geom c)) ∧
    (¬ (prim c).RHO < minRho L P (geom c) → ¬ (prim c).U < minU L P (geom c) →
      ¬ (set (geom c) (prim c)).bSqr > P.BsqrOverRhoMax * (prim c).RHO →
      ¬ (set (geom c) (prim c)).bSqr > P.BsqrOverUMax * (prim c).U →
      (applyFloor L P set geom prim c).usefloor = 0 ∧
      (applyFloor L P set geom prim c).prim.RHO = (prim c).RHO ∧
      (applyFloor L P set geom prim c).prim.U = (prim c).U) := by
  constructor
  · intro h
    have h1 : (floorStep L P (geom c) (prim c)).prim.RHO = minRho L P (geom c) := by
      rw [floorStep_RHO, max_eq_right h.le]
    refine ⟨?_, h1, ?_⟩
    · rw [applyFloor_usefloor]
      exact capStep_usefloor_of_one _ _ _ (floorStep_usefloor_of_lt L P _ _ h)
    · rw [applyFloor_RHO, capStep_RHO, h1]
  · intro h1 h2 h3 h4
    rw [applyFloor_usefloor, applyFloor_RHO, applyFloor_U, floorStep_of_valid L P _ _ h1 h2,
      capStep_of_valid P _ _ h3 h4]
    exact ⟨rfl, rfl, rfl⟩

end Grid

/-! ## The floors: examples -/

theorem spatialQuad_flatGeom (p : Prim K) :
    spatialQuad flatGeom p = p.U1 * p.U1 + p.U2 * p.U2 + p.U3 * p.U3 := by
  simp [spatialQuad, flatGeom, Fin.sum_univ_four]

theorem minRho_torus : minRho ratLib torusParams flatGeom = 1 := by
  norm_num [minRho, ratLib, torusParams, flatGeom]

theorem minU_torus : minU ratLib torusParams flatGeom = 1 := by
  norm_num [minU, ratLib, torusParams, flatGeom]

/-- C9, counterexample to the claim as stated: a cell at rest with density 0, below
the floor `minRho = 1`, and `bSqr = 16 > BsqrOverRhoMax*minRho = 10` leaves
`applyFloor` with density `16/10`, not `minRho`. -/
theorem applyFloor_density_above_floor :
    (thinCell : Prim ℚ).RHO < minRho ratLib torusParams flatGeom ∧
    (applyFloor ratLib torusParams (flatSet Rat.sqrt (4 / 3)) (fun _ : Fin 1 => flatGeom)
      (fun _ => thinCell) 0).prim.RHO ≠ minRho ratLib torusParams flatGeom := by
  rw [applyFloor_RHO, capStep_RHO, floorStep_RHO, minRho_torus]
  norm_num [thinCell, flatSet, torusParams, floorStep, minU_torus, minRho_torus, ind]

theorem realLib_sqrtExact : (Lib.mk Real.sqrt Real.rpow).SqrtExact :=
  fun x hx => ⟨Real.sqrt_nonneg x, Real.mul_self_sqrt hx⟩

theorem flatSet_lorentzOfMetric (a : ℝ) : LorentzOfMetric (flatSet Real.sqrt a) flatGeom := by
  intro p
  have h : 0 ≤ 1 + spatialQuad flatGeom p := by
    rw [spatialQuad_flatGeom]
    nlinarith [mul_self_nonneg p.U1, mul_self_nonneg p.U2, mul_self_nonneg p.U3]
  refine ⟨Real.sqrt_nonneg _, ?_⟩
  show Real.sqrt (1 + spatialQuad flatGeom p) ^ 2 - 1 = spatialQuad flatGeom p
  rw [Real.sq_sqrt h]; ring

theorem fastCell_gamma :
    (flatSet Real.sqrt (4 / 3) flatGeom (twoCells 0)).gammaLorentzFactor
      > (torusParams : FloorParams ℝ).MaxLorentzFactor := by
  show Real.sqrt (1 + spatialQuad flatGeom (twoCells 0)) > (torusParams : FloorParams ℝ).MaxLorentzFactor
  rw [spatialQuad_flatGeom, gt_iff_lt, Real.lt_sqrt (by norm_num [torusParams])]
  norm_num [twoCells, fastCell, torusParams]

/-- C2, witness: in flat space with the cap 10, the cell with `U1 = 10` has
Lorentz factor `sqrt 101 > 10` before the cap and exactly 10 after it. -/
theorem lorentzStep_le_max_witness :
    (Lib.mk Real.sqrt Real.rpow).SqrtExact ∧
    (1 : ℝ) < (torusParams : FloorParams ℝ).MaxLorentzFactor ∧
    (∀ _ : Fin 2, LorentzOfMetric (flatSet Real.sqrt (4 / 3)) (flatGeom : Geom ℝ)) ∧
    (flatSet Real.sqrt (4 / 3) flatGeom (twoCells 0)).gammaLorentzFactor > 10 ∧
    (flatSet Real.sqrt (4 / 3) flatGeom
        (lorentzStep (Lib.mk Real.sqrt Real.rpow) torusParams (flatSet Real.sqrt (4 / 3))
          (fun _ => flatGeom) twoCells 0)).gammaLorentzFactor = 10 :=
  ⟨realLib_sqrtExact, by norm_num [torusParams], fun _ => flatSet_lorentzOfMetric _,
    fastCell_gamma,
    ((lorentzStep_le_max (Lib.mk Real.sqrt Real.rpow) torusParams (flatSet Real.sqrt (4 / 3))
      (fun _ : Fin 2 => flatGeom) twoCells realLib_sqrtExact
      (by norm_num [torusParams]) (fun _ => flatSet_lorentzOfMetric _) 0).2 fastCell_gamma).2⟩


theorem validCell_elem :
    flatSet Rat.sqrt (4 / 3) flatGeom (validCell : Prim ℚ)
      = { bSqr := 1, gammaLorentzFactor := 1, soundSpeed := 1 / 3, pressure := 1, q := 0,
          deltaP := 0, uCon := ![1, 0, 0, 0], bCon := ![0, 1, 0, 0] } := by
  have h1 : Rat.sqrt 1 = 1 := by norm_num [Rat.sqrt]
  have h2 : Rat.sqrt (1 / 9) = 1 / 3 := by
    have := Rat.sqrt_eq (1 / 3)
    rw [abs_of_pos (by norm_num)] at this
    rw [← this]; norm_num
  simp only [flatSet, spatialQuad_flatGeom, validCell]
  norm_num [h1, h2]


theorem ratSqrt_millionth : Rat.sqrt (1 / 1000000) = 1 / 1000 := by
  have := Rat.sqrt_eq (1 / 1000)
  rw [abs_of_pos (by norm_num)] at this
  rw [← this]; norm_num

/-- The new three-velocity of the valid cell at rest is that of a fluid at rest. -/
theorem validCell_vcon :
    vcon ratLib torusParams flatGeom
      { bSqr := 1, gammaLorentzFactor := 1, soundSpeed := 1 / 3, pressure := 1, q := 0,
        deltaP := 0, uCon := ![1, 0, 0, 0], bCon := ![0, 1, 0, 0] }
      validCell { prim := validCell, usefloor := 0 } = ![1, 0, 0, 0] := by
  have h1 : Rat.sqrt 1 = 1 := by norm_num [Rat.sqrt]
  funext m
  fin_cases m <;>
    simp [vcon, betapar, betasqr, ratLib, torusParams, validCell, flatGeom, Fin.sum_univ_four, h1]

theorem flat_vsqr_rest : vsqr (flatGeom : Geom ℚ) (0 * 0) ![1, 0, 0, 0] = -1 := by
  simp [vsqr, flatGeom, Fin.sum_univ_four]

theorem flat_vsqrGuarded_rest : vsqrGuarded (flatGeom : Geom ℚ) (-1) = -1 := by
  have hg : (flatGeom : Geom ℚ).gCon 0 0 = -1 := by simp [flatGeom]
  unfold vsqrGuarded condition_v
  rw [hg, ind_neg (by norm_num)]
  norm_num

/-- At the valid cell at rest every division and every square root of the
velocity repair is defined. -/
theorem validCell_velocityDefined :
    VelocityRepairDefined ratLib torusParams flatGeom
      (flatSet Rat.sqrt (4 / 3) flatGeom (validCell : Prim ℚ)) validCell
      { prim := validCell, usefloor := 0 } := by
  have h1 : Rat.sqrt 1 = 1 := by norm_num [Rat.sqrt]
  rw [validCell_elem]
  unfold VelocityRepairDefined
  simp only [validCell_vcon, flat_vsqr_rest, flat_vsqrGuarded_rest]
  simp only [betapar, betasqr, ratLib, torusParams, validCell, flatGeom, Fin.sum_univ_four]
  norm_num [h1, ratSqrt_millionth]

/-- At the valid cell at rest every division of the two limiters is defined. -/
theorem validCell_limitersDefined :
    LimitersDefined torusParams (flatSet Rat.sqrt (4 / 3) flatGeom (validCell : Prim ℚ))
      validCell := by
  rw [validCell_elem]
  unfold LimitersDefined
  norm_num [Qmax, dPmaxPlus, dPmaxMinus, dPmod, torusParams, validCell]

theorem torusParams_capsDefined : CapsDefined (torusParams : FloorParams ℚ) := by
  unfold CapsDefined
  norm_num [torusParams]

/-- C3, witness: a grid of two valid cells at rest, with both closures enabled
and every division of `applyFloor` defined, comes out of `applyFloor` unchanged
and unflagged. -/
theorem applyFloor_of_valid_witness :
    CapsDefined (torusParams : FloorParams ℚ) ∧
    (∀ _ : Fin 2, VelocityRepairDefined ratLib torusParams flatGeom
      (flatSet Rat.sqrt (4 / 3) flatGeom (validCell : Prim ℚ)) validCell
      { prim := validCell, usefloor := 0 }) ∧
    (∀ _ : Fin 2, LimitersDefined torusParams
      (flatSet Rat.sqrt (4 / 3) flatGeom (validCell : Prim ℚ)) validCell) ∧
    (∀ _ : Fin 2, (validCell : Prim ℚ).RHO ≥ minRho ratLib torusParams flatGeom) ∧
    (∀ _ : Fin 2, (validCell : Prim ℚ).U ≥ minU ratLib torusParams flatGeom) ∧
    (∀ c : Fin 2, (applyFloor ratLib torusParams (flatSet Rat.sqrt (4 / 3)) (fun _ => flatGeom)
        (fun _ => validCell) c).prim = validCell ∧
      (applyFloor ratLib torusParams (flatSet Rat.sqrt (4 / 3)) (fun _ => flatGeom)
        (fun _ => validCell) c).usefloor = 0) :=
  ⟨torusParams_capsDefined, fun _ => validCell_velocityDefined,
    fun _ => validCell_limitersDefined,
    fun _ => by norm_num [minRho_torus, validCell],
    fun _ => by norm_num [minU_torus, validCell],
    applyFloor_of_valid ratLib torusParams (flatSet Rat.sqrt (4 / 3)) (fun _ : Fin 2 => flatGeom)
      (fun _ => validCell)
      torusParams_capsDefined (fun _ => validCell_velocityDefined)
      (fun _ => validCell_limitersDefined)
      (fun _ => by norm_num [minRho_torus, validCell])
      (fun _ => by norm_num [minU_torus, validCell])
      (fun _ => by rw [validCell_elem]; norm_num [torusParams, validCell])
      (fun _ => by rw [validCell_elem]; norm_num [torusParams, validCell])
      (fun _ => by rw [validCell_elem]; norm_num)
      (fun _ => by rw [validCell_elem]; norm_num [torusParams])
      (fun _ _ => by rw [validCell_elem]; norm_num [Qmax, torusParams, validCell])
      (fun _ _ => by
        rw [validCell_elem]
        norm_num [dPmaxMinus, dPmaxPlus, dPmod, torusParams])⟩


/-! ## Magnetization caps, Lorentz cap and limiters: helper lemmas -/

section Grid

variable {ι : Type}

end Grid

section Grid

variable {ι : Type}

end Grid

/-! ## Magnetization caps, Lorentz cap and limiters: examples -/

theorem ind_cases (p : Prop) [Decidable p] : (ind p : K) = 0 ∨ (ind p : K) = 1 := by
  unfold ind; split
  · exact Or.inr rfl
  · exact Or.inl rfl

theorem max_zero_one {a b : K} (ha : a = 0 ∨ a = 1) (hb : b = 0 ∨ b = 1) :
    max a b = 0 ∨ max a b = 1 := by
  rcases ha with ha | ha <;> rcases hb with hb | hb <;> subst ha <;> subst hb <;> simp

theorem floorStep_usefloor_cases (L : Lib K) (P : FloorParams K) (g : Geom K) (p : Prim K) :
    (floorStep L P g p).usefloor = 0 ∨ (floorStep L P g p).usefloor = 1 := by
  unfold floorStep
  exact max_zero_one (ind_cases _) (ind_cases _)

theorem capStep_usefloor_cases (P : FloorParams K) (e : Elem K) (s : FloorState K)
    (hs : s.usefloor = 0 ∨ s.usefloor = 1) :
    (capStep P e s).usefloor = 0 ∨ (capStep P e s).usefloor = 1 := by
  unfold capStep
  exact max_zero_one (ind_cases _) (max_zero_one (ind_cases _) hs)

theorem trans_eq (e : Elem K) (s : FloorState K) :
    trans e s
      = max (min 1 ((e.bSqr - 0.1 * s.prim.RHO) / s.prim.RHO)) 0 * ind (s.usefloor > 0) := by
  unfold trans
  simp only [mul_zero, zero_add]

theorem trans_nonneg (e : Elem K) (s : FloorState K) : 0 ≤ trans e s := by
  rw [trans_eq]
  exact mul_nonneg (le_max_right _ _) (ind_nonneg _)

theorem trans_le_one (e : Elem K) (s : FloorState K) : trans e s ≤ 1 := by
  rw [trans_eq]
  have h1 : max (min 1 ((e.bSqr - 0.1 * s.prim.RHO) / s.prim.RHO)) 0 ≤ 1 :=
    max_le (min_le_left _ _) zero_le_one
  calc max (min 1 ((e.bSqr - 0.1 * s.prim.RHO) / s.prim.RHO)) 0 * ind (s.usefloor > 0)
      ≤ 1 * 1 := mul_le_mul h1 (ind_le_one _) (ind_nonneg _) zero_le_one
    _ = 1 := one_mul 1

theorem trans_of_unflagged (e : Elem K) (s : FloorState K) (h : s.usefloor = 0) :
    trans e s = 0 := by
  rw [trans_eq, h, ind_neg (lt_irrefl _), mul_zero]

theorem capStep_ge (P : FloorParams K) (e : Elem K) (s : FloorState K)
    (hrho : 0 < P.BsqrOverRhoMax) (hu : 0 < P.BsqrOverUMax) :
    s.prim.RHO ≤ (capStep P e s).prim.RHO ∧ s.prim.U ≤ (capStep P e s).prim.U := by
  rw [capStep_RHO, capStep_U]
  constructor
  · split
    · rename_i h
      rw [le_div_iff₀ hrho, mul_comm]
      exact h.le
    · exact le_refl _
  · split
    · rename_i h
      rw [le_div_iff₀ hu, mul_comm]
      exact h.le
    · exact le_refl _

/-- C23 (as amended): the velocity guard of `applyFloor` is not a tautology.
`condition_v` is true exactly when `vsqr >= 0` or `vsqr < 1/gCon[0][0]`, so it
is false exactly when `1/gCon[0][0] <= vsqr < 0`; `vsqr` is replaced by
`1/gCon[0][0]` when the guard is true and kept otherwise, and that value is
the one `ut = sqrt(-1/vsqr)` is computed from.  The guard is true for every
`vsqr` only when `gCon[0][0] >= 0`. -/
theorem condition_v_iff (L : Lib K) (g : Geom K) (vsqr : K) :
    (condition_v g vsqr = 1 ↔ (vsqr ≥ 0 ∨ vsqr < 1 / g.gCon 0 0)) ∧
    (condition_v g vsqr = 0 ↔ (1 / g.gCon 0 0 ≤ vsqr ∧ vsqr < 0)) ∧
    vsqrGuarded g vsqr = (if vsqr ≥ 0 ∨ vsqr < 1 / g.gCon 0 0 then 1 / g.gCon 0 0 else vsqr) ∧
    ut L g vsqr
      = L.sqrt (-1 / (if vsqr ≥ 0 ∨ vsqr < 1 / g.gCon 0 0 then 1 / g.gCon 0 0 else vsqr)) ∧
    (0 ≤ g.gCon 0 0 → condition_v g vsqr = 1) := by
  have hg : vsqrGuarded g vsqr
      = (if vsqr ≥ 0 ∨ vsqr < 1 / g.gCon 0 0 then 1 / g.gCon 0 0 else vsqr) := by
    unfold vsqrGuarded condition_v
    by_cases h : vsqr ≥ 0 ∨ vsqr < 1 / g.gCon 0 0
    · simp only [ind_pos h, if_pos h, sub_self, zero_mul, zero_add]
    · simp only [ind_neg h, if_neg h, sub_zero, one_mul, zero_div, add_zero]
  refine ⟨?_, ?_, hg, ?_, ?_⟩
  · unfold condition_v
    by_cases h : vsqr ≥ 0 ∨ vsqr < 1 / g.gCon 0 0
    · rw [ind_pos h]
      exact ⟨fun _ => h, fun _ => rfl⟩
    · rw [ind_neg h]
      exact ⟨fun h1 => absurd h1 zero_ne_one, fun h1 => absurd h1 h⟩
  · unfold condition_v
    by_cases h : vsqr ≥ 0 ∨ vsqr < 1 / g.gCon 0 0
    · rw [ind_pos h]
      constructor
      · intro h1; exact absurd h1 one_ne_zero
      · rintro ⟨h1, h2⟩
        rcases h with h | h
        · exact absurd h2 (not_lt.mpr h)
        · exact absurd h1 (not_le.mpr h)
    · rw [ind_neg h]
      rw [not_or, not_le, not_lt] at h
      exact ⟨fun _ => ⟨h.2, h.1⟩, fun _ => rfl⟩
  · unfold ut
    rw [hg]
  · intro h0
    unfold condition_v
    apply ind_pos
    by_cases h : vsqr ≥ 0
    · exact Or.inl h
    · right
      exact lt_of_lt_of_le (not_le.mp h) (div_nonneg zero_le_one h0)

section Grid

variable {ι : Type}

/-- C24: the velocity repair is a masked blend.  In every cell whose density
after step 2 is positive and in which every division and square root of the
repair is defined (so that `utcon` is a finite number), the velocity after
step 3 of `applyFloor` is `(1 - trans)*U_old + trans*utcon` componentwise,
with `trans` the clamp of `(bSqr - 0.1*rho)/rho` to `[0,1]` multiplied by
the indicator of `usefloor` (which is 0 or 1), so `0 <= trans <= 1`, and a
cell that `usefloor` does not flag keeps `U1`, `U2` and `U3`. -/
theorem velocityStep_masked_blend [Fintype ι] (L : Lib K) (P : FloorParams K)
    (set : Geom K → Prim K → Elem K) (geom : ι → Geom K) (prim : ι → Prim K) (c : ι)
    (hcaps : CapsDefined P)
    (hrho : 0 < (capStep P (set (geom c) (floorStep L P (geom c) (prim c)).prim)
      (floorStep L P (geom c) (prim c))).prim.RHO)
    (hdef : VelocityRepairDefined L P (geom c)
      (set (geom c) (floorStep L P (geom c) (prim c)).prim) (prim c)
      (capStep P (set (geom c) (floorStep L P (geom c) (prim c)).prim)
        (floorStep L P (geom c) (prim c)))) :
    let e : Elem K := set (geom c) (floorStep L P (geom c) (prim c)).prim
    let s : FloorState K := capStep P e (floorStep L P (geom c) (prim c))
    let utcon : Fin 4 → K := utcon L P (geom c) e (prim c) s
    ((floorSteps123 L P set geom prim c).prim.U1
        = (1 - trans e s) * (prim c).U1 + trans e s * utcon 1 ∧
      (floorSteps123 L P set geom prim c).prim.U2
        = (1 - trans e s) * (prim c).U2 + trans e s * utcon 2 ∧
      (floorSteps123 L P set geom prim c).prim.U3
        = (1 - trans e s) * (prim c).U3 + trans e s * utcon 3) ∧
    trans e s
      = max (min 1 ((e.bSqr - 0.1 * s.prim.RHO) / s.prim.RHO)) 0 * ind (s.usefloor > 0) ∧
    (s.usefloor = 0 ∨ s.usefloor = 1) ∧
    (0 ≤ trans e s ∧ trans e s ≤ 1) ∧
    (s.usefloor = 0 →
      (floorSteps123 L P set geom prim c).prim.U1 = (prim c).U1 ∧
      (floorSteps123 L P set geom prim c).prim.U2 = (prim c).U2 ∧
      (floorSteps123 L P set geom prim c).prim.U3 = (prim c).U3) := by
  intro e s utcon
  -- `hcaps`, `hrho`, `hdef` delimit the cells in which the exact arithmetic is
  -- that of the source; the algebra below holds without them
  have _ := hcaps
  have _ := hrho
  have _ := hdef
  have hU : (floorSteps123 L P set geom prim c).prim.U1
        = (1 - trans e s) * (prim c).U1 + trans e s * utcon 1 ∧
      (floorSteps123 L P set geom prim c).prim.U2
        = (1 - trans e s) * (prim c).U2 + trans e s * utcon 2 ∧
      (floorSteps123 L P set geom prim c).prim.U3
        = (1 - trans e s) * (prim c).U3 + trans e s * utcon 3 := by
    refine ⟨?_, ?_, ?_⟩
    · show (prim c).U1 * (1 - trans e s) + trans e s * utcon 1 = _
      ring
    · show (prim c).U2 * (1 - trans e s) + trans e s * utcon 2 = _
      ring
    · show (prim c).U3 * (1 - trans e s) + trans e s * utcon 3 = _
      ring
  refine ⟨hU, trans_eq e s,
    capStep_usefloor_cases P e _ (floorStep_usefloor_cases L P _ _),
    ⟨trans_nonneg e s, trans_le_one e s⟩, ?_⟩
  intro h0
  obtain ⟨h1, h2, h3⟩ := hU
  rw [h1, h2, h3, trans_of_unflagged e s h0]
  simp

/-- C30: floors only raise.  With positive magnetization caps, in every cell the
density and the internal energy that `applyFloor` leaves are at least the
larger of the input value and the floor; and the magnetization step never
lowers the density or the energy it receives, whatever the element. -/
theorem applyFloor_only_raises [Fintype ι] (L : Lib K) (P : FloorParams K)
    (set : Geom K → Prim K → Elem K) (geom : ι → Geom K) (prim : ι → Prim K)
    (hrho : 0 < P.BsqrOverRhoMax) (hu : 0 < P.BsqrOverUMax) (c : ι) :
    (applyFloor L P set geom prim c).prim.RHO ≥ max (prim c).RHO (minRho L P (geom c)) ∧
    (applyFloor L P set geom prim c).prim.U ≥ max (prim c).U (minU L P (geom c)) ∧
    (applyFloor L P set geom prim c).prim.RHO ≥ (prim c).RHO ∧
    (applyFloor L P set geom prim c).prim.U ≥ (prim c).U ∧
    (∀ (e : Elem K) (s : FloorState K),
      (capStep P e s).prim.RHO ≥ s.prim.RHO ∧ (capStep P e s).prim.U ≥ s.prim.U) := by
  have h := capStep_ge P (set (geom c) (floorStep L P (geom c) (prim c)).prim)
    (floorStep L P (geom c) (prim c)) hrho hu
  rw [floorStep_RHO, floorStep_U] at h
  rw [applyFloor_RHO, applyFloor_U]
  exact ⟨h.1, h.2, le_trans (le_max_left _ _) h.1, le_trans (le_max_left _ _) h.2,
    fun e s => capStep_ge P e s hrho hu⟩

end Grid

/-! ## Velocity repair, boundary clamp and monotone floors: examples -/

/-- C23, counterexample to the claim as stated: in flat space (`gCon[0][0] = -1`)
the value `vsqr = -1/2` makes the guard false, and `vsqr` is kept instead of
being replaced by `1/gCon[0][0] = -1`. -/
theorem condition_v_false_example :
    condition_v (flatGeom : Geom ℚ) (-1 / 2) = 0 ∧
    ¬ ((-1 / 2 : ℚ) ≥ 0 ∨ (-1 / 2 : ℚ) < 1 / (flatGeom : Geom ℚ).gCon 0 0) ∧
    vsqrGuarded (flatGeom : Geom ℚ) (-1 / 2) = -1 / 2 ∧
    vsqrGuarded (flatGeom : Geom ℚ) (-1 / 2) ≠ 1 / (flatGeom : Geom ℚ).gCon 0 0 := by
  have hg : (flatGeom : Geom ℚ).gCon 0 0 = -1 := by simp [flatGeom]
  have hn : ¬ ((-1 / 2 : ℚ) ≥ 0 ∨ (-1 / 2 : ℚ) < 1 / (flatGeom : Geom ℚ).gCon 0 0) := by
    rw [hg]; norm_num
  have hc : condition_v (flatGeom : Geom ℚ) (-1 / 2) = 0 := by
    unfold condition_v
    exact ind_neg hn
  have hv : vsqrGuarded (flatGeom : Geom ℚ) (-1 / 2) = -1 / 2 := by
    unfold vsqrGuarded
    simp only [hc]
    norm_num
  refine ⟨hc, hn, hv, ?_⟩
  rw [hv, hg]
  norm_num

/-- C30, witness: the cell with density 0 (floor 1, `bSqr = 16`, caps 10 and 100)
leaves `applyFloor` with a density and an energy not below the input and the
floor. -/
theorem applyFloor_only_raises_witness :
    (0 : ℚ) < (torusParams : FloorParams ℚ).BsqrOverRhoMax ∧
    (0 : ℚ) < (torusParams : FloorParams ℚ).BsqrOverUMax ∧
    (applyFloor ratLib torusParams (flatSet Rat.sqrt (4 / 3)) (fun _ : Fin 1 => flatGeom)
        (fun _ => thinCell) 0).prim.RHO
      ≥ max (thinCell : Prim ℚ).RHO (minRho ratLib torusParams flatGeom) ∧
    (applyFloor ratLib torusParams (flatSet Rat.sqrt (4 / 3)) (fun _ : Fin 1 => flatGeom)
        (fun _ => thinCell) 0).prim.U
      ≥ max (thinCell : Prim ℚ).U (minU ratLib torusParams flatGeom) :=
  have h1 : (0 : ℚ) < (torusParams : FloorParams ℚ).BsqrOverRhoMax := by norm_num [torusParams]
  have h2 : (0 : ℚ) < (torusParams : FloorParams ℚ).BsqrOverUMax := by norm_num [torusParams]
  have h := applyFloor_only_raises ratLib torusParams (flatSet Rat.sqrt (4 / 3))
    (fun _ : Fin 1 => flatGeom) (fun _ => thinCell) h1 h2 0
  ⟨h1, h2, h.1, h.2.1⟩

theorem ratSqrt_hundred : Rat.sqrt 100 = 10 := by
  have := Rat.sqrt_eq 10
  rw [abs_of_pos (by norm_num)] at this
  rw [← this]; norm_num

theorem magnetizedCell_floorStep :
    floorStep ratLib torusParams flatGeom (magnetizedCell : Prim ℚ)
      = { prim := magnetizedCell, usefloor := 0 } :=
  floorStep_of_valid ratLib torusParams flatGeom magnetizedCell
    (by norm_num [minRho_torus, magnetizedCell]) (by norm_num [minU_torus, magnetizedCell])

theorem magnetizedCell_elem :
    flatSet Rat.sqrt (4 / 3) flatGeom (magnetizedCell : Prim ℚ)
      = { bSqr := 100, gammaLorentzFactor := 1, soundSpeed := 1 / 3, pressure := 1, q := 0,
          deltaP := 0, uCon := ![1, 0, 0, 0], bCon := ![0, 10, 0, 0] } := by
  have h1 : Rat.sqrt 1 = 1 := by norm_num [Rat.sqrt]
  have h2 : Rat.sqrt (1 / 9) = 1 / 3 := by
    have := Rat.sqrt_eq (1 / 3)
    rw [abs_of_pos (by norm_num)] at this
    rw [← this]; norm_num
  simp only [flatSet, spatialQuad_flatGeom, magnetizedCell]
  norm_num [h1, h2]

/-- The magnetization cap raises the density of the magnetized cell from 8 to
`bSqr/BsqrOverRhoMax = 10` and flags the cell. -/
theorem magnetizedCell_capStep :
    capStep (torusParams : FloorParams ℚ)
      { bSqr := 100, gammaLorentzFactor := 1, soundSpeed := 1 / 3, pressure := 1, q := 0,
        deltaP := 0, uCon := ![1, 0, 0, 0], bCon := ![0, 10, 0, 0] }
      { prim := (magnetizedCell : Prim ℚ), usefloor := 0 }
      = { prim := { RHO := 10, U := 3, U1 := 0, U2 := 0, U3 := 0, B1 := 10, B2 := 0, B3 := 0,
                    Q := 0, DP := 0 },
          usefloor := 1 } := by
  have h1 : ((100 : ℚ) > 10 * 8) := by norm_num
  have h2 : ¬ ((100 : ℚ) > 100 * 3) := by norm_num
  simp only [capStep, torusParams, magnetizedCell, ind_pos h1, ind_neg h2]
  norm_num

theorem magnetizedCell_vcon :
    vcon ratLib torusParams flatGeom
      { bSqr := 100, gammaLorentzFactor := 1, soundSpeed := 1 / 3, pressure := 1, q := 0,
        deltaP := 0, uCon := ![1, 0, 0, 0], bCon := ![0, 10, 0, 0] }
      magnetizedCell
      { prim := { RHO := 10, U := 3, U1 := 0, U2 := 0, U3 := 0, B1 := 10, B2 := 0, B3 := 0,
                  Q := 0, DP := 0 },
        usefloor := 1 } = ![1, 0, 0, 0] := by
  have h1 : Rat.sqrt 1 = 1 := by norm_num [Rat.sqrt]
  funext m
  fin_cases m <;>
    simp [vcon, betapar, betasqr, ratLib, torusParams, magnetizedCell, flatGeom,
      Fin.sum_univ_four, h1]

theorem flat_vsqr_rest_flagged : vsqr (flatGeom : Geom ℚ) (1 * 0) ![1, 0, 0, 0] = -1 := by
  simp [vsqr, flatGeom, Fin.sum_univ_four]

/-- In the magnetized cell, which the cap flags, every division and every square
root of the velocity repair is defined. -/
theorem magnetizedCell_velocityDefined :
    VelocityRepairDefined ratLib torusParams flatGeom
      (flatSet Rat.sqrt (4 / 3) flatGeom
        (floorStep ratLib torusParams flatGeom (magnetizedCell : Prim ℚ)).prim)
      magnetizedCell
      (capStep torusParams
        (flatSet Rat.sqrt (4 / 3) flatGeom
          (floorStep ratLib torusParams flatGeom (magnetizedCell : Prim ℚ)).prim)
        (floorStep ratLib torusParams flatGeom magnetizedCell)) := by
  have h1 : Rat.sqrt 1 = 1 := by norm_num [Rat.sqrt]
  rw [magnetizedCell_floorStep, magnetizedCell_elem, magnetizedCell_capStep]
  unfold VelocityRepairDefined
  simp only [magnetizedCell_vcon, flat_vsqr_rest_flagged, flat_vsqrGuarded_rest]
  simp only [betapar, betasqr, ratLib, torusParams, magnetizedCell, flatGeom, Fin.sum_univ_four]
  norm_num [h1, ratSqrt_millionth, ratSqrt_hundred]

/-- C24, witness: in flat space the cell at rest with `B1 = 10`, whose density
the magnetization cap raises to 10, satisfies the hypotheses; it is flagged,
its blending weight `trans` is 1 and its velocity after step 3 is `utcon`. -/
theorem velocityStep_masked_blend_witness :
    CapsDefined (torusParams : FloorParams ℚ) ∧
    (0 : ℚ) < (capStep torusParams
        (flatSet Rat.sqrt (4 / 3) flatGeom
          (floorStep ratLib torusParams flatGeom (magnetizedCell : Prim ℚ)).prim)
        (floorStep ratLib torusParams flatGeom magnetizedCell)).prim.RHO ∧
    VelocityRepairDefined ratLib torusParams flatGeom
      (flatSet Rat.sqrt (4 / 3) flatGeom
        (floorStep ratLib torusParams flatGeom (magnetizedCell : Prim ℚ)).prim)
      magnetizedCell
      (capStep torusParams
        (flatSet Rat.sqrt (4 / 3) flatGeom
          (floorStep ratLib torusParams flatGeom (magnetizedCell : Prim ℚ)).prim)
        (floorStep ratLib torusParams flatGeom magnetizedCell)) ∧
    trans
      (flatSet Rat.sqrt (4 / 3) flatGeom
        (floorStep ratLib torusParams flatGeom (magnetizedCell : Prim ℚ)).prim)
      (capStep torusParams
        (flatSet Rat.sqrt (4 / 3) flatGeom
          (floorStep ratLib torusParams flatGeom (magnetizedCell : Prim ℚ)).prim)
        (floorStep ratLib torusParams flatGeom magnetizedCell)) = 1 ∧
    (floorSteps123 ratLib torusParams (flatSet Rat.sqrt (4 / 3)) (fun _ : Fin 1 => flatGeom)
        (fun _ => magnetizedCell) 0).prim.U1
      = (1 - 1) * (magnetizedCell : Prim ℚ).U1
        + 1 * utcon ratLib torusParams flatGeom
          (flatSet Rat.sqrt (4 / 3) flatGeom
            (floorStep ratLib torusParams flatGeom (magnetizedCell : Prim ℚ)).prim)
          magnetizedCell
          (capStep torusParams
            (flatSet Rat.sqrt (4 / 3) flatGeom
              (floorStep ratLib torusParams flatGeom (magnetizedCell : Prim ℚ)).prim)
            (floorStep ratLib torusParams flatGeom magnetizedCell)) 1 := by
  have hrho : (0 : ℚ) < (capStep torusParams
        (flatSet Rat.sqrt (4 / 3) flatGeom
          (floorStep ratLib torusParams flatGeom (magnetizedCell : Prim ℚ)).prim)
        (floorStep ratLib torusParams flatGeom magnetizedCell)).prim.RHO := by
    rw [magnetizedCell_floorStep, magnetizedCell_elem, magnetizedCell_capStep]
    norm_num
  have htrans : trans
      (flatSet Rat.sqrt (4 / 3) flatGeom
        (floorStep ratLib torusParams flatGeom (magnetizedCell : Prim ℚ)).prim)
      (capStep torusParams
        (flatSet Rat.sqrt (4 / 3) flatGeom
          (floorStep ratLib torusParams flatGeom (magnetizedCell : Prim ℚ)).prim)
        (floorStep ratLib torusParams flatGeom magnetizedCell)) = 1 := by
    rw [magnetizedCell_floorStep, magnetizedCell_elem, magnetizedCell_capStep]
    norm_num [trans, ind]
  have h := (velocityStep_masked_blend ratLib torusParams (flatSet Rat.sqrt (4 / 3))
    (fun _ : Fin 1 => flatGeom) (fun _ => magnetizedCell) 0
    torusParams_capsDefined hrho magnetizedCell_velocityDefined).1.1
  simp only [htrans] at h
  exact ⟨torusParams_capsDefined, hrho, magnetizedCell_velocityDefined, htrans, h⟩


/-! ## The solver: helper lemmas -/
section Solve

variable {ι : Type} {D : ℕ}

theorem flatIndex_inj {D : ℕ} {c r c2 r2 : Fin D} (h : c.val + D * r.val = c2.val + D * r2.val) :
    c = c2 ∧ r = r2 := by
  have hc := c.isLt
  have hc2 := c2.isLt
  have h1 : (c.val + D * r.val) % D = (c2.val + D * r2.val) % D := by rw [h]
  have h2 : (c.val + D * r.val) / D = (c2.val + D * r2.val) / D := by rw [h]
  rw [Nat.add_mul_mod_self_left, Nat.add_mul_mod_self_left, Nat.mod_eq_of_lt hc,
    Nat.mod_eq_of_lt hc2] at h1
  have hD : 0 < D := lt_of_le_of_lt (Nat.zero_le _) hc
  rw [Nat.add_mul_div_left _ _ hD, Nat.add_mul_div_left _ _ hD, Nat.div_eq_of_lt hc,
    Nat.div_eq_of_lt hc2, Nat.zero_add, Nat.zero_add] at h2
  exact ⟨Fin.ext h1, Fin.ext h2⟩

/-- The entries written by a pass over a list of columns. -/
theorem foldl_columns_apply {α : Type} (q : Fin D → α) (row : Fin D) (cols : List (Fin D))
    (jac : ℕ → α) (col2 row2 : Fin D) :
    cols.foldl (fun jac column => Function.update jac (column.val + D * row.val) (q column)) jac
        (col2.val + D * row2.val)
      = if row2 = row ∧ col2 ∈ cols then q col2 else jac (col2.val + D * row2.val) := by
  induction cols generalizing jac with
  | nil => simp
  | cons a l ih =>
    rw [List.foldl_cons, ih]
    by_cases hr : row2 = row
    · by_cases hl : col2 ∈ l
      · simp [hr, hl]
      · by_cases ha : col2 = a
        · subst ha; subst hr
          simp [hl]
        · have hne : col2.val + D * row2.val ≠ a.val + D * row.val := by
            intro h; exact ha (flatIndex_inj h).1
          simp [hr, hl, ha, Function.update_noteq hne]
    · have hne : col2.val + D * row2.val ≠ a.val + D * row.val := by
        intro h; exact hr (flatIndex_inj h).2
      simp [hr, Function.update_noteq hne]

theorem jacobianColumns_apply (residualPlusEps residual primGuessPlusEps primGuess : Grid ι D K)
    (row : Fin D) (jac : ℕ → ι → K) (col2 row2 : Fin D) :
    jacobianColumns residualPlusEps residual primGuessPlusEps primGuess row jac
        (col2.val + D * row2.val)
      = if row2 = row then
          (fun c => (residualPlusEps col2 c - residual col2 c)
            / (primGuessPlusEps row c - primGuess row c))
        else jac (col2.val + D * row2.val) := by
  unfold jacobianColumns
  rw [foldl_columns_apply (fun column c => (residualPlusEps column c - residual column c)
      / (primGuessPlusEps row c - primGuess row c))]
  simp [List.mem_finRange]

theorem jacobianRow_primGuessPlusEps (E : SolveEnv ι D K) (S : SolveParams K)
    (primGuess residual : Grid ι D K) (st : JacobianState ι D K) (row : Fin D)
    (h : st.primGuessPlusEps = primGuess) :
    (jacobianRow E S primGuess residual st row).primGuessPlusEps = primGuess := by
  unfold jacobianRow
  simp [h]

theorem foldl_jacobianRow_primGuessPlusEps (E : SolveEnv ι D K) (S : SolveParams K)
    (primGuess residual : Grid ι D K) (rows : List (Fin D)) (st : JacobianState ι D K)
    (h : st.primGuessPlusEps = primGuess) :
    (rows.foldl (jacobianRow E S primGuess residual) st).primGuessPlusEps = primGuess := by
  induction rows generalizing st with
  | nil => exact h
  | cons a l ih =>
    rw [List.foldl_cons]
    exact ih _ (jacobianRow_primGuessPlusEps E S primGuess residual st a h)

theorem jacobianRow_apply (E : SolveEnv ι D K) (S : SolveParams K)
    (primGuess : Grid ι D K) (st : JacobianState ι D K) (row : Fin D)
    (h : st.primGuessPlusEps = primGuess) (col2 row2 : Fin D) :
    (jacobianRow E S primGuess (E.computeResidual primGuess false) st row).jacobianSoA
        (col2.val + D * row2.val)
      = if row2 = row then fdQuotient E S primGuess col2 row
        else st.jacobianSoA (col2.val + D * row2.val) := by
  unfold jacobianRow
  simp only [jacobianColumns_apply, h]
  split
  · funext c
    simp [fdQuotient, perturbedGuess]
  · rfl

theorem foldl_jacobianRow_apply (E : SolveEnv ι D K) (S : SolveParams K)
    (primGuess : Grid ι D K) (rows : List (Fin D)) (st : JacobianState ι D K)
    (h : st.primGuessPlusEps = primGuess) (col2 row2 : Fin D) :
    (rows.foldl (jacobianRow E S primGuess (E.computeResidual primGuess false)) st).jacobianSoA
        (col2.val + D * row2.val)
      = if row2 ∈ rows then fdQuotient E S primGuess col2 row2
        else st.jacobianSoA (col2.val + D * row2.val) := by
  induction rows generalizing st with
  | nil => simp
  | cons a l ih =>
    rw [List.foldl_cons, ih _ (jacobianRow_primGuessPlusEps E S primGuess _ st a h),
      jacobianRow_apply E S primGuess st a h]
    by_cases hl : row2 ∈ l
    · simp [hl]
    · by_cases ha : row2 = a
      · subst ha; simp [hl]
      · simp [hl, ha]

/-- Every entry of the assembled Jacobian is the finite-difference quotient. -/
theorem assembleJacobian_apply (E : SolveEnv ι D K) (S : SolveParams K)
    (primGuess : Grid ι D K) (column row : Fin D) :
    (assembleJacobian E S primGuess).jacobianSoA (column.val + D * row.val)
      = fdQuotient E S primGuess column row := by
  unfold assembleJacobian
  simp only
  rw [foldl_jacobianRow_apply E S primGuess _ _ rfl]
  simp [List.mem_finRange]

theorem cellMatrix_assembleJacobian (E : SolveEnv ι D K) (S : SolveParams K)
    (primGuess : Grid ι D K) (c : ι) (i j : Fin D) :
    cellMatrix (assembleJacobian E S primGuess).jacobianSoA c i j
      = fdQuotient E S primGuess i j c := by
  unfold cellMatrix
  rw [assembleJacobian_apply]

end Solve

theorem perturb_eq (epsilon p : K) :
    perturb epsilon p = if |p| < 0.5 * epsilon then epsilon else (1 + epsilon) * p := by
  unfold perturb
  by_cases h : |p| < 0.5 * epsilon
  · simp [ind, h]
  · simp [ind, h]

theorem perturb_sub_ne_zero (epsilon p : K) (h : 0 < epsilon) : perturb epsilon p - p ≠ 0 := by
  rw [perturb_eq]
  have h5 : (0.5 : K) * epsilon = epsilon / 2 := by norm_num; ring
  rw [h5]
  split
  · rename_i hs
    have := (abs_lt.mp hs).2
    intro h0
    linarith
  · rename_i hs
    have hp : epsilon / 2 ≤ |p| := not_lt.mp hs
    have hp0 : p ≠ 0 := by
      intro h0; rw [h0, abs_zero] at hp; linarith
    have : (1 + epsilon) * p - p = epsilon * p := by ring
    rw [this]
    exact mul_ne_zero h.ne' hp0


section Solve

variable {ι : Type} {D : ℕ}

/-- The outer loop performs a number `k` of updates, bounded by the fuel, and
advances the counter by `k`. -/
theorem solveLoop_iterate [Fintype ι] (L : Lib K) (E : SolveEnv ι D K) (S : SolveParams K) (fuel : ℕ) :
    ∀ (nonLinearIter : ℕ) (primGuess : Grid ι D K), ∃ k : ℕ, k ≤ fuel ∧
      (solveLoop L E S fuel nonLinearIter primGuess).primGuess
        = (fun p => newtonUpdate E S p (E.computeResidual p true))^[k] primGuess ∧
      (solveLoop L E S fuel nonLinearIter primGuess).nonLinearIter = nonLinearIter + k := by
  induction fuel with
  | zero => intro it p; exact ⟨0, le_rfl, rfl, rfl⟩
  | succ n ih =>
    intro it p
    by_cases h : globalL2Norm L (E.computeResidual p true) < S.nonlinearsolve_atol
    · refine ⟨0, Nat.zero_le _, ?_, ?_⟩ <;> simp only [solveLoop, h, if_true] <;> rfl
    · obtain ⟨k, hk, h1, h2⟩ := ih (it + 1) (newtonUpdate E S p (E.computeResidual p true))
      refine ⟨k + 1, Nat.succ_le_succ hk, ?_, ?_⟩
      · simp only [solveLoop, h, if_false]
        rw [h1, Function.iterate_succ_apply]
      · simp only [solveLoop, h, if_false]
        rw [h2]; omega

/-- The line-search loop performs a number `k` of passes of its body, bounded by the fuel. -/
theorem lineSearchLoop_iterate [Fintype ι] (E : SolveEnv ι D K) (S : SolveParams K)
    (primGuess deltaPrim : Grid ι D K) (f0 : ι → K) (fuel : ℕ) :
    ∀ (lineSearchIter : ℕ) (stepLength : ι → K), ∃ k : ℕ, k ≤ fuel ∧
      (lineSearchLoop E S primGuess deltaPrim f0 fuel lineSearchIter stepLength).stepLength
        = (fun s => (lineSearchBody E S primGuess deltaPrim f0 s).stepLength)^[k] stepLength ∧
      (lineSearchLoop E S primGuess deltaPrim f0 fuel lineSearchIter stepLength).lineSearchIter
        ≤ lineSearchIter + fuel := by
  induction fuel with
  | zero => intro it s; exact ⟨0, le_rfl, rfl, le_rfl⟩
  | succ n ih =>
    intro it s
    by_cases h : (univ.filter
        (fun c => (lineSearchBody E S primGuess deltaPrim f0 s).condition c > 0)).card = 0
    · refine ⟨1, Nat.succ_le_succ (Nat.zero_le _), ?_, ?_⟩
      · simp only [lineSearchLoop, h, if_true]; rfl
      · simp only [lineSearchLoop, h, if_true]; omega
    · obtain ⟨k, hk, h1, h2⟩ := ih (it + 1) (lineSearchBody E S primGuess deltaPrim f0 s).stepLength
      refine ⟨k + 1, Nat.succ_le_succ hk, ?_, ?_⟩
      · simp only [lineSearchLoop, h, if_false]
        rw [h1, Function.iterate_succ_apply]
      · simp only [lineSearchLoop, h, if_false]
        omega

theorem merit_nonneg (r : Grid ι D K) (c : ι) : 0 ≤ merit r c := by
  unfold merit
  apply mul_nonneg (by norm_num)
  exact Finset.sum_nonneg (fun i _ => sq_nonneg _)

theorem lineSearchBody_condition (E : SolveEnv ι D K) (S : SolveParams K)
    (primGuess deltaPrim : Grid ι D K) (f0 stepLength : ι → K) (c : ι) :
    (lineSearchBody E S primGuess deltaPrim f0 stepLength).condition c
      = ind (trialMerit E primGuess deltaPrim stepLength c
          > f0 c * (1 - 1e-4 * stepLength c) + S.linesearchfloor) := rfl

/-- The update of the step length of one cell, with the masks resolved. -/
theorem lineSearchBody_stepLength (E : SolveEnv ι D K) (S : SolveParams K)
    (primGuess deltaPrim : Grid ι D K) (f0 stepLength : ι → K) (c : ι) :
    (lineSearchBody E S primGuess deltaPrim f0 stepLength).stepLength c
      = if trialMerit E primGuess deltaPrim stepLength c
          > f0 c * (1 - 1e-4 * stepLength c) + S.linesearchfloor
        then - (-2 * f0 c) * stepLength c * stepLength c
          / (trialMerit E primGuess deltaPrim stepLength c - f0 c - -2 * f0 c * stepLength c) / 2
        else stepLength c := by
  unfold lineSearchBody trialMerit
  by_cases h : merit (E.computeResidual
      (fun var c => primGuess var c + stepLength c * deltaPrim var c) true) c
      > f0 c * (1 - 1e-4 * stepLength c) + S.linesearchfloor
  · simp only [ind, h, if_true]; ring
  · simp only [ind, h, if_false]; ring

/-- A cell that passes the sufficient-decrease test keeps its step length. -/
theorem lineSearchBody_of_pass (E : SolveEnv ι D K) (S : SolveParams K)
    (primGuess deltaPrim : Grid ι D K) (f0 stepLength : ι → K) (c : ι)
    (h : ¬ (lineSearchBody E S primGuess deltaPrim f0 stepLength).condition c > 0) :
    (lineSearchBody E S primGuess deltaPrim f0 stepLength).stepLength c = stepLength c ∧
    trialMerit E primGuess deltaPrim stepLength c
      ≤ f0 c * (1 - 1e-4 * stepLength c) + S.linesearchfloor := by
  have hc : ¬ (trialMerit E primGuess deltaPrim stepLength c
      > f0 c * (1 - 1e-4 * stepLength c) + S.linesearchfloor) := by
    intro hgt
    apply h
    rw [lineSearchBody_condition, ind_pos hgt]; exact zero_lt_one
  exact ⟨by rw [lineSearchBody_stepLength, if_neg hc], not_lt.mp hc⟩

end Solve

/-! ## The solver: the claims -/

section Solve

variable {ι : Type} {D : ℕ}

/-- C5: Jacobian finite-difference consistency.  If the residual without explicit
terms is the linear map `F(x) = M*x - b` in every cell and `epsilon > 0`, every
entry of the assembled Jacobian equals the entry of `M`, whichever of the two
perturbation rules applies to the perturbed component: entry `(i,j)` of the
per-cell matrix `A`, stored at index `i + D*j` of `jacobianSoA`. -/
theorem assembleJacobian_linear (E : SolveEnv ι D K) (S : SolveParams K)
    (M : Fin D → Fin D → K) (b : Fin D → K) (x : Grid ι D K)
    (hres : ∀ (y : Grid ι D K) (i : Fin D) (c : ι),
      E.computeResidual y false i c = ∑ j : Fin D, M i j * y j c - b i)
    (heps : 0 < S.JacobianAssembleEpsilon) (c : ι) (i j : Fin D) :
    cellMatrix (assembleJacobian E S x).jacobianSoA c i j = M i j ∧
    (assembleJacobian E S x).jacobianSoA (i.val + D * j.val) c = M i j := by
  have key : fdQuotient E S x i j c = M i j := by
    unfold fdQuotient
    rw [hres, hres]
    have hne := perturb_sub_ne_zero S.JacobianAssembleEpsilon (x j c) heps
    rw [div_eq_iff hne]
    have : ∑ k : Fin D, M i k * perturbedGuess S.JacobianAssembleEpsilon x j k c - b i
        - (∑ k : Fin D, M i k * x k c - b i)
        = ∑ k : Fin D, M i k * (perturbedGuess S.JacobianAssembleEpsilon x j k c - x k c) := by
      rw [sub_sub_sub_cancel_right, ← Finset.sum_sub_distrib]
      apply Finset.sum_congr rfl
      intro k _
      ring
    rw [this, Finset.sum_eq_single j]
    · simp [perturbedGuess]
    · intro k _ hk
      simp [perturbedGuess, Function.update_noteq hk]
    · intro h; exact absurd (Finset.mem_univ j) h
  exact ⟨(cellMatrix_assembleJacobian E S x c i j).trans key,
    (congrFun (assembleJacobian_apply E S x i j) c).trans key⟩

/-- C7: convergence transition.  Whenever, at the start of an outer iteration
(any remaining iteration budget `fuel`, any counter value), the global L2 norm
of the full-mode residual is strictly below `nonlinearsolve_atol`, the loop
stops at once with `primGuess` as it is; so a guess whose residual norm is
already below tolerance is returned unchanged in every cell and component. -/
theorem solve_of_converged [Fintype ι] (L : Lib K) (E : SolveEnv ι D K) (S : SolveParams K)
    (primGuess : Grid ι D K)
    (h : globalL2Norm L (E.computeResidual primGuess true) < S.nonlinearsolve_atol) :
    (∀ fuel nonLinearIter : ℕ, solveLoop L E S fuel nonLinearIter primGuess
        = { primGuess := primGuess, nonLinearIter := nonLinearIter }) ∧
    (∀ (var : Fin D) (c : ι), (solve L E S primGuess).primGuess var c = primGuess var c) := by
  have h1 : ∀ fuel nonLinearIter : ℕ, solveLoop L E S fuel nonLinearIter primGuess
        = { primGuess := primGuess, nonLinearIter := nonLinearIter } := by
    intro fuel it
    cases fuel with
    | zero => rfl
    | succ n => simp only [solveLoop, h, if_true]
  refine ⟨h1, ?_⟩
  intro var c
  unfold solve
  rw [h1]

/-- C8: iteration cap.  `timeStepper::solve` ends after `k <= maxNonLinearIter`
outer iterations, its result being `k` applications of the update to the
input; each update applies one correction `stepLength*deltaPrim` to
`primGuess`; each line search runs `k <= maxLineSearchIters` passes of its
body; with `maxNonLinearIter = 0` the state is returned unchanged. -/
theorem solve_iteration_cap [Fintype ι] (L : Lib K) (E : SolveEnv ι D K) (S : SolveParams K)
    (primGuess : Grid ι D K) :
    (∃ k : ℕ, k ≤ S.maxNonLinearIter ∧
      (solve L E S primGuess).primGuess
        = (fun p => newtonUpdate E S p (E.computeResidual p true))^[k] primGuess ∧
      (solve L E S primGuess).nonLinearIter = k) ∧
    (∀ (p residualSoA : Grid ι D K), ∃ stepLength : ι → K,
      newtonUpdate E S p residualSoA
        = fun var c => p var c + stepLength c * deltaPrimSoA E S p residualSoA var c) ∧
    (∀ (p deltaPrim : Grid ι D K) (f0 : ι → K), ∃ k : ℕ, k ≤ S.maxLineSearchIters ∧
      (lineSearch E S p deltaPrim f0).stepLength
        = (fun s => (lineSearchBody E S p deltaPrim f0 s).stepLength)^[k] (fun _ => 1) ∧
      (lineSearch E S p deltaPrim f0).lineSearchIter ≤ S.maxLineSearchIters) ∧
    (S.maxNonLinearIter = 0 → (solve L E S primGuess).primGuess = primGuess) := by
  refine ⟨?_, ?_, ?_, ?_⟩
  · obtain ⟨k, hk, h1, h2⟩ := solveLoop_iterate L E S S.maxNonLinearIter 0 primGuess
    exact ⟨k, hk, h1, by rw [solve, h2, Nat.zero_add]⟩
  · intro p r
    exact ⟨_, rfl⟩
  · intro p d f0
    obtain ⟨k, hk, h1, h2⟩ := lineSearchLoop_iterate E S p d f0 S.maxLineSearchIters 0 (fun _ => 1)
    exact ⟨k, hk, h1, by rw [Nat.zero_add] at h2; exact h2⟩
  · intro h0
    unfold solve
    rw [h0]
    rfl

/-- C10 (as amended): perturbation rule of the Jacobian assembly.  On entering
any row of the assembly loop (after any list `rows` of rows already done), the
perturbed entry of variable `row` is `epsilon` itself when
`|p| < 0.5*epsilon` (the value is replaced, so the perturbation is
`epsilon - p`) and `(1 + epsilon)*p` otherwise; the other variables of the
perturbed state equal the unperturbed state. -/
theorem perturbation_rule (E : SolveEnv ι D K) (S : SolveParams K)
    (primGuess residual : Grid ι D K) (rows : List (Fin D)) (row : Fin D) (c : ι) :
    let st := rows.foldl (jacobianRow E S primGuess residual)
      { primGuessPlusEps := primGuess, jacobianSoA := fun _ _ => 0 }
    let primGuessPlusEps : Grid ι D K := Function.update st.primGuessPlusEps row
      (fun c => perturb S.JacobianAssembleEpsilon (primGuess row c))
    primGuessPlusEps row c
        = (if |primGuess row c| < 0.5 * S.JacobianAssembleEpsilon
            then S.JacobianAssembleEpsilon
            else (1 + S.JacobianAssembleEpsilon) * primGuess row c) ∧
      ∀ var : Fin D, var ≠ row → primGuessPlusEps var c = primGuess var c := by
  intro st primGuessPlusEps
  have hst : st.primGuessPlusEps = primGuess :=
    foldl_jacobianRow_primGuessPlusEps E S primGuess residual rows _ rfl
  constructor
  · simp only [primGuessPlusEps, Function.update_same, perturb_eq]
  · intro var hvar
    simp only [primGuessPlusEps, Function.update_noteq hvar, hst]

end Solve

/-! ## The solver: examples -/

/-- C5, witness: for the linear residual with `M = [[2, 1], [0, 3]]` the assembled
matrix of the cell is `M`. -/
theorem assembleJacobian_linear_witness :
    (∀ (y : Grid (Fin 1) 2 ℚ) (i : Fin 2) (c : Fin 1),
      linearEnv.computeResidual y false i c
        = ∑ j : Fin 2, (![![2, 1], ![0, 3]] : Fin 2 → Fin 2 → ℚ) i j * y j c
          - (![3, 3] : Fin 2 → ℚ) i) ∧
    (0 : ℚ) < (newtonParams : SolveParams ℚ).JacobianAssembleEpsilon ∧
    (cellMatrix (assembleJacobian linearEnv newtonParams onesGuess).jacobianSoA 0
      : Fin 2 → Fin 2 → ℚ) 0 1 = 1 ∧
    (cellMatrix (assembleJacobian linearEnv newtonParams onesGuess).jacobianSoA 0
      : Fin 2 → Fin 2 → ℚ) 1 0 = 0 :=
  have h1 : ∀ (y : Grid (Fin 1) 2 ℚ) (i : Fin 2) (c : Fin 1),
      linearEnv.computeResidual y false i c
        = ∑ j : Fin 2, (![![2, 1], ![0, 3]] : Fin 2 → Fin 2 → ℚ) i j * y j c
          - (![3, 3] : Fin 2 → ℚ) i := fun _ _ _ => rfl
  have h2 : (0 : ℚ) < (newtonParams : SolveParams ℚ).JacobianAssembleEpsilon := by
    norm_num [newtonParams]
  ⟨h1, h2,
    (assembleJacobian_linear linearEnv newtonParams _ _ onesGuess h1 h2
      (0 : Fin 1) (0 : Fin 2) (1 : Fin 2)).1,
    (assembleJacobian_linear linearEnv newtonParams _ _ onesGuess h1 h2
      (0 : Fin 1) (1 : Fin 2) (0 : Fin 2)).1⟩

theorem linear_residual_at_root (mode : Bool) :
    linearEnv.computeResidual onesGuess mode = fun _ _ => 0 := by
  funext i c
  fin_cases i <;> norm_num [linearEnv, onesGuess, Fin.sum_univ_two]

/-- C7, witness: the guess `(1, 1)` is the root of the linear residual, its residual
norm is `0 < 1e-10`, and `solve` returns it unchanged. -/
theorem solve_of_converged_witness :
    globalL2Norm ratLib (linearEnv.computeResidual onesGuess true)
      < (newtonParams : SolveParams ℚ).nonlinearsolve_atol ∧
    ∀ (var : Fin 2) (c : Fin 1),
      (solve ratLib linearEnv newtonParams onesGuess).primGuess var c = onesGuess var c :=
  have h : globalL2Norm ratLib (linearEnv.computeResidual onesGuess true)
      < (newtonParams : SolveParams ℚ).nonlinearsolve_atol := by
    rw [linear_residual_at_root]
    norm_num [globalL2Norm, ratLib, newtonParams, Rat.sqrt]
  ⟨h, (solve_of_converged ratLib linearEnv newtonParams onesGuess h).2⟩

/-- C10, counterexample to the claim as stated: for `p = 1/10` and `epsilon = 1`
(so `|p| < 0.5*epsilon`) the perturbed value is `1`, not `p + epsilon = 11/10`. -/
theorem perturb_small_not_additive :
    |(1 / 10 : ℚ)| < 0.5 * 1 ∧ perturb (1 : ℚ) (1 / 10) = 1 ∧
      perturb (1 : ℚ) (1 / 10) ≠ 1 / 10 + 1 := by
  rw [perturb_eq]
  norm_num [abs_of_pos]


/-! ## The Newton scenario `F(x,y) = [x^2 - 4, y - 2]` -/

theorem half_eps_lt_one {eps : K} (h1 : eps ≤ 1) : (0.5 : K) * eps < 1 := by
  have : (0.5 : K) = 1 / 2 := by norm_num
  rw [this]; linarith

theorem perturb_of_one_le {eps x : K} (h1 : eps ≤ 1) (hx : 1 ≤ x) :
    perturb eps x = (1 + eps) * x := by
  rw [perturb_eq, if_neg]
  rw [abs_of_pos (lt_of_lt_of_le zero_lt_one hx)]
  exact not_lt.mpr (le_trans (half_eps_lt_one h1).le hx)

theorem parabola_matrix (lin : (Fin 2 → Fin 2 → K) → (Fin 2 → K) → (Fin 2 → K))
    (S : SolveParams K) (h0 : 0 < S.JacobianAssembleEpsilon) (h1 : S.JacobianAssembleEpsilon ≤ 1)
    (x y : K) (hx : 1 ≤ x) (hy : 1 ≤ y) (c : Fin 1) :
    cellMatrix (assembleJacobian (parabolaEnv lin) S (pointGuess x y)).jacobianSoA c
      = ![![(2 + S.JacobianAssembleEpsilon) * x, 0], ![0, 1]] := by
  have hx0 : x ≠ 0 := (lt_of_lt_of_le zero_lt_one hx).ne'
  have hy0 : y ≠ 0 := (lt_of_lt_of_le zero_lt_one hy).ne'
  have he : S.JacobianAssembleEpsilon ≠ 0 := h0.ne'
  have hdx : (1 + S.JacobianAssembleEpsilon) * x - x ≠ 0 := by
    have : (1 + S.JacobianAssembleEpsilon) * x - x = S.JacobianAssembleEpsilon * x := by ring
    rw [this]; exact mul_ne_zero he hx0
  have hdy : (1 + S.JacobianAssembleEpsilon) * y - y ≠ 0 := by
    have : (1 + S.JacobianAssembleEpsilon) * y - y = S.JacobianAssembleEpsilon * y := by ring
    rw [this]; exact mul_ne_zero he hy0
  funext i j
  rw [cellMatrix_assembleJacobian]
  fin_cases i <;> fin_cases j
  · simp [fdQuotient, perturbedGuess, parabolaEnv, pointGuess, perturb_of_one_le h1 hx]
    rw [div_eq_iff hdx]
    ring
  · simp [fdQuotient, perturbedGuess, parabolaEnv, pointGuess, perturb_of_one_le h1 hy]
  · simp [fdQuotient, perturbedGuess, parabolaEnv, pointGuess, perturb_of_one_le h1 hx]
  · simp [fdQuotient, perturbedGuess, parabolaEnv, pointGuess, perturb_of_one_le h1 hy]
    rw [div_eq_iff hdy]
    ring

theorem parabola_deltaPrim (lin : (Fin 2 → Fin 2 → K) → (Fin 2 → K) → (Fin 2 → K))
    (hlin : ExactSolve2 lin)
    (S : SolveParams K) (h0 : 0 < S.JacobianAssembleEpsilon) (h1 : S.JacobianAssembleEpsilon ≤ 1)
    (x y : K) (hx : 1 ≤ x) (hy : 1 ≤ y) :
    deltaPrimSoA (parabolaEnv lin) S (pointGuess x y)
        ((parabolaEnv lin).computeResidual (pointGuess x y) true)
      = pointGuess (-(x ^ 2 - 4) / ((2 + S.JacobianAssembleEpsilon) * x)) (2 - y) := by
  have hx0 : x ≠ 0 := (lt_of_lt_of_le zero_lt_one hx).ne'
  have h2 : (2 + S.JacobianAssembleEpsilon) * x ≠ 0 :=
    mul_ne_zero (by linarith : (2 + S.JacobianAssembleEpsilon) ≠ 0) hx0
  funext var c
  have hb : (fun v => -((parabolaEnv lin).computeResidual (pointGuess x y) true v c))
      = ![-(x ^ 2 - 4), -(y - 2)] := by
    funext v
    fin_cases v <;> simp [parabolaEnv, pointGuess]
  have hs := hlin ![![(2 + S.JacobianAssembleEpsilon) * x, 0], ![0, 1]]
    ![-(x ^ 2 - 4), -(y - 2)] (by simpa using h2)
  have e0 := hs 0
  have e1 := hs 1
  simp [Fin.sum_univ_two] at e0 e1
  show (parabolaEnv lin).solve
    (cellMatrix (assembleJacobian (parabolaEnv lin) S (pointGuess x y)).jacobianSoA c)
    (fun v => -((parabolaEnv lin).computeResidual (pointGuess x y) true v c)) var = _
  rw [parabola_matrix lin S h0 h1 x y hx hy c, hb]
  show lin _ _ var = _
  fin_cases var
  · simp only [pointGuess]
    simp
    rw [eq_div_iff h2, mul_comm]
    linarith [e0]
  · simp only [pointGuess]
    simp
    linarith [e1]

/-- If the full step passes the sufficient-decrease test in every cell, the line
search leaves the step length 1. -/
theorem lineSearch_full_step {ι : Type} {D : ℕ} [Fintype ι] (E : SolveEnv ι D K)
    (S : SolveParams K) (primGuess deltaPrim : Grid ι D K) (f0 : ι → K)
    (h : ∀ c, trialMerit E primGuess deltaPrim (fun _ => 1) c
      ≤ f0 c * (1 - 1e-4 * 1) + S.linesearchfloor) :
    (lineSearch E S primGuess deltaPrim f0).stepLength = fun _ => 1 := by
  unfold lineSearch
  cases S.maxLineSearchIters with
  | zero => rfl
  | succ n =>
    have hcond : ∀ c, (lineSearchBody E S primGuess deltaPrim f0 (fun _ => 1)).condition c = 0 := by
      intro c
      rw [lineSearchBody_condition]
      exact ind_neg (not_lt.mpr (h c))
    have hcard : (univ.filter (fun c =>
        (lineSearchBody E S primGuess deltaPrim f0 (fun _ => 1)).condition c > 0)).card = 0 := by
      rw [Finset.card_eq_zero, Finset.filter_eq_empty_iff]
      intro c _
      rw [hcond c]
      exact lt_irrefl _
    simp only [lineSearchLoop, hcard, if_true]
    funext c
    rw [lineSearchBody_stepLength, if_neg (not_lt.mpr (h c))]

theorem parabola_merit (lin : (Fin 2 → Fin 2 → K) → (Fin 2 → K) → (Fin 2 → K)) (x y : K)
    (c : Fin 1) :
    merit ((parabolaEnv lin).computeResidual (pointGuess x y) true) c
      = 0.5 * ((x ^ 2 - 4) ^ 2 + (y - 2) ^ 2) := by
  simp [merit, parabolaEnv, pointGuess, Fin.sum_univ_two]

theorem parabola_trialMerit (lin : (Fin 2 → Fin 2 → K) → (Fin 2 → K) → (Fin 2 → K))
    (x y dx dy : K) (c : Fin 1) :
    trialMerit (parabolaEnv lin) (pointGuess x y) (pointGuess dx dy) (fun _ => 1) c
      = 0.5 * (((x + dx) ^ 2 - 4) ^ 2 + (y + dy - 2) ^ 2) := by
  simp [trialMerit, merit, parabolaEnv, pointGuess, Fin.sum_univ_two]

/-- One outer iteration on the parabola scenario, when the full step is accepted. -/
theorem parabola_newtonUpdate (lin : (Fin 2 → Fin 2 → K) → (Fin 2 → K) → (Fin 2 → K))
    (hlin : ExactSolve2 lin)
    (S : SolveParams K) (h0 : 0 < S.JacobianAssembleEpsilon) (h1 : S.JacobianAssembleEpsilon ≤ 1)
    (x y : K) (hx : 1 ≤ x) (hy : 1 ≤ y)
    (hA : 0.5 * ((newtonX S.JacobianAssembleEpsilon x ^ 2 - 4) ^ 2)
      ≤ 0.5 * ((x ^ 2 - 4) ^ 2 + (y - 2) ^ 2) * (1 - 1e-4 * 1) + S.linesearchfloor) :
    newtonUpdate (parabolaEnv lin) S (pointGuess x y)
        ((parabolaEnv lin).computeResidual (pointGuess x y) true)
      = pointGuess (newtonX S.JacobianAssembleEpsilon x) 2 := by
  unfold newtonUpdate
  simp only [parabola_deltaPrim lin hlin S h0 h1 x y hx hy]
  rw [lineSearch_full_step]
  · funext var c
    fin_cases var
    · simp [pointGuess, newtonX]; ring
    · simp [pointGuess]
  · intro c
    rw [parabola_trialMerit, parabola_merit]
    have e1 : x + -(x ^ 2 - 4) / ((2 + S.JacobianAssembleEpsilon) * x)
        = newtonX S.JacobianAssembleEpsilon x := by
      unfold newtonX; ring
    have e2 : y + (2 - y) - 2 = 0 := by ring
    rw [e1, e2]
    simpa using hA


theorem newtonX_mul {eps x : K} (h0 : 0 < eps) (hx : 0 < x) :
    (2 + eps) * x * newtonX eps x = (1 + eps) * x ^ 2 + 4 := by
  unfold newtonX
  have h2 : (2 + eps) * x ≠ 0 := (mul_pos (by linarith) hx).ne'
  field_simp
  ring

theorem newtonX_ge_two {eps x : K} (h0 : 0 < eps) (hx : 2 ≤ x) : 2 ≤ newtonX eps x := by
  have hx0 : 0 < x := by linarith
  have hpos : 0 < (2 + eps) * x := mul_pos (by linarith) hx0
  have key : (2 + eps) * x * (newtonX eps x - 2) = (x - 2) * ((1 + eps) * x - 2) := by
    rw [mul_sub, newtonX_mul h0 hx0]; ring
  have hr : 0 ≤ (x - 2) * ((1 + eps) * x - 2) :=
    mul_nonneg (by linarith) (by nlinarith)
  rw [← key] at hr
  have := nonneg_of_mul_nonneg_right hr hpos
  linarith

theorem newtonX_one_ge_two {eps : K} (h0 : 0 < eps) (h1 : eps ≤ 1) : 2 ≤ newtonX eps 1 := by
  have hpos : 0 < (2 + eps) * 1 := by linarith
  have key : (2 + eps) * 1 * (newtonX eps 1 - 2) = 1 - eps := by
    rw [mul_sub, newtonX_mul h0 zero_lt_one]; ring
  have hr : 0 ≤ (2 + eps) * 1 * (newtonX eps 1 - 2) := by rw [key]; linarith
  have := nonneg_of_mul_nonneg_right hr hpos
  linarith

theorem newtonX_one_le {eps : K} (h0 : 0 < eps) : newtonX eps 1 ≤ 5 / 2 := by
  have hpos : 0 < (2 + eps) * 1 := by linarith
  have key : (2 + eps) * 1 * (5 / 2 - newtonX eps 1) = 3 / 2 * eps := by
    rw [mul_sub, newtonX_mul h0 zero_lt_one]; ring
  have hr : 0 ≤ (2 + eps) * 1 * (5 / 2 - newtonX eps 1) := by rw [key]; linarith
  have := nonneg_of_mul_nonneg_right hr hpos
  linarith

theorem newtonX_resid_le {eps x : K} (h0 : 0 < eps) (h1 : eps ≤ 1) (hx : 2 ≤ x) :
    newtonX eps x ^ 2 - 4 ≤ 4 / 9 * (x ^ 2 - 4) := by
  have hx0 : 0 < x := by linarith
  have hpos : 0 < ((2 + eps) * x) ^ 2 := pow_pos (mul_pos (by linarith) hx0) 2
  have hr : 0 ≤ x ^ 2 - 4 := by nlinarith
  have key : ((2 + eps) * x) ^ 2 * (4 * (x ^ 2 - 4) - 9 * (newtonX eps x ^ 2 - 4))
      = (x ^ 2 - 4) * ((x ^ 2 - 4) * ((1 - eps) * (5 * eps + 7)) + 4 * (2 + eps) * (8 - 5 * eps)) := by
    have e : ((2 + eps) * x) ^ 2 * newtonX eps x ^ 2 = ((1 + eps) * x ^ 2 + 4) ^ 2 := by
      rw [← mul_pow, newtonX_mul h0 hx0]
    have : ((2 + eps) * x) ^ 2 * (4 * (x ^ 2 - 4) - 9 * (newtonX eps x ^ 2 - 4))
        = ((2 + eps) * x) ^ 2 * (4 * (x ^ 2 - 4) + 36)
          - 9 * (((2 + eps) * x) ^ 2 * newtonX eps x ^ 2) := by ring
    rw [this, e]; ring
  have hnn : 0 ≤ ((2 + eps) * x) ^ 2 * (4 * (x ^ 2 - 4) - 9 * (newtonX eps x ^ 2 - 4)) := by
    rw [key]
    apply mul_nonneg hr
    have a1 : 0 ≤ (1 - eps) * (5 * eps + 7) := mul_nonneg (by linarith) (by linarith)
    have a2 : 0 ≤ 4 * (2 + eps) * (8 - 5 * eps) := mul_nonneg (by linarith) (by linarith)
    exact add_nonneg (mul_nonneg hr a1) a2
  have := nonneg_of_mul_nonneg_right hnn hpos
  linarith

theorem sqrt_mul_self {L : Lib K} (hL : L.SqrtExact) {a : K} (ha : 0 ≤ a) :
    L.sqrt (a * a) = a := by
  obtain ⟨h1, h2⟩ := hL (a * a) (mul_self_nonneg a)
  exact (mul_self_inj h1 ha).mp h2

theorem parabola_norm (L : Lib K) (hL : L.SqrtExact)
    (lin : (Fin 2 → Fin 2 → K) → (Fin 2 → K) → (Fin 2 → K)) (x : K) (hx : 2 ≤ x) :
    globalL2Norm L ((parabolaEnv lin).computeResidual (pointGuess x 2) true) = x ^ 2 - 4 := by
  have hr : 0 ≤ x ^ 2 - 4 := by nlinarith
  have : globalL2Norm L ((parabolaEnv lin).computeResidual (pointGuess x 2) true)
      = L.sqrt ((x ^ 2 - 4) * (x ^ 2 - 4)) := by
    simp [globalL2Norm, parabolaEnv, pointGuess, Fin.sum_univ_two]
  rw [this, sqrt_mul_self hL hr]

theorem parabola_norm_ones (L : Lib K) (hL : L.SqrtExact)
    (lin : (Fin 2 → Fin 2 → K) → (Fin 2 → K) → (Fin 2 → K)) :
    ¬ globalL2Norm L ((parabolaEnv lin).computeResidual (pointGuess 1 1) true) < 1e-10 := by
  have : globalL2Norm L ((parabolaEnv lin).computeResidual (pointGuess 1 1) true)
      = L.sqrt 10 := by
    simp [globalL2Norm, parabolaEnv, pointGuess, Fin.sum_univ_two]
    norm_num
  rw [this]
  obtain ⟨h1, h2⟩ := hL 10 (by norm_num)
  intro hlt
  have h3 : (1e-10 : K) ≤ 1 := by norm_num
  nlinarith


theorem geometric_small {j : ℕ} (hj : 30 ≤ j) : (9 / 4 : K) * (4 / 9) ^ j < 1e-10 := by
  have h1 : ((4 : K) / 9) ^ j ≤ (4 / 9) ^ 30 :=
    pow_le_pow_of_le_one (by norm_num) (by norm_num) hj
  have h2 : (9 / 4 : K) * (4 / 9) ^ 30 < 1e-10 := by norm_num
  linarith

/-- From a state `(x, 2)` with `x >= 2` and residual at most `(9/4)*(4/9)^j`, the
outer loop stops through its convergence test within `31 - j` iterations. -/
theorem parabola_solveLoop (L : Lib K) (hL : L.SqrtExact)
    (lin : (Fin 2 → Fin 2 → K) → (Fin 2 → K) → (Fin 2 → K)) (hlin : ExactSolve2 lin)
    (S : SolveParams K) (hatol : S.nonlinearsolve_atol = 1e-10)
    (h0 : 0 < S.JacobianAssembleEpsilon) (h1 : S.JacobianAssembleEpsilon ≤ 1)
    (hEPS : 0 ≤ S.linesearchfloor) (fuel : ℕ) :
    ∀ (j nonLinearIter : ℕ) (x : K), 2 ≤ x → x ^ 2 - 4 ≤ 9 / 4 * (4 / 9) ^ j →
      31 ≤ fuel + j → 1 ≤ fuel →
      (solveLoop L (parabolaEnv lin) S fuel nonLinearIter (pointGuess x 2)).nonLinearIter
          < nonLinearIter + fuel ∧
      ∃ x' : K, (solveLoop L (parabolaEnv lin) S fuel nonLinearIter (pointGuess x 2)).primGuess
          = pointGuess x' 2 ∧ 2 ≤ x' ∧ x' ^ 2 - 4 < 1e-10 := by
  induction fuel with
  | zero => intro j it x _ _ _ hf; omega
  | succ n ih =>
    intro j it x hx hres hfj _
    have hnorm := parabola_norm L hL lin x hx
    by_cases hconv : x ^ 2 - 4 < 1e-10
    · have hc : globalL2Norm L ((parabolaEnv lin).computeResidual (pointGuess x 2) true)
          < S.nonlinearsolve_atol := by rw [hnorm, hatol]; exact hconv
      simp only [solveLoop, hc, if_true]
      exact ⟨by omega, x, rfl, hx, hconv⟩
    · have hc : ¬ globalL2Norm L ((parabolaEnv lin).computeResidual (pointGuess x 2) true)
          < S.nonlinearsolve_atol := by rw [hnorm, hatol]; exact hconv
      have hj : j < 30 := by
        by_contra hge
        exact hconv (lt_of_le_of_lt hres (geometric_small (not_lt.mp hge)))
      have hr : 0 ≤ x ^ 2 - 4 := by nlinarith
      have hr' := newtonX_resid_le h0 h1 hx
      have hx' := newtonX_ge_two h0 hx
      have hr0 : 0 ≤ newtonX S.JacobianAssembleEpsilon x ^ 2 - 4 := by nlinarith
      have hA : 0.5 * ((newtonX S.JacobianAssembleEpsilon x ^ 2 - 4) ^ 2)
          ≤ 0.5 * ((x ^ 2 - 4) ^ 2 + ((2 : K) - 2) ^ 2) * (1 - 1e-4 * 1)
            + S.linesearchfloor := by
        have hsq : (newtonX S.JacobianAssembleEpsilon x ^ 2 - 4) ^ 2
            ≤ (4 / 9 * (x ^ 2 - 4)) ^ 2 := pow_le_pow_left₀ hr0 hr' 2
        have e : (4 / 9 * (x ^ 2 - 4)) ^ 2 = 16 / 81 * (x ^ 2 - 4) ^ 2 := by ring
        rw [e] at hsq
        have hsq2 : 0 ≤ (x ^ 2 - 4) ^ 2 := sq_nonneg _
        have e2 : ((2 : K) - 2) ^ 2 = 0 := by norm_num
        have e5 : (0.5 : K) = 1 / 2 := by norm_num
        have e4 : (1e-4 : K) = 1 / 10000 := by norm_num
        rw [e2, e5, e4, add_zero]
        generalize (x ^ 2 - 4) ^ 2 = R at hsq hsq2 ⊢
        generalize (newtonX S.JacobianAssembleEpsilon x ^ 2 - 4) ^ 2 = R' at hsq ⊢
        linarith
      have hup := parabola_newtonUpdate lin hlin S h0 h1 x 2 (by linarith) (by norm_num) hA
      simp only [solveLoop, hc, if_false, hup]
      have hres' : newtonX S.JacobianAssembleEpsilon x ^ 2 - 4 ≤ 9 / 4 * (4 / 9) ^ (j + 1) := by
        have e : ((4 : K) / 9) ^ (j + 1) = (4 / 9) ^ j * (4 / 9) := pow_succ _ _
        rw [e]
        generalize ((4 : K) / 9) ^ j = g at hres ⊢
        linarith
      obtain ⟨hit, x', hx1, hx2, hx3⟩ := ih (j + 1) (it + 1) _ hx' hres' (by omega) (by omega)
      exact ⟨by omega, x', hx1, hx2, hx3⟩

theorem onesGuess_eq : (onesGuess : Grid (Fin 1) 2 K) = pointGuess 1 1 := by
  funext var c
  fin_cases var <;> rfl

/-- C6: Newton scenario.  One cell, `D = 2`, residual `F(x,y) = [x^2 - 4, y - 2]`
in both modes, initial guess `(1,1)`, an exact per-cell linear solve, exact
square root, tolerance `1e-10`, differencing parameter `0 < epsilon <= 1`,
`linesearchfloor >= 0`, any `maxLineSearchIters` and an iteration cap of at
least 32: `timeStepper::solve` stops through the convergence test (the counter
is below the cap), the residual L2 norm of its result is below `1e-10`, and the
result lies within `1e-10` of `(2,2)` in both components. -/
theorem solve_parabola_converges (L : Lib K) (hL : L.SqrtExact)
    (lin : (Fin 2 → Fin 2 → K) → (Fin 2 → K) → (Fin 2 → K)) (hlin : ExactSolve2 lin)
    (S : SolveParams K) (hatol : S.nonlinearsolve_atol = 1e-10)
    (h0 : 0 < S.JacobianAssembleEpsilon) (h1 : S.JacobianAssembleEpsilon ≤ 1)
    (hEPS : 0 ≤ S.linesearchfloor) (hN : 32 ≤ S.maxNonLinearIter) :
    (solve L (parabolaEnv lin) S onesGuess).nonLinearIter < S.maxNonLinearIter ∧
    globalL2Norm L ((parabolaEnv lin).computeResidual
      (solve L (parabolaEnv lin) S onesGuess).primGuess true) < 1e-10 ∧
    |(solve L (parabolaEnv lin) S onesGuess).primGuess 0 0 - 2| < 1e-10 ∧
    |(solve L (parabolaEnv lin) S onesGuess).primGuess 1 0 - 2| < 1e-10 := by
  obtain ⟨n, hn⟩ : ∃ n, S.maxNonLinearIter = n + 1 := ⟨S.maxNonLinearIter - 1, by omega⟩
  have hc : ¬ globalL2Norm L ((parabolaEnv lin).computeResidual (pointGuess 1 1) true)
      < S.nonlinearsolve_atol := by rw [hatol]; exact parabola_norm_ones L hL lin
  have hx1 := newtonX_one_ge_two h0 h1
  have hx2 : newtonX S.JacobianAssembleEpsilon 1 ≤ 5 / 2 := newtonX_one_le h0
  have hr1 : newtonX S.JacobianAssembleEpsilon 1 ^ 2 - 4 ≤ 9 / 4 * (4 / 9) ^ 0 := by
    rw [pow_zero]; nlinarith
  have hr0 : 0 ≤ newtonX S.JacobianAssembleEpsilon 1 ^ 2 - 4 := by nlinarith
  have hA : 0.5 * ((newtonX S.JacobianAssembleEpsilon 1 ^ 2 - 4) ^ 2)
      ≤ 0.5 * (((1 : K) ^ 2 - 4) ^ 2 + ((1 : K) - 2) ^ 2) * (1 - 1e-4 * 1)
        + S.linesearchfloor := by
    have hsq : (newtonX S.JacobianAssembleEpsilon 1 ^ 2 - 4) ^ 2 ≤ (9 / 4) ^ 2 :=
      pow_le_pow_left₀ hr0 (by rw [pow_zero] at hr1; linarith) 2
    have e1 : ((1 : K) ^ 2 - 4) ^ 2 + ((1 : K) - 2) ^ 2 = 10 := by norm_num
    have e5 : (0.5 : K) = 1 / 2 := by norm_num
    have e4 : (1e-4 : K) = 1 / 10000 := by norm_num
    have e9 : ((9 : K) / 4) ^ 2 = 81 / 16 := by norm_num
    rw [e9] at hsq
    rw [e1, e5, e4]
    generalize (newtonX S.JacobianAssembleEpsilon 1 ^ 2 - 4) ^ 2 = R' at hsq ⊢
    linarith
  have hup := parabola_newtonUpdate lin hlin S h0 h1 1 1 le_rfl le_rfl hA
  obtain ⟨hit, x', hx, hx2', hx3⟩ := parabola_solveLoop L hL lin hlin S hatol h0 h1 hEPS n 0 1 _
    hx1 hr1 (by omega) (by omega)
  have hsolve : solve L (parabolaEnv lin) S onesGuess
      = solveLoop L (parabolaEnv lin) S n 1 (pointGuess (newtonX S.JacobianAssembleEpsilon 1) 2) := by
    unfold solve
    rw [hn, onesGuess_eq]
    simp only [solveLoop, hc, if_false, hup]
  rw [hsolve, hx]
  refine ⟨by omega, ?_, ?_, ?_⟩
  · rw [parabola_norm L hL lin x' hx2']; exact hx3
  · show |x' - 2| < 1e-10
    rw [abs_of_nonneg (by linarith)]
    nlinarith
  · show |(2 : K) - 2| < 1e-10
    norm_num


theorem cramer2_exact :
    ExactSolve2 (cramer2 : (Fin 2 → Fin 2 → ℝ) → (Fin 2 → ℝ) → (Fin 2 → ℝ)) := by
  intro A b hdet i
  fin_cases i
  · simp only [Fin.sum_univ_two, cramer2]
    simp
    field_simp
    ring
  · simp only [Fin.sum_univ_two, cramer2]
    simp
    field_simp
    ring

/-- C6, witness: over the reals, with Cramer's rule as the linear solve and the
parameters `newtonParams` (`epsilon = 4e-8`, cap 40). -/
theorem solve_parabola_converges_witness :
    (Lib.mk Real.sqrt Real.rpow).SqrtExact ∧
    ExactSolve2 (cramer2 : (Fin 2 → Fin 2 → ℝ) → (Fin 2 → ℝ) → (Fin 2 → ℝ)) ∧
    (0 : ℝ) < (newtonParams : SolveParams ℝ).JacobianAssembleEpsilon ∧
    (newtonParams : SolveParams ℝ).JacobianAssembleEpsilon ≤ 1 ∧
    32 ≤ (newtonParams : SolveParams ℝ).maxNonLinearIter ∧
    (solve (Lib.mk Real.sqrt Real.rpow) (parabolaEnv cramer2) (newtonParams : SolveParams ℝ)
      onesGuess).nonLinearIter < 40 ∧
    |(solve (Lib.mk Real.sqrt Real.rpow) (parabolaEnv cramer2) (newtonParams : SolveParams ℝ)
      onesGuess).primGuess 0 0 - 2| < 1e-10 :=
  have h0 : (0 : ℝ) < (newtonParams : SolveParams ℝ).JacobianAssembleEpsilon := by
    norm_num [newtonParams]
  have h1 : (newtonParams : SolveParams ℝ).JacobianAssembleEpsilon ≤ 1 := by
    norm_num [newtonParams]
  have hN : 32 ≤ (newtonParams : SolveParams ℝ).maxNonLinearIter := by
    norm_num [newtonParams]
  have h := solve_parabola_converges (Lib.mk Real.sqrt Real.rpow) realLib_sqrtExact cramer2
    cramer2_exact (newtonParams : SolveParams ℝ) rfl h0 h1 (le_refl _) hN
  ⟨realLib_sqrtExact, cramer2_exact, h0, h1, hN, h.1, h.2.2.1⟩

/-! ## The line search and the linear system: helper lemmas -/

/-- The model of the backtracking step is a parabola with vertex at the new step length. -/
theorem backtrackModel_vertex {f0 f1 s0 : K} (hs0 : s0 ≠ 0) (hA : f1 - f0 - -2 * f0 * s0 ≠ 0)
    (t : K) :
    backtrackModel f0 f1 s0 t
        - backtrackModel f0 f1 s0 (-(-2 * f0) * s0 ^ 2 / (2 * (f1 - f0 - -2 * f0 * s0)))
      = (f1 - f0 - -2 * f0 * s0) / s0 ^ 2
          * (t - -(-2 * f0) * s0 ^ 2 / (2 * (f1 - f0 - -2 * f0 * s0))) ^ 2 := by
  unfold backtrackModel
  simp only
  generalize f1 - f0 - -2 * f0 * s0 = A at hA ⊢
  field_simp
  ring

section Solve

variable {ι : Type} {D : ℕ}

theorem lineSearchBody_denom (E : SolveEnv ι D K) (S : SolveParams K)
    (primGuess deltaPrim : Grid ι D K) (f0 stepLength : ι → K) (c : ι) :
    (lineSearchBody E S primGuess deltaPrim f0 stepLength).denom c
      = if trialMerit E primGuess deltaPrim stepLength c
          > f0 c * (1 - 1e-4 * stepLength c) + S.linesearchfloor
        then trialMerit E primGuess deltaPrim stepLength c - f0 c - -2 * f0 c * stepLength c
        else 1 := by
  unfold lineSearchBody trialMerit
  by_cases h : merit (E.computeResidual
      (fun var c => primGuess var c + stepLength c * deltaPrim var c) true) c
      > f0 c * (1 - 1e-4 * stepLength c) + S.linesearchfloor
  · simp only [ind, h, if_true]; ring
  · simp only [ind, h, if_false]; ring

/-- The fit denominator of a cell that fails the sufficient-decrease test is positive. -/
theorem fit_denominator_pos {f0 f1 s EPS : K} (hf0 : 0 ≤ f0) (hs : 0 ≤ s) (hEPS : 0 ≤ EPS)
    (hfail : f1 > f0 * (1 - 1e-4 * s) + EPS) : 0 < f1 - f0 - -2 * f0 * s := by
  have h4 : (1e-4 : K) = 1 / 10000 := by norm_num
  rw [h4] at hfail
  have := mul_nonneg hf0 hs
  linarith

theorem trialMerit_congr (E : SolveEnv ι D K) (hloc : CellLocal E)
    (primGuess deltaPrim : Grid ι D K) (s t : ι → K) (c : ι) (h : s c = t c) :
    trialMerit E primGuess deltaPrim s c = trialMerit E primGuess deltaPrim t c := by
  unfold trialMerit merit
  have := hloc (fun var c => primGuess var c + s c * deltaPrim var c)
    (fun var c => primGuess var c + t c * deltaPrim var c) true c (fun var => by simp only [h])
  simp only [this]

theorem cellPerturbedGuess_agree [DecidableEq ι] (epsilon : K) (primGuess : Grid ι D K)
    (row : Fin D) (c : ι) (var : Fin D) :
    perturbedGuess epsilon primGuess row var c = cellPerturbedGuess epsilon primGuess row c var c := by
  unfold perturbedGuess cellPerturbedGuess
  by_cases h : var = row
  · subst h; simp
  · simp [h, Function.update_noteq h]

/-- A solver that is exact on non-singular matrices returns the zero vector for
the zero right-hand side of a non-singular matrix. -/
theorem solve_zero_of_exactSolve
    (solve : (Fin D → Fin D → K) → (Fin D → K) → (Fin D → K)) (h : ExactSolve solve)
    (A : Fin D → Fin D → K) (hdet : Matrix.det (Matrix.of A) ≠ 0) :
    solve A (fun _ => 0) = fun _ => 0 := by
  have hmv : (Matrix.of A).mulVec (solve A (fun _ => 0)) = 0 := by
    funext i
    have := h A (fun _ => 0) hdet i
    simpa [Matrix.mulVec, Matrix.dotProduct] using this
  exact Matrix.eq_zero_of_mulVec_eq_zero hdet hmv

end Solve

/-! ## The line search and the linear system: the claims -/

section Solve

variable {ι : Type} {D : ℕ}

/-- C11: Armijo acceptance with per-cell masking.  In a line-search pass a cell
with `f1 <= f0*(1 - alpha*stepLength) + EPS` (`alpha = 1e-4`) keeps its step
length exactly unchanged; when the residual of a cell depends only on that
cell's state, its mask entry is 0 and its step length is the same after any
number `k` of further passes; and the loop leaves through its `break` in a
pass exactly when no cell violates the condition, going on to the next pass
otherwise. -/
theorem lineSearch_accepted_cell_keeps_step [Fintype ι] (E : SolveEnv ι D K) (S : SolveParams K)
    (primGuess deltaPrim : Grid ι D K) (f0 s : ι → K) (c : ι)
    (hpass : trialMerit E primGuess deltaPrim s c
      ≤ f0 c * (1 - 1e-4 * s c) + S.linesearchfloor) :
    (lineSearchBody E S primGuess deltaPrim f0 s).stepLength c = s c ∧
    (CellLocal E → ∀ k : ℕ,
      ((fun t => (lineSearchBody E S primGuess deltaPrim f0 t).stepLength)^[k] s) c = s c ∧
      (lineSearchBody E S primGuess deltaPrim f0
        ((fun t => (lineSearchBody E S primGuess deltaPrim f0 t).stepLength)^[k] s)).condition c
          = 0) ∧
    (∀ (fuel lineSearchIter : ℕ) (t : ι → K),
      ((∀ c2, ¬ (lineSearchBody E S primGuess deltaPrim f0 t).condition c2 > 0) →
        lineSearchLoop E S primGuess deltaPrim f0 (fuel + 1) lineSearchIter t
          = { stepLength := (lineSearchBody E S primGuess deltaPrim f0 t).stepLength,
              lineSearchIter := lineSearchIter }) ∧
      ((∃ c2, (lineSearchBody E S primGuess deltaPrim f0 t).condition c2 > 0) →
        lineSearchLoop E S primGuess deltaPrim f0 (fuel + 1) lineSearchIter t
          = lineSearchLoop E S primGuess deltaPrim f0 fuel (lineSearchIter + 1)
              (lineSearchBody E S primGuess deltaPrim f0 t).stepLength)) := by
  refine ⟨?_, ?_, ?_⟩
  · rw [lineSearchBody_stepLength, if_neg (not_lt.mpr hpass)]
  · intro hloc k
    induction k with
    | zero =>
      refine ⟨rfl, ?_⟩
      rw [Function.iterate_zero, id, lineSearchBody_condition]
      exact ind_neg (not_lt.mpr hpass)
    | succ n ih =>
      have hstep : ((fun t => (lineSearchBody E S primGuess deltaPrim f0 t).stepLength)^[n + 1] s) c
          = s c := by
        rw [Function.iterate_succ_apply']
        show (lineSearchBody E S primGuess deltaPrim f0 _).stepLength c = s c
        rw [lineSearchBody_stepLength]
        have h0 := ih.2
        rw [lineSearchBody_condition] at h0
        by_cases hc : trialMerit E primGuess deltaPrim
            ((fun t => (lineSearchBody E S primGuess deltaPrim f0 t).stepLength)^[n] s) c
            > f0 c * (1 - 1e-4 *
              ((fun t => (lineSearchBody E S primGuess deltaPrim f0 t).stepLength)^[n] s) c)
              + S.linesearchfloor
        · rw [ind_pos hc] at h0; exact absurd h0 one_ne_zero
        · rw [if_neg hc]; exact ih.1
      refine ⟨hstep, ?_⟩
      rw [lineSearchBody_condition]
      apply ind_neg
      rw [trialMerit_congr E hloc primGuess deltaPrim _ s c hstep, hstep]
      exact not_lt.mpr hpass
  · intro fuel it t
    constructor
    · intro hall
      have hcard : (univ.filter (fun c2 =>
          (lineSearchBody E S primGuess deltaPrim f0 t).condition c2 > 0)).card = 0 := by
        rw [Finset.card_eq_zero, Finset.filter_eq_empty_iff]
        intro c2 _
        exact hall c2
      simp only [lineSearchLoop, hcard, if_true]
    · rintro ⟨c2, hc2⟩
      have hcard : ¬ (univ.filter (fun c2 =>
          (lineSearchBody E S primGuess deltaPrim f0 t).condition c2 > 0)).card = 0 := by
        rw [Finset.card_eq_zero, Finset.filter_eq_empty_iff]
        intro h
        exact h (Finset.mem_univ c2) hc2
      simp only [lineSearchLoop, hcard, if_false]
/-- C12: backtracking update.  In a cell that fails the sufficient-decrease test
at trial step `s0 > 0` (with `f0 >= 0`, `EPS >= 0`), the next step length is
`-f'(0)*s0^2 / (2*(f1 - f0 - f'(0)*s0))` with `f'(0) = -2*f0`; it minimizes
over `s` the model `m(s) = (f1 - f0 - f'(0)*s0)*(s/s0)^2 + f'(0)*s + f0`,
and `m(0) = f0`, `m(s0) = f1`, `m(s) = f0 + f'(0)*s + (quadratic term)`, so
`m'(0) = f'(0)`. -/
theorem backtracking_step_minimizes_model (E : SolveEnv ι D K) (S : SolveParams K)
    (primGuess deltaPrim : Grid ι D K) (f0 s : ι → K) (c : ι)
    (hf0 : 0 ≤ f0 c) (hs : 0 < s c) (hEPS : 0 ≤ S.linesearchfloor)
    (hfail : trialMerit E primGuess deltaPrim s c
      > f0 c * (1 - 1e-4 * s c) + S.linesearchfloor) :
    (lineSearchBody E S primGuess deltaPrim f0 s).stepLength c
      = -(-2 * f0 c) * s c ^ 2
          / (2 * (trialMerit E primGuess deltaPrim s c - f0 c - -2 * f0 c * s c)) ∧
    (∀ t : K,
      backtrackModel (f0 c) (trialMerit E primGuess deltaPrim s c) (s c)
          ((lineSearchBody E S primGuess deltaPrim f0 s).stepLength c)
        ≤ backtrackModel (f0 c) (trialMerit E primGuess deltaPrim s c) (s c) t) ∧
    backtrackModel (f0 c) (trialMerit E primGuess deltaPrim s c) (s c) 0 = f0 c ∧
    backtrackModel (f0 c) (trialMerit E primGuess deltaPrim s c) (s c) (s c)
      = trialMerit E primGuess deltaPrim s c ∧
    (∀ t : K, backtrackModel (f0 c) (trialMerit E primGuess deltaPrim s c) (s c) t
      = f0 c + -2 * f0 c * t
        + (trialMerit E primGuess deltaPrim s c - f0 c - -2 * f0 c * s c) / s c ^ 2 * t ^ 2) := by
  have hA := fit_denominator_pos hf0 hs.le hEPS hfail
  have hs0 : s c ≠ 0 := hs.ne'
  have hnext : (lineSearchBody E S primGuess deltaPrim f0 s).stepLength c
      = -(-2 * f0 c) * s c ^ 2
          / (2 * (trialMerit E primGuess deltaPrim s c - f0 c - -2 * f0 c * s c)) := by
    rw [lineSearchBody_stepLength, if_pos hfail]
    field_simp
    ring
  refine ⟨hnext, ?_, ?_, ?_, ?_⟩
  · intro t
    rw [hnext, ← sub_nonneg, backtrackModel_vertex hs0 hA.ne' t]
    exact mul_nonneg (div_nonneg hA.le (sq_nonneg _)) (sq_nonneg _)
  · simp [backtrackModel]
  · unfold backtrackModel
    rw [div_self hs0]
    ring
  · intro t
    unfold backtrackModel
    field_simp
    ring

/-- C13: division guard of the line search.  In every cell and every pass with
`f0 >= 0`, step length `> 0` and `EPS >= 0`, the divisor `denom` of
`nextStepLength` is non-zero, and a cell whose fit denominator
`f1 - f0 - f'(0)*stepLength` is zero keeps its previous step length. -/
theorem lineSearch_denom_ne_zero (E : SolveEnv ι D K) (S : SolveParams K)
    (primGuess deltaPrim : Grid ι D K) (f0 s : ι → K) (c : ι)
    (hf0 : 0 ≤ f0 c) (hs : 0 < s c) (hEPS : 0 ≤ S.linesearchfloor) :
    (lineSearchBody E S primGuess deltaPrim f0 s).denom c ≠ 0 ∧
    (trialMerit E primGuess deltaPrim s c - f0 c - -2 * f0 c * s c = 0 →
      (lineSearchBody E S primGuess deltaPrim f0 s).stepLength c = s c) := by
  constructor
  · rw [lineSearchBody_denom]
    split
    · rename_i hfail
      exact (fit_denominator_pos hf0 hs.le hEPS hfail).ne'
    · exact one_ne_zero
  · intro hzero
    rw [lineSearchBody_stepLength, if_neg]
    intro hfail
    exact (fit_denominator_pos hf0 hs.le hEPS hfail).ne' hzero

/-- C19: linear system handed to the per-cell solve.  For every cell the matrix
`A` obtained from `jacobianSoA` by the reorder and the column-major reshape
has `A(i,j) = (Ffast_i(x + h_j*e_j) - Ffast_i(x)) / h_j`, where `x + h_j*e_j`
differs from `x` only in variable `j`; the correction is
`af::solve(A, b)` with `b_i = -Ffull_i(x)`; and when the residual of a cell
depends only on that cell's state, `x + h_j*e_j` may be perturbed in this
cell alone. -/
theorem solve_linear_system [DecidableEq ι] (E : SolveEnv ι D K) (S : SolveParams K) (x : Grid ι D K) (c : ι) :
    (∀ i j : Fin D, cellMatrix (assembleJacobian E S x).jacobianSoA c i j
      = (E.computeResidual (perturbedGuess S.JacobianAssembleEpsilon x j) false i c
          - E.computeResidual x false i c)
        / (perturbedGuess S.JacobianAssembleEpsilon x j j c - x j c)) ∧
    (∀ var : Fin D, deltaPrimSoA E S x (E.computeResidual x true) var c
      = E.solve (cellMatrix (assembleJacobian E S x).jacobianSoA c)
          (fun i => -E.computeResidual x true i c) var) ∧
    (∀ j var : Fin D, var ≠ j → perturbedGuess S.JacobianAssembleEpsilon x j var c = x var c) ∧
    (CellLocal E → ∀ i j : Fin D, cellMatrix (assembleJacobian E S x).jacobianSoA c i j
      = (E.computeResidual (cellPerturbedGuess S.JacobianAssembleEpsilon x j c) false i c
          - E.computeResidual x false i c)
        / (cellPerturbedGuess S.JacobianAssembleEpsilon x j c j c - x j c)) := by
  have h1 : ∀ i j : Fin D, cellMatrix (assembleJacobian E S x).jacobianSoA c i j
      = (E.computeResidual (perturbedGuess S.JacobianAssembleEpsilon x j) false i c
          - E.computeResidual x false i c)
        / (perturbedGuess S.JacobianAssembleEpsilon x j j c - x j c) := by
    intro i j
    rw [cellMatrix_assembleJacobian]
    simp [fdQuotient, perturbedGuess]
  refine ⟨h1, fun var => rfl, ?_, ?_⟩
  · intro j var hne
    simp [perturbedGuess, Function.update_noteq hne]
  · intro hloc i j
    rw [h1, hloc _ _ false c (cellPerturbedGuess_agree S.JacobianAssembleEpsilon x j c) i,
      cellPerturbedGuess_agree]

end Solve

/-! ## The line search and the linear system: examples -/

theorem bumpEnv_cellLocal : CellLocal bumpEnv := by
  intro x y mode c h var
  simp only [bumpEnv]
  have hc : c = 0 := Subsingleton.elim _ _
  rw [h var]

theorem bump_pass_small_step :
    trialMerit bumpEnv originGuess (fun _ _ => -1 / 20) (fun _ => 1) 0
      ≤ merit (bumpEnv.computeResidual originGuess true) 0 * (1 - 1e-4 * (fun _ : Fin 1 => (1 : ℚ)) 0)
        + bumpParams.linesearchfloor := by
  simp [trialMerit, merit, bumpEnv, bumpParams, originGuess]
  norm_num

theorem bump_fail_full_step :
    trialMerit bumpEnv originGuess (fun _ _ => 1) (fun _ => 1) 0
      > merit (bumpEnv.computeResidual originGuess true) 0 * (1 - 1e-4 * (fun _ : Fin 1 => (1 : ℚ)) 0)
        + bumpParams.linesearchfloor := by
  simp [trialMerit, merit, bumpEnv, bumpParams, originGuess]
  norm_num

theorem bump_merit : merit (bumpEnv.computeResidual originGuess true) 0 = 1 / 2 := by
  simp [merit, bumpEnv, originGuess]
  norm_num

theorem bump_trialMerit :
    trialMerit bumpEnv originGuess (fun _ _ => 1) (fun _ => 1) 0 = 9 / 2 := by
  simp [trialMerit, merit, bumpEnv, originGuess]
  norm_num

/-- C11, witness: from `x = 0` with the correction `-1/20` the cell passes the test
at the full step and its step length is still 1 after three more passes. -/
theorem lineSearch_accepted_cell_keeps_step_witness :
    CellLocal bumpEnv ∧
    (lineSearchBody bumpEnv bumpParams originGuess (fun _ _ => -1 / 20)
      (merit (bumpEnv.computeResidual originGuess true)) (fun _ => 1)).stepLength 0 = 1 ∧
    ((fun t => (lineSearchBody bumpEnv bumpParams originGuess (fun _ _ => -1 / 20)
      (merit (bumpEnv.computeResidual originGuess true)) t).stepLength)^[3] (fun _ => 1)) 0 = 1 :=
  ⟨bumpEnv_cellLocal,
    (lineSearch_accepted_cell_keeps_step bumpEnv bumpParams originGuess (fun _ _ => -1 / 20)
      (merit (bumpEnv.computeResidual originGuess true)) (fun _ => 1) 0 bump_pass_small_step).1,
    ((lineSearch_accepted_cell_keeps_step bumpEnv bumpParams originGuess (fun _ _ => -1 / 20)
      (merit (bumpEnv.computeResidual originGuess true)) (fun _ => 1) 0
      bump_pass_small_step).2.1 bumpEnv_cellLocal 3).1⟩

/-- C12, witness: from `x = 0` with the correction 1 (`f0 = 1/2`, `f1 = 9/2`,
`s0 = 1`) the next step length is `1/10`. -/
theorem backtracking_step_minimizes_model_witness :
    (lineSearchBody bumpEnv bumpParams originGuess (fun _ _ => 1)
      (merit (bumpEnv.computeResidual originGuess true)) (fun _ => 1)).stepLength 0 = 1 / 10 := by
  have h := (backtracking_step_minimizes_model bumpEnv bumpParams originGuess (fun _ _ => 1)
    (merit (bumpEnv.computeResidual originGuess true)) (fun _ => 1) 0
    (merit_nonneg _ _) zero_lt_one (le_refl _) bump_fail_full_step).1
  rw [h, bump_merit, bump_trialMerit]
  norm_num

/-- C13, witness: in the same pass the divisor `denom` is non-zero. -/
theorem lineSearch_denom_ne_zero_witness :
    (lineSearchBody bumpEnv bumpParams originGuess (fun _ _ => 1)
      (merit (bumpEnv.computeResidual originGuess true)) (fun _ => 1)).denom 0 ≠ 0 :=
  (lineSearch_denom_ne_zero bumpEnv bumpParams originGuess (fun _ _ => 1)
    (merit (bumpEnv.computeResidual originGuess true)) (fun _ => 1) 0
    (merit_nonneg _ _) zero_lt_one (le_refl _)).1

section Solve

variable {ι : Type} {D : ℕ}

/-- For a residual without explicit terms that is the linear map `M*x - b`, the
finite-difference quotient is the matrix entry. -/
theorem fdQuotient_linear (E : SolveEnv ι D K) (S : SolveParams K)
    (M : Fin D → Fin D → K) (b : Fin D → K) (x : Grid ι D K)
    (hres : ∀ (y : Grid ι D K) (i : Fin D) (c : ι),
      E.computeResidual y false i c = ∑ j : Fin D, M i j * y j c - b i)
    (heps : 0 < S.JacobianAssembleEpsilon) (c : ι) (i j : Fin D) :
    fdQuotient E S x i j c = M i j := by
  unfold fdQuotient
  rw [hres, hres]
  have hne := perturb_sub_ne_zero S.JacobianAssembleEpsilon (x j c) heps
  rw [div_eq_iff hne]
  have : ∑ k : Fin D, M i k * perturbedGuess S.JacobianAssembleEpsilon x j k c - b i
      - (∑ k : Fin D, M i k * x k c - b i)
      = ∑ k : Fin D, M i k * (perturbedGuess S.JacobianAssembleEpsilon x j k c - x k c) := by
    rw [sub_sub_sub_cancel_right, ← Finset.sum_sub_distrib]
    apply Finset.sum_congr rfl
    intro k _
    ring
  rw [this, Finset.sum_eq_single j]
  · simp [perturbedGuess]
  · intro k _ hk
    simp [perturbedGuess, Function.update_noteq hk]
  · intro h; exact absurd (Finset.mem_univ j) h

/-- The matrix handed to `af::solve` for a linear residual is `M`. -/
theorem cellMatrix_linear (E : SolveEnv ι D K) (S : SolveParams K)
    (M : Fin D → Fin D → K) (b : Fin D → K) (x : Grid ι D K)
    (hres : ∀ (y : Grid ι D K) (i : Fin D) (c : ι),
      E.computeResidual y false i c = ∑ j : Fin D, M i j * y j c - b i)
    (heps : 0 < S.JacobianAssembleEpsilon) (c : ι) :
    cellMatrix (assembleJacobian E S x).jacobianSoA c = M := by
  funext i j
  rw [cellMatrix_assembleJacobian]
  exact fdQuotient_linear E S M b x hres heps c i j

/-- For a linear residual and an exact solver the full Newton step lands on the root. -/
theorem linear_full_step_root (E : SolveEnv ι D K) (S : SolveParams K)
    (M : Fin D → Fin D → K) (b : Fin D → K) (x : Grid ι D K)
    (hres : ∀ (y : Grid ι D K) (mode : Bool) (i : Fin D) (c : ι),
      E.computeResidual y mode i c = ∑ j : Fin D, M i j * y j c - b i)
    (hM : Matrix.det (Matrix.of M) ≠ 0) (hsolve : ExactSolve E.solve)
    (heps : 0 < S.JacobianAssembleEpsilon) (i : Fin D) (c : ι) :
    ∑ j : Fin D, M i j
        * (x j c + 1 * deltaPrimSoA E S x (E.computeResidual x true) j c) = b i := by
  have hA := cellMatrix_linear E S M b x (fun y i c => hres y false i c) heps c
  have hd : ∀ j, deltaPrimSoA E S x (E.computeResidual x true) j c
      = E.solve M (fun v => -(E.computeResidual x true v c)) j := by
    intro j
    show E.solve (cellMatrix (assembleJacobian E S x).jacobianSoA c) _ j = _
    rw [hA]
  have hs := hsolve M (fun v => -(E.computeResidual x true v c)) hM i
  simp only [hd, one_mul, mul_add, Finset.sum_add_distrib]
  rw [hs, hres]
  ring

end Solve


section Solve

variable {ι : Type} {D : ℕ}

theorem outerIterate_succ [Fintype ι] (E : SolveEnv ι D K) (S : SolveParams K)
    (p : Grid ι D K) (k : ℕ) :
    outerIterate E S p (k + 1)
      = outerIterate E S (newtonUpdate E S p (E.computeResidual p true)) k := by
  unfold outerIterate
  rw [Function.iterate_succ_apply]

/-- The outer loop stops at the first iteration whose convergence test
succeeds, or when its fuel is used up. -/
theorem solveLoop_first_success [Fintype ι] (L : Lib K) (E : SolveEnv ι D K) (S : SolveParams K)
    (fuel : ℕ) :
    ∀ (nonLinearIter : ℕ) (p : Grid ι D K), ∃ k : ℕ, k ≤ fuel ∧
      (solveLoop L E S fuel nonLinearIter p).primGuess = outerIterate E S p k ∧
      (solveLoop L E S fuel nonLinearIter p).nonLinearIter = nonLinearIter + k ∧
      (∀ j, j < k → ¬ testSucceeds L E S (outerIterate E S p j)) ∧
      (k < fuel → testSucceeds L E S (outerIterate E S p k)) := by
  induction fuel with
  | zero =>
    intro it p
    exact ⟨0, le_rfl, rfl, rfl, fun j hj => absurd hj (Nat.not_lt_zero j),
      fun h => absurd h (Nat.lt_irrefl 0)⟩
  | succ n ih =>
    intro it p
    by_cases h : globalL2Norm L (E.computeResidual p true) < S.nonlinearsolve_atol
    · refine ⟨0, Nat.zero_le _, ?_, ?_, fun j hj => absurd hj (Nat.not_lt_zero j), fun _ => h⟩
      · simp only [solveLoop, h, if_true]; rfl
      · simp only [solveLoop, h, if_true]; rfl
    · obtain ⟨k, hk, h1, h2, h3, h4⟩ := ih (it + 1) (newtonUpdate E S p (E.computeResidual p true))
      refine ⟨k + 1, Nat.succ_le_succ hk, ?_, ?_, ?_, ?_⟩
      · simp only [solveLoop, h, if_false]
        rw [h1, outerIterate_succ]
      · simp only [solveLoop, h, if_false]
        rw [h2]; omega
      · intro j hj
        cases j with
        | zero => exact h
        | succ j =>
          rw [outerIterate_succ]
          exact h3 j (Nat.lt_of_succ_lt_succ hj)
      · intro hlt
        rw [outerIterate_succ]
        exact h4 (Nat.lt_of_succ_lt_succ hlt)

/-- The counter of the line-search loop never decreases. -/
theorem lineSearchLoop_iter_ge [Fintype ι] (E : SolveEnv ι D K) (S : SolveParams K)
    (primGuess deltaPrim : Grid ι D K) (f0 : ι → K) (fuel : ℕ) :
    ∀ (lineSearchIter : ℕ) (stepLength : ι → K), lineSearchIter
      ≤ (lineSearchLoop E S primGuess deltaPrim f0 fuel lineSearchIter stepLength).lineSearchIter := by
  induction fuel with
  | zero => intro it s; exact le_rfl
  | succ n ih =>
    intro it s
    by_cases h : (univ.filter
        (fun c => (lineSearchBody E S primGuess deltaPrim f0 s).condition c > 0)).card = 0
    · simp only [lineSearchLoop, h, if_true]; exact le_rfl
    · simp only [lineSearchLoop, h, if_false]
      exact le_trans (Nat.le_succ it) (ih (it + 1) _)

/-- Under locality the trial merit of cell `c` is that of the cell alone. -/
theorem trialMerit_cell (E : SolveEnv ι D K) (hloc : CellLocal E)
    (primGuess deltaPrim : Grid ι D K) (s : ι → K) (t : Unit → K) (c : ι) (hst : s c = t ()) :
    trialMerit E primGuess deltaPrim s c
      = trialMerit (cellEnv E c) (cellGrid primGuess c) (cellGrid deltaPrim c) t () := by
  unfold trialMerit merit cellEnv cellGrid
  have := hloc (fun var c => primGuess var c + s c * deltaPrim var c)
    (fun var _ => primGuess var c + t () * deltaPrim var c) true c
    (fun var => by simp only [hst])
  simp only [this]

/-- Under locality one pass of the line-search body acts on cell `c` as on the
cell alone. -/
theorem lineSearchBody_cell (E : SolveEnv ι D K) (hloc : CellLocal E) (S : SolveParams K)
    (primGuess deltaPrim : Grid ι D K) (f0 s : ι → K) (t : Unit → K) (c : ι) (hst : s c = t ()) :
    (lineSearchBody E S primGuess deltaPrim f0 s).stepLength c
      = (lineSearchBody (cellEnv E c) S (cellGrid primGuess c) (cellGrid deltaPrim c)
          (fun _ => f0 c) t).stepLength () ∧
    (lineSearchBody E S primGuess deltaPrim f0 s).condition c
      = (lineSearchBody (cellEnv E c) S (cellGrid primGuess c) (cellGrid deltaPrim c)
          (fun _ => f0 c) t).condition () := by
  rw [lineSearchBody_stepLength, lineSearchBody_stepLength, lineSearchBody_condition,
    lineSearchBody_condition, trialMerit_cell E hloc primGuess deltaPrim s t c hst, hst]
  exact ⟨rfl, rfl⟩

/-- Under locality a cell that passes the test keeps its step length for the
rest of the line search. -/
theorem lineSearchLoop_of_pass [Fintype ι] (E : SolveEnv ι D K) (hloc : CellLocal E)
    (S : SolveParams K) (primGuess deltaPrim : Grid ι D K) (f0 : ι → K) (c : ι) (fuel : ℕ) :
    ∀ (lineSearchIter : ℕ) (s : ι → K),
      ¬ (lineSearchBody E S primGuess deltaPrim f0 s).condition c > 0 →
      (lineSearchLoop E S primGuess deltaPrim f0 fuel lineSearchIter s).stepLength c = s c := by
  induction fuel with
  | zero => intro it s _; rfl
  | succ n ih =>
    intro it s hpass
    have hkeep := (lineSearchBody_of_pass E S primGuess deltaPrim f0 s c hpass).1
    by_cases h : (univ.filter
        (fun c => (lineSearchBody E S primGuess deltaPrim f0 s).condition c > 0)).card = 0
    · simp only [lineSearchLoop, h, if_true]
      exact hkeep
    · simp only [lineSearchLoop, h, if_false]
      rw [ih (it + 1) _ ?_, hkeep]
      rw [lineSearchBody_condition, trialMerit_congr E hloc primGuess deltaPrim _ s c hkeep, hkeep,
        ← lineSearchBody_condition]
      exact hpass

theorem card_filter_unit (p : Unit → Prop) [DecidablePred p] :
    (univ.filter p).card = 0 ↔ ¬ p () := by
  rw [Finset.card_eq_zero, Finset.filter_eq_empty_iff]
  constructor
  · intro h; exact h (Finset.mem_univ ())
  · intro h x _; cases x; exact h

/-- Under locality the line-search loop computes for cell `c` the step length of
the loop run on the cell alone, and runs at least as many iterations. -/
theorem lineSearchLoop_cell [Fintype ι] (E : SolveEnv ι D K) (hloc : CellLocal E)
    (S : SolveParams K) (primGuess deltaPrim : Grid ι D K) (f0 : ι → K) (c : ι) (fuel : ℕ) :
    ∀ (it it2 : ℕ) (s : ι → K) (t : Unit → K), s c = t () →
      (lineSearchLoop E S primGuess deltaPrim f0 fuel it s).stepLength c
        = (lineSearchLoop (cellEnv E c) S (cellGrid primGuess c) (cellGrid deltaPrim c)
            (fun _ => f0 c) fuel it2 t).stepLength () ∧
      (lineSearchLoop (cellEnv E c) S (cellGrid primGuess c) (cellGrid deltaPrim c)
            (fun _ => f0 c) fuel it2 t).lineSearchIter + it
        ≤ (lineSearchLoop E S primGuess deltaPrim f0 fuel it s).lineSearchIter + it2 := by
  induction fuel with
  | zero =>
    intro it it2 s t hst
    exact ⟨hst, by show it2 + it ≤ it + it2; omega⟩
  | succ n ih =>
    intro it it2 s t hst
    obtain ⟨hb1, hb2⟩ := lineSearchBody_cell E hloc S primGuess deltaPrim f0 s t c hst
    by_cases h1 : (lineSearchBody (cellEnv E c) S (cellGrid primGuess c) (cellGrid deltaPrim c)
        (fun _ => f0 c) t).condition () > 0
    · -- the cell fails the test: both loops go on
      have hc1 : ¬ (univ.filter (fun u => (lineSearchBody (cellEnv E c) S (cellGrid primGuess c)
          (cellGrid deltaPrim c) (fun _ => f0 c) t).condition u > 0)).card = 0 := by
        rw [card_filter_unit]; exact not_not.mpr h1
      have hcG : ¬ (univ.filter
          (fun c => (lineSearchBody E S primGuess deltaPrim f0 s).condition c > 0)).card = 0 := by
        rw [Finset.card_eq_zero, Finset.filter_eq_empty_iff]
        intro hall
        exact hall (Finset.mem_univ c) (by rw [hb2]; exact h1)
      simp only [lineSearchLoop, hc1, hcG, if_false]
      obtain ⟨e1, e2⟩ := ih (it + 1) (it2 + 1) _ _ hb1
      exact ⟨e1, by omega⟩
    · -- the cell passes the test: the loop on the cell alone stops
      have hc1 : (univ.filter (fun u => (lineSearchBody (cellEnv E c) S (cellGrid primGuess c)
          (cellGrid deltaPrim c) (fun _ => f0 c) t).condition u > 0)).card = 0 := by
        rw [card_filter_unit]; exact h1
      have hpassG : ¬ (lineSearchBody E S primGuess deltaPrim f0 s).condition c > 0 := by
        rw [hb2]; exact h1
      have hkeep := (lineSearchBody_of_pass E S primGuess deltaPrim f0 s c hpassG).1
      by_cases hcG : (univ.filter
          (fun c => (lineSearchBody E S primGuess deltaPrim f0 s).condition c > 0)).card = 0
      · simp only [lineSearchLoop, hc1, hcG, if_true]
        exact ⟨hb1, by omega⟩
      · simp only [lineSearchLoop, hc1, hcG, if_true, if_false]
        have hnext : ¬ (lineSearchBody E S primGuess deltaPrim f0
            (lineSearchBody E S primGuess deltaPrim f0 s).stepLength).condition c > 0 := by
          rw [lineSearchBody_condition,
            trialMerit_congr E hloc primGuess deltaPrim _ s c hkeep, hkeep,
            ← lineSearchBody_condition]
          exact hpassG
        refine ⟨?_, ?_⟩
        · rw [lineSearchLoop_of_pass E hloc S primGuess deltaPrim f0 c n (it + 1) _ hnext]
          exact hb1
        · have := lineSearchLoop_iter_ge E S primGuess deltaPrim f0 n (it + 1)
            (lineSearchBody E S primGuess deltaPrim f0 s).stepLength
          omega

end Solve

/-! ## Rounding to a double: helper lemmas -/

/-- A rational within `1/2` of an integer is rounded to it. -/
theorem roundTiesEven_near {x : ℚ} {m : ℤ} (h : |x - m| < 1 / 2) : roundTiesEven x = m := by
  obtain ⟨h1, h2⟩ := abs_lt.mp h
  unfold roundTiesEven
  by_cases hx : (m : ℚ) ≤ x
  · have hf : ⌊x⌋ = m := Int.floor_eq_iff.mpr ⟨hx, by linarith⟩
    simp only [hf]
    rw [if_pos (by linarith)]
  · have hx : x < m := not_le.mp hx
    have hf : ⌊x⌋ = m - 1 := Int.floor_eq_iff.mpr ⟨by push_cast; linarith, by push_cast; linarith⟩
    simp only [hf]
    rw [if_neg (by push_cast; linarith), if_pos (by push_cast; linarith)]
    ring

/-- A tie above an even integer is rounded down to it. -/
theorem roundTiesEven_tie_even {x : ℚ} {f : ℤ} (h : x = f + 1 / 2) (hf : f % 2 = 0) :
    roundTiesEven x = f := by
  have hfl : ⌊x⌋ = f := Int.floor_eq_iff.mpr ⟨by linarith, by linarith⟩
  unfold roundTiesEven
  simp only [hfl]
  have hr : x - f = 1 / 2 := by linarith
  rw [hr, if_neg (lt_irrefl _), if_neg (lt_irrefl _), if_pos hf]

/-- A tie above an odd integer is rounded up to the next one. -/
theorem roundTiesEven_tie_odd {x : ℚ} {f : ℤ} (h : x = f + 1 / 2) (hf : f % 2 = 1) :
    roundTiesEven x = f + 1 := by
  have hfl : ⌊x⌋ = f := Int.floor_eq_iff.mpr ⟨by linarith, by linarith⟩
  unfold roundTiesEven
  simp only [hfl]
  have hr : x - f = 1 / 2 := by linarith
  rw [hr, if_neg (lt_irrefl _), if_neg (lt_irrefl _), if_neg (by omega)]

/-- The double nearest to `q` once its binade `2^e <= |q| < 2^(e+1)` and the
rounded significand are known. -/
theorem roundDouble_of (q : ℚ) (e m : ℤ) (h1 : (2 : ℚ) ^ e ≤ |q|) (h2 : |q| < (2 : ℚ) ^ (e + 1))
    (hm : roundTiesEven (q / 2 ^ (e - 52)) = m) : roundDouble q = m * 2 ^ (e - 52) := by
  have hpos : 0 < |q| := lt_of_lt_of_le (zpow_pos (by norm_num) e) h1
  have hq : q ≠ 0 := abs_pos.mp hpos
  have hlog : Int.log 2 |q| = e := by
    have ha : e ≤ Int.log 2 |q| :=
      (Int.zpow_le_iff_le_log (by norm_num : 1 < 2) hpos).mp (by exact_mod_cast h1)
    have hb : Int.log 2 |q| < e + 1 :=
      (Int.lt_zpow_iff_log_lt (by norm_num : 1 < 2) hpos).mp (by exact_mod_cast h2)
    omega
  unfold roundDouble
  rw [if_neg hq]
  simp only [hlog, hm]

theorem roundDouble_one_plus_tiny : roundDouble (1 + 1e-17) = 1 := by
  have h := roundDouble_of (1 + 1e-17) 0 4503599627370496
    (by norm_num [abs_of_pos]) (by norm_num [abs_of_pos])
    (roundTiesEven_near (by rw [abs_lt]; constructor <;> norm_num))
  rw [h]
  norm_num

/-- Rounding to the nearest integer does not go below the floor. -/
theorem roundTiesEven_ge_floor (q : ℚ) : ⌊q⌋ ≤ roundTiesEven q := by
  unfold roundTiesEven
  simp only []
  split_ifs <;> omega

/-- A rational more than `1/2` above an integer is rounded above that integer. -/
theorem roundTiesEven_gt {x : ℚ} {n : ℤ} (h : (n : ℚ) + 1 / 2 < x) : n < roundTiesEven x := by
  have hfl : n ≤ ⌊x⌋ := Int.le_floor.mpr (by linarith)
  rcases hfl.lt_or_eq with hlt | heq
  · exact lt_of_lt_of_le hlt (roundTiesEven_ge_floor x)
  · unfold roundTiesEven
    simp only []
    rw [← heq, if_neg (by linarith), if_pos (by linarith)]
    omega

/-- In double precision the sum `1. + epsilon` with `0 < epsilon < 1` is 1
exactly when `epsilon <= 2^-53` (about `1.11e-16`). -/
theorem roundDouble_one_add_eq_one_iff (epsilon : ℚ) (h0 : 0 < epsilon) (h1 : epsilon < 1) :
    roundDouble (1 + epsilon) = 1 ↔ epsilon ≤ 1 / 2 ^ 53 := by
  have hpos : (0 : ℚ) < 1 + epsilon := by linarith
  have habs : |1 + epsilon| = 1 + epsilon := abs_of_pos hpos
  have hscale : (1 + epsilon) / 2 ^ ((0 : ℤ) - 52) = 2 ^ 52 + epsilon * 2 ^ 52 := by
    rw [zero_sub, zpow_neg, div_inv_eq_mul]
    norm_num
    ring
  have hval : ∀ m : ℤ, roundTiesEven ((1 + epsilon) / 2 ^ ((0 : ℤ) - 52)) = m →
      roundDouble (1 + epsilon) = m * 2 ^ ((0 : ℤ) - 52) :=
    fun m hm => roundDouble_of (1 + epsilon) 0 m (by rw [habs]; norm_num; linarith)
      (by rw [habs]; norm_num; linarith) hm
  constructor
  · intro h
    by_contra hgt
    have hgt : 1 / 2 ^ 53 < epsilon := not_le.mp hgt
    have hlt : (2 ^ 52 : ℤ) < roundTiesEven ((1 + epsilon) / 2 ^ ((0 : ℤ) - 52)) := by
      apply roundTiesEven_gt
      rw [hscale]
      push_cast
      have : (1 : ℚ) / 2 < epsilon * 2 ^ 52 := by
        have := mul_lt_mul_of_pos_right hgt (by norm_num : (0 : ℚ) < 2 ^ 52)
        norm_num at this ⊢
        linarith
      linarith
    generalize hR : roundTiesEven ((1 + epsilon) / 2 ^ ((0 : ℤ) - 52)) = R at hlt
    have hr := hval R hR
    rw [h] at hr
    have hR1 : (2 ^ 52 + 1 : ℤ) ≤ R := hlt
    have hR2 : ((2 ^ 52 + 1 : ℤ) : ℚ) ≤ (R : ℚ) := by exact_mod_cast hR1
    have hz : (2 : ℚ) ^ ((0 : ℤ) - 52) = 1 / 2 ^ 52 := by
      rw [zero_sub, zpow_neg]; norm_num
    rw [hz] at hr
    push_cast at hR2
    have : (R : ℚ) = 2 ^ 52 := by
      field_simp at hr
      linarith
    linarith
  · intro hle
    have hm : roundTiesEven ((1 + epsilon) / 2 ^ ((0 : ℤ) - 52)) = 2 ^ 52 := by
      rw [hscale]
      rcases hle.lt_or_eq with hlt | heq
      · apply roundTiesEven_near
        push_cast
        rw [abs_lt]
        have : epsilon * 2 ^ 52 < 1 / 2 := by
          have := mul_lt_mul_of_pos_right hlt (by norm_num : (0 : ℚ) < 2 ^ 52)
          norm_num at this ⊢
          linarith
        constructor <;> nlinarith
      · apply roundTiesEven_tie_even
        · rw [heq]; push_cast; norm_num
        · norm_num
    have hz : (2 : ℚ) ^ ((0 : ℤ) - 52) = 1 / 2 ^ 52 := by
      rw [zero_sub, zpow_neg]; norm_num
    rw [hval _ hm, hz]
    push_cast
    norm_num

theorem perturbRounded_eq (fl : K → K) (epsilon p : K) :
    perturbRounded fl epsilon p
      = if |p| < 0.5 * epsilon then epsilon else fl (1 + epsilon) * p := by
  unfold perturbRounded
  by_cases h : |p| < 0.5 * epsilon
  · simp [ind, h]
  · simp [ind, h]

theorem perturbRounded_id (epsilon p : K) :
    perturbRounded (fun x => x) epsilon p = perturb epsilon p := rfl

/-- The divisor `primGuessPlusEps - primGuess` of one entry, with the rounding
`fl` of the sum `1. + epsilon`: non-zero when `fl(1 + epsilon) != 1`. -/
theorem perturbRounded_sub_ne_zero (fl : K → K) (epsilon p : K) (heps : 0 < epsilon)
    (hfl : fl (1 + epsilon) ≠ 1) :
    perturbRounded fl epsilon p - p ≠ 0 ∧
    (¬ |p| < 0.5 * epsilon →
      perturbRounded fl epsilon p - p = (fl (1 + epsilon) - 1) * p ∧
      |p| ≥ 0.5 * epsilon ∧ p ≠ 0) ∧
    (|p| < 0.5 * epsilon →
      perturbRounded fl epsilon p - p = epsilon - p ∧ epsilon - p > 0.5 * epsilon) ∧
    perturbRounded (fun x => x) epsilon p = perturb epsilon p ∧
    perturb epsilon p - p ≠ 0 ∧
    (¬ |p| < 0.5 * epsilon → perturb epsilon p - p = epsilon * p) := by
  have h5 : (0.5 : K) * epsilon = epsilon / 2 := by norm_num; ring
  have hrel : ¬ |p| < 0.5 * epsilon →
      perturbRounded fl epsilon p - p = (fl (1 + epsilon) - 1) * p ∧
      |p| ≥ 0.5 * epsilon ∧ p ≠ 0 := by
    intro h
    rw [perturbRounded_eq, if_neg h]
    have hge : |p| ≥ 0.5 * epsilon := not_lt.mp h
    refine ⟨by ring, hge, ?_⟩
    intro h0
    rw [h0, abs_zero, h5] at hge
    linarith
  have hsmall : |p| < 0.5 * epsilon →
      perturbRounded fl epsilon p - p = epsilon - p ∧ epsilon - p > 0.5 * epsilon := by
    intro h
    rw [perturbRounded_eq, if_pos h]
    refine ⟨rfl, ?_⟩
    rw [h5] at h ⊢
    have := (abs_lt.mp h).2
    linarith
  refine ⟨?_, hrel, hsmall, rfl, perturb_sub_ne_zero epsilon p heps, ?_⟩
  · by_cases h : |p| < 0.5 * epsilon
    · rw [(hsmall h).1]
      have := (hsmall h).2
      rw [h5] at this
      linarith
    · obtain ⟨e1, _, e3⟩ := hrel h
      rw [e1]
      exact mul_ne_zero (sub_ne_zero.mpr hfl) e3
  · intro h
    rw [perturb_eq, if_neg h]
    ring

/-! ## Outcome of the solver, linear problems and single cells: the claims -/

section Solve

variable {ι : Type} {D : ℕ}

/-- C21 (as amended): `timeStepper::solve` has no test of the outcome of the
per-cell linear solve.  In every cell, whether or not its Jacobian is
singular, the correction is the output of `af::solve` for that cell's matrix
and right-hand side, and the state after the outer iteration is
`primGuess + stepLength*deltaPrim`; the state of the cell is unchanged exactly
when `stepLength*deltaPrim` is zero in every component. -/
theorem newtonUpdate_applies_solve_output [Fintype ι] (E : SolveEnv ι D K) (S : SolveParams K)
    (primGuess residualSoA : Grid ι D K) (c : ι) :
    let deltaPrim : Grid ι D K := deltaPrimSoA E S primGuess residualSoA
    let stepLength : ι → K := (lineSearch E S primGuess deltaPrim (merit residualSoA)).stepLength
    (∀ var, deltaPrim var c
      = E.solve (cellMatrix (assembleJacobian E S primGuess).jacobianSoA c)
          (fun v => -residualSoA v c) var) ∧
    (∀ var, newtonUpdate E S primGuess residualSoA var c
      = primGuess var c + stepLength c * deltaPrim var c) ∧
    ((∀ var, newtonUpdate E S primGuess residualSoA var c = primGuess var c)
      ↔ ∀ var, stepLength c * deltaPrim var c = 0) := by
  intro deltaPrim stepLength
  have h2 : ∀ var, newtonUpdate E S primGuess residualSoA var c
      = primGuess var c + stepLength c * deltaPrim var c := fun _ => rfl
  refine ⟨fun _ => rfl, h2, ?_⟩
  constructor
  · intro h var
    have := h var
    rw [h2] at this
    exact add_right_eq_self.mp this
  · intro h var
    rw [h2, h var, add_zero]

/-- C26 (as amended): the divisor of the finite-difference quotient is non-zero
when the sum `1. + epsilon` is not rounded to 1.  For `epsilon > 0`, with `fl`
the rounding of that sum and `fl(1 + epsilon) != 1`, for the value `p` of any
state component in any cell the divisor `primGuessPlusEps - primGuess` of lines
55-58 is non-zero: it is `(fl(1 + epsilon) - 1)*p` with `|p| >= 0.5*epsilon`
in the relative branch and `epsilon - p > 0.5*epsilon` in the small-value
branch `|p| < 0.5*epsilon`.  Without rounding (`fl` the identity, for which
`fl(1 + epsilon) != 1` holds for every `epsilon > 0`) this is the divisor on
entering any row of the assembly loop (after any list `rows` of rows already
done), which is `epsilon*p` in the relative branch. -/
theorem jacobian_divisor_ne_zero (fl : K → K) (E : SolveEnv ι D K) (S : SolveParams K)
    (primGuess residual : Grid ι D K) (rows : List (Fin D)) (row : Fin D) (c : ι)
    (heps : 0 < S.JacobianAssembleEpsilon) (hfl : fl (1 + S.JacobianAssembleEpsilon) ≠ 1) :
    let epsilon : K := S.JacobianAssembleEpsilon
    let p : K := primGuess row c
    let st := rows.foldl (jacobianRow E S primGuess residual)
      { primGuessPlusEps := primGuess, jacobianSoA := fun _ _ => 0 }
    let primGuessPlusEps : Grid ι D K := Function.update st.primGuessPlusEps row
      (fun c => perturb epsilon (primGuess row c))
    (perturbRounded fl epsilon p - p ≠ 0 ∧
      (¬ |p| < 0.5 * epsilon →
        perturbRounded fl epsilon p - p = (fl (1 + epsilon) - 1) * p ∧
        |p| ≥ 0.5 * epsilon ∧ p ≠ 0) ∧
      (|p| < 0.5 * epsilon →
        perturbRounded fl epsilon p - p = epsilon - p ∧ epsilon - p > 0.5 * epsilon)) ∧
    primGuessPlusEps row c - primGuess row c = perturbRounded (fun x => x) epsilon p - p ∧
    primGuessPlusEps row c - primGuess row c ≠ 0 ∧
    (¬ |p| < 0.5 * epsilon → primGuessPlusEps row c - primGuess row c = epsilon * p) := by
  intro epsilon p st primGuessPlusEps
  have hrow : primGuessPlusEps row c = perturb epsilon p := by
    simp only [primGuessPlusEps, Function.update_same, p]
  obtain ⟨h1, h2, h3, h4, h5, h6⟩ := perturbRounded_sub_ne_zero fl epsilon p heps hfl
  refine ⟨⟨h1, h2, h3⟩, ?_, ?_, ?_⟩
  · rw [hrow, h4]
  · rw [hrow]; exact h5
  · intro h
    rw [hrow]; exact h6 h

/-- C29: one-step convergence on linear problems.  If the full-mode and the
fast-mode residual are both `F(x) = M*x - b` in every cell with
`det M != 0`, the per-cell solve is exact, `epsilon > 0` and `EPS >= 0`, then
in one outer iteration the full step passes the sufficient-decrease test in
every cell at the first line-search iteration, the line search leaves
`stepLength = 1` with its counter at 0, and the updated state is the exact
root: `M*x = b` and the residual is 0. -/
theorem newtonUpdate_linear_root [Fintype ι] (E : SolveEnv ι D K) (S : SolveParams K)
    (M : Fin D → Fin D → K) (b : Fin D → K) (x : Grid ι D K)
    (hres : ∀ (y : Grid ι D K) (mode : Bool) (i : Fin D) (c : ι),
      E.computeResidual y mode i c = ∑ j : Fin D, M i j * y j c - b i)
    (hM : Matrix.det (Matrix.of M) ≠ 0) (hsolve : ExactSolve E.solve)
    (heps : 0 < S.JacobianAssembleEpsilon) (hEPS : 0 ≤ S.linesearchfloor) :
    (∀ c, (lineSearchBody E S x (deltaPrimSoA E S x (E.computeResidual x true))
        (merit (E.computeResidual x true)) (fun _ => 1)).condition c = 0) ∧
    (lineSearch E S x (deltaPrimSoA E S x (E.computeResidual x true))
        (merit (E.computeResidual x true))).stepLength = (fun _ => 1) ∧
    (∀ (i : Fin D) (c : ι),
      ∑ j : Fin D, M i j * newtonUpdate E S x (E.computeResidual x true) j c = b i) ∧
    (∀ (mode : Bool) (i : Fin D) (c : ι),
      E.computeResidual (newtonUpdate E S x (E.computeResidual x true)) mode i c = 0) := by
  have hroot := linear_full_step_root E S M b x hres hM hsolve heps
  have hf1 : ∀ c, trialMerit E x (deltaPrimSoA E S x (E.computeResidual x true)) (fun _ => 1) c
      = 0 := by
    intro c
    unfold trialMerit merit
    have : ∀ var : Fin D, E.computeResidual
        (fun var c => x var c + 1 * deltaPrimSoA E S x (E.computeResidual x true) var c)
        true var c = 0 := by
      intro var
      rw [hres]
      exact sub_eq_zero.mpr (hroot var c)
    simp only [this]
    simp
  have hpass : ∀ c, trialMerit E x (deltaPrimSoA E S x (E.computeResidual x true)) (fun _ => 1) c
      ≤ merit (E.computeResidual x true) c * (1 - 1e-4 * 1) + S.linesearchfloor := by
    intro c
    rw [hf1]
    have h4 : (0 : K) ≤ 1 - 1e-4 * 1 := by norm_num
    exact add_nonneg (mul_nonneg (merit_nonneg _ c) h4) hEPS
  have hstep := lineSearch_full_step E S x (deltaPrimSoA E S x (E.computeResidual x true))
    (merit (E.computeResidual x true)) hpass
  have hupd : ∀ (i : Fin D) (c : ι),
      ∑ j : Fin D, M i j * newtonUpdate E S x (E.computeResidual x true) j c = b i := by
    intro i c
    have : ∀ j, newtonUpdate E S x (E.computeResidual x true) j c
        = x j c + 1 * deltaPrimSoA E S x (E.computeResidual x true) j c := by
      intro j
      show x j c + (lineSearch E S x (deltaPrimSoA E S x (E.computeResidual x true))
        (merit (E.computeResidual x true))).stepLength c * _ = _
      rw [hstep]
    simp only [this]
    exact hroot i c
  refine ⟨?_, hstep, hupd, ?_⟩
  · intro c
    rw [lineSearchBody_condition]
    exact ind_neg (not_lt.mpr (hpass c))
  · intro mode i c
    rw [hres, hupd, sub_self]

end Solve


section Solve

variable {ι : Type} {D : ℕ}

/-- C22 (as amended): `timeStepper::solve` returns `void` and hands its caller
the mutated state only.  Inside the routine the loop ends after
`k <= maxNonLinearIter` iterations with the state `k` updates after the input:
`k < maxNonLinearIter` exactly when the residual-norm test succeeded within
the cap (it then succeeded on the state handed back, and failed at every
earlier iteration), and `k = maxNonLinearIter` exactly when
`maxNonLinearIter` iterations were done without the test succeeding; neither
this outcome nor `k` is part of what the caller receives. -/
theorem solve_outcome_internal [Fintype ι] (L : Lib K) (E : SolveEnv ι D K) (S : SolveParams K)
    (primGuess : Grid ι D K) :
    solveResult L E S primGuess
      = outerIterate E S primGuess (solve L E S primGuess).nonLinearIter ∧
    (solve L E S primGuess).nonLinearIter ≤ S.maxNonLinearIter ∧
    (∀ j, j < (solve L E S primGuess).nonLinearIter →
      ¬ testSucceeds L E S (outerIterate E S primGuess j)) ∧
    ((solve L E S primGuess).nonLinearIter < S.maxNonLinearIter →
      testSucceeds L E S (solveResult L E S primGuess)) ∧
    ((solve L E S primGuess).nonLinearIter < S.maxNonLinearIter ↔
      ∃ j, j < S.maxNonLinearIter ∧ testSucceeds L E S (outerIterate E S primGuess j)) ∧
    ((solve L E S primGuess).nonLinearIter = S.maxNonLinearIter ↔
      ∀ j, j < S.maxNonLinearIter → ¬ testSucceeds L E S (outerIterate E S primGuess j)) := by
  obtain ⟨k, hk, h1, h2, h3, h4⟩ := solveLoop_first_success L E S S.maxNonLinearIter 0 primGuess
  rw [Nat.zero_add] at h2
  have hiter : (solve L E S primGuess).nonLinearIter = k := h2
  have hres : solveResult L E S primGuess = outerIterate E S primGuess k := h1
  rw [hiter, hres]
  refine ⟨rfl, hk, h3, h4, ?_, ?_⟩
  · constructor
    · intro hlt
      exact ⟨k, hlt, h4 hlt⟩
    · rintro ⟨j, hj, hs⟩
      by_contra hnot
      have hkm : k = S.maxNonLinearIter := le_antisymm hk (not_lt.mp hnot)
      exact h3 j (by rw [hkm]; exact hj) hs
  · constructor
    · intro hkm j hj
      exact h3 j (by rw [hkm]; exact hj)
    · intro hall
      by_contra hne
      have hlt : k < S.maxNonLinearIter := lt_of_le_of_ne hk hne
      exact hall k hlt (h4 hlt)

/-- C28: line-search noninterference.  When the residual of a cell depends only
on that cell's state, two runs of the line search (same parameters) on grids
that agree on cell `c` in state, correction and baseline `f0` leave the same
step length in `c`; it is the step length of the loop run on `c` alone, which
runs at most as many iterations as the loop on the grid. -/
theorem lineSearch_noninterference [Fintype ι] (E : SolveEnv ι D K) (hloc : CellLocal E)
    (S : SolveParams K) (primGuess deltaPrim primGuess2 deltaPrim2 : Grid ι D K)
    (f0 f02 : ι → K) (c : ι) (hp : ∀ var, primGuess var c = primGuess2 var c)
    (hd : ∀ var, deltaPrim var c = deltaPrim2 var c) (hf : f0 c = f02 c) :
    (lineSearch E S primGuess deltaPrim f0).stepLength c
      = (lineSearch E S primGuess2 deltaPrim2 f02).stepLength c ∧
    (lineSearch E S primGuess deltaPrim f0).stepLength c
      = (lineSearch (cellEnv E c) S (cellGrid primGuess c) (cellGrid deltaPrim c)
          (fun _ => f0 c)).stepLength () ∧
    (lineSearch (cellEnv E c) S (cellGrid primGuess c) (cellGrid deltaPrim c)
        (fun _ => f0 c)).lineSearchIter
      ≤ (lineSearch E S primGuess deltaPrim f0).lineSearchIter := by
  have h1 := lineSearchLoop_cell E hloc S primGuess deltaPrim f0 c S.maxLineSearchIters 0 0
    (fun _ => 1) (fun _ => 1) rfl
  have h2 := lineSearchLoop_cell E hloc S primGuess2 deltaPrim2 f02 c S.maxLineSearchIters 0 0
    (fun _ => 1) (fun _ => 1) rfl
  have e1 : cellGrid primGuess2 c = cellGrid primGuess c := by
    funext var u; exact (hp var).symm
  have e2 : cellGrid deltaPrim2 c = cellGrid deltaPrim c := by
    funext var u; exact (hd var).symm
  rw [e1, e2, ← hf] at h2
  refine ⟨?_, h1.1, ?_⟩
  · unfold lineSearch
    rw [h1.1, h2.1]
  · have := h1.2
    simp only [Nat.add_zero] at this
    exact this

end Solve

/-! ## Outcome of the solver, linear problems and single cells: examples -/

theorem constant_cellMatrix :
    (cellMatrix (assembleJacobian constantEnv bumpParams originGuess).jacobianSoA (0 : Fin 1)
      : Fin 1 → Fin 1 → ℚ) = fun _ _ => 0 := by
  funext i j
  rw [cellMatrix_assembleJacobian]
  simp [constantEnv, fdQuotient]

theorem constant_deltaPrim :
    deltaPrimSoA constantEnv bumpParams originGuess (constantEnv.computeResidual originGuess true)
      = fun _ _ => -1 := by
  funext var c
  have hc : c = 0 := Subsingleton.elim _ _
  subst hc
  show constantEnv.solve
    (cellMatrix (assembleJacobian constantEnv bumpParams originGuess).jacobianSoA 0)
    (fun v => -(constantEnv.computeResidual originGuess true v 0)) var = -1
  rw [constant_cellMatrix]
  simp [constantEnv]

/-- C21, counterexample to the claim as stated: with the constant residual 1 the
Jacobian of the cell is the zero matrix (determinant 0); `af::solve` here
leaves the right-hand side `-1` as the correction, the line search shortens
the step to `1/2`, and the outer iteration moves the cell from `0` to `-1/2`
instead of keeping its state. -/
theorem singular_cell_is_updated :
    Matrix.det (Matrix.of
      (cellMatrix (assembleJacobian constantEnv bumpParams originGuess).jacobianSoA (0 : Fin 1)
        : Fin 1 → Fin 1 → ℚ)) = 0 ∧
    newtonUpdate constantEnv bumpParams originGuess
      (constantEnv.computeResidual originGuess true) 0 0 = -1 / 2 ∧
    newtonUpdate constantEnv bumpParams originGuess
      (constantEnv.computeResidual originGuess true) 0 0 ≠ originGuess 0 0 := by
  have h1 : newtonUpdate constantEnv bumpParams originGuess
      (constantEnv.computeResidual originGuess true) 0 0 = -1 / 2 := by
    unfold newtonUpdate
    rw [constant_deltaPrim]
    simp [lineSearch, lineSearchLoop, lineSearchBody, merit, constantEnv, bumpParams, ind,
      originGuess]
    norm_num
  refine ⟨?_, h1, ?_⟩
  · rw [constant_cellMatrix]
    simp [Matrix.det_unique]
  · rw [h1]
    simp [originGuess]

theorem identity_deltaPrim :
    deltaPrimSoA identityEnv bumpParams unitGuess (identityEnv.computeResidual unitGuess true)
      = fun _ _ => -1 := by
  funext var c
  have hA : ∀ i j : Fin 1,
      cellMatrix (assembleJacobian identityEnv bumpParams unitGuess).jacobianSoA c i j = 1 := by
    intro i j
    have hij : i = j := Subsingleton.elim _ _
    subst hij
    rw [cellMatrix_assembleJacobian]
    simp [identityEnv, fdQuotient, perturbedGuess, perturb_eq, unitGuess, bumpParams]
    norm_num
  show -(identityEnv.computeResidual unitGuess true var c)
    / cellMatrix (assembleJacobian identityEnv bumpParams unitGuess).jacobianSoA c var var = -1
  rw [hA]
  simp [identityEnv, unitGuess]

theorem identity_newtonUpdate :
    newtonUpdate identityEnv bumpParams unitGuess (identityEnv.computeResidual unitGuess true)
      = originGuess := by
  have hstep : (lineSearch identityEnv bumpParams unitGuess (fun _ _ => -1)
      (merit (identityEnv.computeResidual unitGuess true))).stepLength = fun _ => 1 := by
    apply lineSearch_full_step
    intro c
    simp [trialMerit, merit, identityEnv, unitGuess, bumpParams]
    norm_num
  funext var c
  unfold newtonUpdate
  rw [identity_deltaPrim]
  simp only [hstep]
  simp [unitGuess, originGuess]

theorem ratSqrt_one : Rat.sqrt 1 = 1 := by
  have := Rat.sqrt_eq 1
  rw [abs_one, mul_one] at this
  exact this

theorem identity_test_unit : ¬ testSucceeds ratLib identityEnv bumpParams unitGuess := by
  unfold testSucceeds
  simp [globalL2Norm, ratLib, identityEnv, unitGuess, bumpParams, ratSqrt_one]
  norm_num

theorem identity_test_origin : testSucceeds ratLib identityEnv bumpParams originGuess := by
  unfold testSucceeds
  norm_num [globalL2Norm, ratLib, identityEnv, originGuess, bumpParams, Rat.sqrt]

/-- C22, counterexample to the claim as stated: with the residual `x` and
`maxNonLinearIter = 1`, the run from `x = 1` does its one iteration without
the test succeeding and the run from `x = 0` passes the test at once; both
hand back the same state `x = 0`, with nothing that tells them apart. -/
theorem solve_same_result_two_outcomes :
    solveResult ratLib identityEnv bumpParams unitGuess
      = solveResult ratLib identityEnv bumpParams originGuess ∧
    ¬ testSucceeds ratLib identityEnv bumpParams unitGuess ∧
    (solve ratLib identityEnv bumpParams unitGuess).nonLinearIter
      = bumpParams.maxNonLinearIter ∧
    testSucceeds ratLib identityEnv bumpParams originGuess ∧
    (solve ratLib identityEnv bumpParams originGuess).nonLinearIter
      < bumpParams.maxNonLinearIter := by
  have hu : solve ratLib identityEnv bumpParams unitGuess
      = { primGuess := originGuess, nonLinearIter := 1 } := by
    have h := identity_test_unit
    unfold testSucceeds at h
    show solveLoop ratLib identityEnv bumpParams 1 0 unitGuess = _
    simp only [solveLoop, h, if_false, identity_newtonUpdate]
  have ho : solve ratLib identityEnv bumpParams originGuess
      = { primGuess := originGuess, nonLinearIter := 0 } := by
    have h := identity_test_origin
    unfold testSucceeds at h
    show solveLoop ratLib identityEnv bumpParams 1 0 originGuess = _
    simp only [solveLoop, h, if_true]
  refine ⟨?_, identity_test_unit, ?_, identity_test_origin, ?_⟩
  · unfold solveResult
    rw [hu, ho]
  · rw [hu]; rfl
  · rw [ho]; exact Nat.zero_lt_one

theorem roundDouble_one_plus_eps :
    roundDouble (1 + 4e-8) = 4503599807514481 / 2 ^ 52 := by
  have h := roundDouble_of (1 + 4e-8) 0 4503599807514481
    (by norm_num [abs_of_pos]) (by norm_num [abs_of_pos])
    (roundTiesEven_near (by rw [abs_lt]; constructor <;> norm_num))
  rw [h]
  norm_num

/-- C26, witness: for `epsilon = 4e-8` the double sum `1. + epsilon` is
`4503599807514481/2^52`, not 1, and the divisor at `p = 1` is non-zero. -/
theorem jacobian_divisor_ne_zero_witness :
    (0 : ℚ) < bumpParams.JacobianAssembleEpsilon ∧
    roundDouble (1 + bumpParams.JacobianAssembleEpsilon) ≠ 1 ∧
    perturbRounded roundDouble bumpParams.JacobianAssembleEpsilon (unitGuess 0 0)
      - unitGuess 0 0 ≠ 0 :=
  have h1 : (0 : ℚ) < bumpParams.JacobianAssembleEpsilon := by norm_num [bumpParams]
  have he : bumpParams.JacobianAssembleEpsilon = 4e-8 := by norm_num [bumpParams]
  have h2 : roundDouble (1 + bumpParams.JacobianAssembleEpsilon) ≠ 1 := by
    rw [he, roundDouble_one_plus_eps]; norm_num
  ⟨h1, h2,
    (jacobian_divisor_ne_zero roundDouble identityEnv bumpParams unitGuess unitGuess [] 0 0
      h1 h2).1.1⟩

/-- C26, counterexample to the claim as stated: for `epsilon = 1e-17 > 0` the
double sum `1. + epsilon` is 1, so at `p = 1` (relative branch) the perturbed
value is `p` and the divisor of line 58 is 0. -/
theorem perturb_divisor_zero_tiny_epsilon :
    (0 : ℚ) < 1e-17 ∧ roundDouble (1 + 1e-17) = 1 ∧ ¬ |(1 : ℚ)| < 0.5 * 1e-17 ∧
    perturbRounded roundDouble 1e-17 1 - 1 = 0 := by
  have hs : ¬ |(1 : ℚ)| < 0.5 * 1e-17 := by norm_num
  refine ⟨by norm_num, roundDouble_one_plus_tiny, hs, ?_⟩
  rw [perturbRounded_eq, if_neg hs, roundDouble_one_plus_tiny]
  norm_num

theorem pairEnv_cellLocal : CellLocal pairEnv := by
  intro x y mode c h var
  simp only [pairEnv]
  rw [h var]

/-- C28, witness: on two cells with the residuals of `bumpEnv`, two grids that
agree on cell 0 and differ on cell 1 leave the same step length in cell 0. -/
theorem lineSearch_noninterference_witness :
    CellLocal pairEnv ∧
    (lineSearch pairEnv bumpParams (fun _ _ => 0) (fun _ _ => 1) (fun _ => 1 / 2)).stepLength 0
      = (lineSearch pairEnv bumpParams (fun _ c => if c = 0 then 0 else 5)
          (fun _ c => if c = 0 then 1 else -1 / 20) (fun c => if c = 0 then 1 / 2 else 3)).stepLength
          0 :=
  ⟨pairEnv_cellLocal,
    (lineSearch_noninterference pairEnv pairEnv_cellLocal bumpParams (fun _ _ => 0) (fun _ _ => 1)
      (fun _ c => if c = 0 then 0 else 5) (fun _ c => if c = 0 then 1 else -1 / 20)
      (fun _ => 1 / 2) (fun c => if c = 0 then 1 / 2 else 3) 0
      (fun _ => rfl) (fun _ => rfl) rfl).1⟩

/-- Cramer's rule solves every two by two system with non-zero determinant. -/
theorem cramer2_exactSolve :
    ExactSolve (cramer2 : (Fin 2 → Fin 2 → K) → (Fin 2 → K) → (Fin 2 → K)) := by
  intro A b hdet i
  rw [Matrix.det_fin_two] at hdet
  simp only [Matrix.of_apply] at hdet
  fin_cases i
  · simp only [Fin.sum_univ_two, cramer2]
    simp
    field_simp
    ring
  · simp only [Fin.sum_univ_two, cramer2]
    simp
    field_simp
    ring

/-- C29, witness: for `M = [[2, 1], [0, 3]]`, `b = (3, 3)` and Cramer's rule, one
update from `(0, 0)` lands on the root, where the residual is 0. -/
theorem newtonUpdate_linear_root_witness :
    Matrix.det (Matrix.of (![![2, 1], ![0, 3]] : Fin 2 → Fin 2 → ℚ)) ≠ 0 ∧
    ExactSolve linearEnv.solve ∧
    (0 : ℚ) < (newtonParams : SolveParams ℚ).JacobianAssembleEpsilon ∧
    (0 : ℚ) ≤ (newtonParams : SolveParams ℚ).linesearchfloor ∧
    ∀ (mode : Bool) (i : Fin 2) (c : Fin 1),
      linearEnv.computeResidual
        (newtonUpdate linearEnv newtonParams (pointGuess 0 0)
          (linearEnv.computeResidual (pointGuess 0 0) true)) mode i c = 0 :=
  have h1 : ∀ (y : Grid (Fin 1) 2 ℚ) (mode : Bool) (i : Fin 2) (c : Fin 1),
      linearEnv.computeResidual y mode i c
        = ∑ j : Fin 2, (![![2, 1], ![0, 3]] : Fin 2 → Fin 2 → ℚ) i j * y j c
          - (![3, 3] : Fin 2 → ℚ) i := fun _ _ _ _ => rfl
  have h2 : Matrix.det (Matrix.of (![![2, 1], ![0, 3]] : Fin 2 → Fin 2 → ℚ)) ≠ 0 := by
    rw [Matrix.det_fin_two]
    norm_num
  have h3 : (0 : ℚ) < (newtonParams : SolveParams ℚ).JacobianAssembleEpsilon := by
    norm_num [newtonParams]
  have h4 : (0 : ℚ) ≤ (newtonParams : SolveParams ℚ).linesearchfloor := by
    norm_num [newtonParams]
  ⟨h2, cramer2_exactSolve, h3, h4,
    (newtonUpdate_linear_root linearEnv newtonParams _ _ (pointGuess 0 0) h1 h2
      cramer2_exactSolve h3 h4).2.2.2⟩


/-! ## Relaxation time, torus enthalpy and flux filter: helper lemmas -/

theorem vars_RHO_ne_B2 : vars.RHO ≠ vars.B2 := by
  unfold vars.RHO vars.B2; decide

theorem mul_neg_one_lit (x : K) : x * (-1.0 : K) = -x := by norm_num

section Filter

variable {κ : Type}

theorem fluxes_eq_of {A : Type} {F G : Fluxes κ A} (h1 : F.fluxesX1 = G.fluxesX1)
    (h2 : F.fluxesX2 = G.fluxesX2) : F = G := by
  cases F; cases G; simp only at h1 h2; rw [h1, h2]

theorem filterInnerBoundary_RHO (numGhost : ℤ) (G : GridInfo) (F : Fluxes κ K)
    (i j : ℤ) (k : κ) :
    (filterInnerBoundary numGhost G F).fluxesX1 vars.RHO i j k
      = if G.iLocalStart = 0 ∧ i = numGhost then min (F.fluxesX1 vars.RHO i j k) 0
        else F.fluxesX1 vars.RHO i j k := by
  unfold filterInnerBoundary
  by_cases h1 : G.iLocalStart = 0
  · by_cases h2 : i = numGhost
    · simp [h1, h2]
    · simp [h1, h2]
  · simp [h1]

theorem filterInnerBoundary_other (numGhost : ℤ) (G : GridInfo) (F : Fluxes κ K)
    (var : ℕ) (h : var ≠ vars.RHO) :
    (filterInnerBoundary numGhost G F).fluxesX1 var = F.fluxesX1 var := by
  unfold filterInnerBoundary
  by_cases h1 : G.iLocalStart = 0
  · simp [h1, Function.update_noteq h]
  · simp [h1]

theorem filterInnerBoundary_X2 (numGhost : ℤ) (G : GridInfo) (F : Fluxes κ K) :
    (filterInnerBoundary numGhost G F).fluxesX2 = F.fluxesX2 := by
  unfold filterInnerBoundary
  by_cases h1 : G.iLocalStart = 0
  · simp [h1]
  · simp [h1]

theorem filterOuterBoundary_RHO (numGhost : ℤ) (G : GridInfo) (F : Fluxes κ K)
    (i j : ℤ) (k : κ) :
    (filterOuterBoundary numGhost G F).fluxesX1 vars.RHO i j k
      = if G.iLocalEnd = G.N1 ∧ i = G.N1Local + numGhost then max (F.fluxesX1 vars.RHO i j k) 0
        else F.fluxesX1 vars.RHO i j k := by
  unfold filterOuterBoundary
  by_cases h1 : G.iLocalEnd = G.N1
  · by_cases h2 : i = G.N1Local + numGhost
    · simp [h1, h2]
    · simp [h1, h2]
  · simp [h1]

theorem filterOuterBoundary_other (numGhost : ℤ) (G : GridInfo) (F : Fluxes κ K)
    (var : ℕ) (h : var ≠ vars.RHO) :
    (filterOuterBoundary numGhost G F).fluxesX1 var = F.fluxesX1 var := by
  unfold filterOuterBoundary
  by_cases h1 : G.iLocalEnd = G.N1
  · simp [h1, Function.update_noteq h]
  · simp [h1]

theorem filterOuterBoundary_X2 (numGhost : ℤ) (G : GridInfo) (F : Fluxes κ K) :
    (filterOuterBoundary numGhost G F).fluxesX2 = F.fluxesX2 := by
  unfold filterOuterBoundary
  by_cases h1 : G.iLocalEnd = G.N1
  · simp [h1]
  · simp [h1]

theorem filterLowerPole_B2 (numGhost : ℤ) (dof : ℕ) (G : GridInfo) (F : Fluxes κ K)
    (i j : ℤ) (k : κ) :
    (filterLowerPole numGhost dof G F).fluxesX1 vars.B2 i j k
      = if G.jLocalStart = 0 ∧ j = numGhost - 1 then -(F.fluxesX1 vars.B2 i numGhost k)
        else F.fluxesX1 vars.B2 i j k := by
  unfold filterLowerPole
  by_cases h1 : G.jLocalStart = 0
  · by_cases h2 : j = numGhost - 1
    · simp [h1, h2]
      norm_num
    · simp [h1, h2]
  · simp [h1]

theorem filterLowerPole_other (numGhost : ℤ) (dof : ℕ) (G : GridInfo) (F : Fluxes κ K)
    (var : ℕ) (h : var ≠ vars.B2) :
    (filterLowerPole numGhost dof G F).fluxesX1 var = F.fluxesX1 var := by
  unfold filterLowerPole
  by_cases h1 : G.jLocalStart = 0
  · simp [h1, Function.update_noteq h]
  · simp [h1]

theorem filterLowerPole_X2 (numGhost : ℤ) (dof : ℕ) (G : GridInfo) (F : Fluxes κ K)
    (var : ℕ) (i j : ℤ) (k : κ) :
    (filterLowerPole numGhost dof G F).fluxesX2 var i j k
      = if G.jLocalStart = 0 ∧ var < dof ∧ j = numGhost then 0 else F.fluxesX2 var i j k := by
  unfold filterLowerPole
  by_cases h1 : G.jLocalStart = 0
  · by_cases h2 : var < dof
    · by_cases h3 : j = numGhost
      · simp [h1, h2, h3]
      · simp [h1, h2, h3]
    · simp [h1, h2]
  · simp [h1]

theorem filterUpperPole_B2 (numGhost : ℤ) (dof : ℕ) (G : GridInfo) (F : Fluxes κ K)
    (i j : ℤ) (k : κ) :
    (filterUpperPole numGhost dof G F).fluxesX1 vars.B2 i j k
      = if G.jLocalEnd = G.N2 ∧ j = G.N2Local + numGhost
        then -(F.fluxesX1 vars.B2 i (G.N2Local + numGhost - 1) k)
        else F.fluxesX1 vars.B2 i j k := by
  unfold filterUpperPole
  by_cases h1 : G.jLocalEnd = G.N2
  · by_cases h2 : j = G.N2Local + numGhost
    · simp [h1, h2]
      norm_num
    · simp [h1, h2]
  · simp [h1]

theorem filterUpperPole_other (numGhost : ℤ) (dof : ℕ) (G : GridInfo) (F : Fluxes κ K)
    (var : ℕ) (h : var ≠ vars.B2) :
    (filterUpperPole numGhost dof G F).fluxesX1 var = F.fluxesX1 var := by
  unfold filterUpperPole
  by_cases h1 : G.jLocalEnd = G.N2
  · simp [h1, Function.update_noteq h]
  · simp [h1]

theorem filterUpperPole_X2 (numGhost : ℤ) (dof : ℕ) (G : GridInfo) (F : Fluxes κ K)
    (var : ℕ) (i j : ℤ) (k : κ) :
    (filterUpperPole numGhost dof G F).fluxesX2 var i j k
      = if G.jLocalEnd = G.N2 ∧ var < dof ∧ j = G.N2Local + numGhost then 0
        else F.fluxesX2 var i j k := by
  unfold filterUpperPole
  by_cases h1 : G.jLocalEnd = G.N2
  · by_cases h2 : var < dof
    · by_cases h3 : j = G.N2Local + numGhost
      · simp [h1, h2, h3]
      · simp [h1, h2, h3]
    · simp [h1, h2]
  · simp [h1]

/-- The X1 flux of `RHO` after the filter, with the two branches resolved. -/
theorem filter_fluxesX1_RHO (numGhost : ℤ) (dof : ℕ) (G : GridInfo) (F : Fluxes κ K)
    (i j : ℤ) (k : κ) :
    (applyProblemSpecificFluxFilter numGhost dof G F).fluxesX1 vars.RHO i j k
      = if G.iLocalEnd = G.N1 ∧ i = G.N1Local + numGhost
        then max (if G.iLocalStart = 0 ∧ i = numGhost then min (F.fluxesX1 vars.RHO i j k) 0
            else F.fluxesX1 vars.RHO i j k) 0
        else (if G.iLocalStart = 0 ∧ i = numGhost then min (F.fluxesX1 vars.RHO i j k) 0
            else F.fluxesX1 vars.RHO i j k) := by
  unfold applyProblemSpecificFluxFilter
  simp only [filterUpperPole_other _ _ _ _ _ vars_RHO_ne_B2,
    filterLowerPole_other _ _ _ _ _ vars_RHO_ne_B2, filterOuterBoundary_RHO,
    filterInnerBoundary_RHO]

/-- The X1 flux of `B2` after the filter, with the two polar branches resolved. -/
theorem filter_fluxesX1_B2 (numGhost : ℤ) (dof : ℕ) (G : GridInfo) (F : Fluxes κ K)
    (i j : ℤ) (k : κ) :
    (applyProblemSpecificFluxFilter numGhost dof G F).fluxesX1 vars.B2 i j k
      = if G.jLocalEnd = G.N2 ∧ j = G.N2Local + numGhost
        then -(if G.jLocalStart = 0 ∧ G.N2Local + numGhost - 1 = numGhost - 1
            then -(F.fluxesX1 vars.B2 i numGhost k)
            else F.fluxesX1 vars.B2 i (G.N2Local + numGhost - 1) k)
        else (if G.jLocalStart = 0 ∧ j = numGhost - 1 then -(F.fluxesX1 vars.B2 i numGhost k)
            else F.fluxesX1 vars.B2 i j k) := by
  unfold applyProblemSpecificFluxFilter
  simp only [filterUpperPole_B2, filterLowerPole_B2,
    filterOuterBoundary_other _ _ _ _ (Ne.symm vars_RHO_ne_B2),
    filterInnerBoundary_other _ _ _ _ (Ne.symm vars_RHO_ne_B2)]

theorem filter_fluxesX1_other (numGhost : ℤ) (dof : ℕ) (G : GridInfo) (F : Fluxes κ K)
    (var : ℕ) (h1 : var ≠ vars.RHO) (h2 : var ≠ vars.B2) :
    (applyProblemSpecificFluxFilter numGhost dof G F).fluxesX1 var = F.fluxesX1 var := by
  unfold applyProblemSpecificFluxFilter
  simp only [filterUpperPole_other _ _ _ _ _ h2, filterLowerPole_other _ _ _ _ _ h2,
    filterOuterBoundary_other _ _ _ _ h1, filterInnerBoundary_other _ _ _ _ h1]

theorem filter_fluxesX2 (numGhost : ℤ) (dof : ℕ) (G : GridInfo) (F : Fluxes κ K)
    (var : ℕ) (i j : ℤ) (k : κ) :
    (applyProblemSpecificFluxFilter numGhost dof G F).fluxesX2 var i j k
      = if G.jLocalEnd = G.N2 ∧ var < dof ∧ j = G.N2Local + numGhost then 0
        else if G.jLocalStart = 0 ∧ var < dof ∧ j = numGhost then 0
        else F.fluxesX2 var i j k := by
  unfold applyProblemSpecificFluxFilter
  simp only [filterUpperPole_X2, filterLowerPole_X2, filterOuterBoundary_X2,
    filterInnerBoundary_X2]

/-- Applying the filter twice gives what applying it once gives. -/
theorem filter_idempotent (numGhost : ℤ) (dof : ℕ) (G : GridInfo) (F : Fluxes κ K) :
    applyProblemSpecificFluxFilter numGhost dof G (applyProblemSpecificFluxFilter numGhost dof G F)
      = applyProblemSpecificFluxFilter numGhost dof G F := by
  apply fluxes_eq_of
  · funext var i j k
    by_cases hr : var = vars.RHO
    · subst hr
      rw [filter_fluxesX1_RHO numGhost dof G (applyProblemSpecificFluxFilter numGhost dof G F)]
      rw [filter_fluxesX1_RHO numGhost dof G F]
      have hz : ∀ y : K, max (min y 0) 0 = 0 := fun y => max_eq_right (min_le_right _ _)
      by_cases c1 : G.iLocalStart = 0 ∧ i = numGhost <;>
        by_cases c2 : G.iLocalEnd = G.N1 ∧ i = G.N1Local + numGhost
      · simp only [if_pos c1, if_pos c2, hz]
      · simp only [if_pos c1, if_neg c2]
        exact min_eq_left (min_le_right _ _)
      · simp only [if_neg c1, if_pos c2]
        exact max_eq_left (le_max_right _ _)
      · simp only [if_neg c1, if_neg c2]
    · by_cases hb : var = vars.B2
      · subst hb
        rw [filter_fluxesX1_B2 numGhost dof G (applyProblemSpecificFluxFilter numGhost dof G F)]
        simp only [filter_fluxesX1_B2 numGhost dof G F]
        split_ifs <;> first | rfl | (simp only [neg_neg]; done) | omega
      · rw [filter_fluxesX1_other _ _ _ _ _ hr hb]
  · funext var i j k
    rw [filter_fluxesX2 numGhost dof G (applyProblemSpecificFluxFilter numGhost dof G F)]
    rw [filter_fluxesX2 numGhost dof G F]
    split_ifs <;> rfl

end Filter

/-- The value of `vsqr` after the guard of lines 593-594, with the mask resolved. -/
theorem vsqrGuarded_eq (g : Geom K) (vsqr : K) :
    vsqrGuarded g vsqr
      = if vsqr ≥ 0 ∨ vsqr < 1 / g.gCon 0 0 then 1 / g.gCon 0 0 else vsqr := by
  unfold vsqrGuarded condition_v
  by_cases h : vsqr ≥ 0 ∨ vsqr < 1 / g.gCon 0 0
  · simp only [ind_pos h, if_pos h, sub_self, zero_mul, zero_add]
  · simp only [ind_neg h, if_neg h, sub_zero, one_mul, zero_div, add_zero]

theorem vsqrGuarded_mem (g : Geom K) (vsqr : K) (hg : g.gCon 0 0 < 0) :
    1 / g.gCon 0 0 ≤ vsqrGuarded g vsqr ∧ vsqrGuarded g vsqr < 0 := by
  rw [vsqrGuarded_eq]
  have hinv : 1 / g.gCon 0 0 < 0 := one_div_neg.mpr hg
  split
  · exact ⟨le_refl _, hinv⟩
  · rename_i h
    rw [not_or, not_le, not_lt] at h
    exact ⟨h.2, h.1⟩

/-- For `y > 0` the factor `y/(y+1) + 1e-5` lies strictly between `1e-5` and `1 + 1e-5`. -/
theorem fd_gt {y : K} (hy : 0 < y) : (1e-5 : K) < y / (y + 1) + 1e-5 := by
  have : 0 < y / (y + 1) := div_pos hy (by linarith)
  linarith

/-- For `y >= 99999` the factor `y/(y+1) + 1e-5` is at least 1. -/
theorem fd_ge_one {y : K} (hy : 99999 ≤ y) : 1 ≤ y / (y + 1) + 1e-5 := by
  have hpos : (0 : K) < y + 1 := by linarith
  have h5 : (1e-5 : K) = 1 / 100000 := by norm_num
  rw [h5, ← sub_le_iff_le_add, le_div_iff₀ hpos]
  linarith

theorem fdCon_gt (L : Lib K) (T : MathLib K) (P : FloorParams K) (rho : K) (e : Elem K)
    (hexp : T.ExpPos) : (1e-5 : K) < fdCon L T P rho e := by
  unfold fdCon
  exact fd_gt (hexp _)

theorem fdVis_gt (T : MathLib K) (P : FloorParams K) (e : Elem K) (hexp : T.ExpPos) :
    (1e-5 : K) < fdVis T P e := by
  unfold fdVis
  exact fd_gt (hexp _)

theorem fdCon_of_q_zero (L : Lib K) (T : MathLib K) (P : FloorParams K) (rho : K) (e : Elem K)
    (h : e.q = 0) : fdCon L T P rho e = T.exp 100 / (T.exp 100 + 1) + 1e-5 := by
  unfold fdCon
  simp only [h, abs_zero, zero_div]
  norm_num

theorem fdVis_of_deltaP_zero (T : MathLib K) (P : FloorParams K) (e : Elem K)
    (h : e.deltaP = 0) : fdVis T P e = T.exp 100 / (T.exp 100 + 1) + 1e-5 := by
  unfold fdVis
  simp only [h, abs_zero, zero_div]
  norm_num

/-- The value of `tau` as a minimum over the enabled closures. -/
theorem tau_eq (L : Lib K) (T : MathLib K) (P : FloorParams K) (g : Geom K) (rho : K)
    (e : Elem K) :
    tau L T P g rho e
      = min (min (L.pow g.Radius 1.5)
          (if P.conduction then L.pow g.Radius 1.5 * fdCon L T P rho e else L.pow g.Radius 1.5))
          (if P.viscosity then L.pow g.Radius 1.5 * fdVis T P e else L.pow g.Radius 1.5) := by
  unfold tau
  cases P.conduction <;> cases P.viscosity <;> simp

theorem tau_le (L : Lib K) (T : MathLib K) (P : FloorParams K) (g : Geom K) (rho : K)
    (e : Elem K) : tau L T P g rho e ≤ L.pow g.Radius 1.5 := by
  rw [tau_eq]
  exact le_trans (min_le_left _ _) (min_le_left _ _)

theorem tau_gt (L : Lib K) (T : MathLib K) (P : FloorParams K) (g : Geom K) (rho : K)
    (e : Elem K) (hexp : T.ExpPos) (hD : 0 < L.pow g.Radius 1.5) :
    1e-5 * L.pow g.Radius 1.5 < tau L T P g rho e := by
  rw [tau_eq]
  have h5 : (1e-5 : K) < 1 := by norm_num
  have h0 : 1e-5 * L.pow g.Radius 1.5 < L.pow g.Radius 1.5 := by
    calc 1e-5 * L.pow g.Radius 1.5 < 1 * L.pow g.Radius 1.5 := mul_lt_mul_of_pos_right h5 hD
      _ = L.pow g.Radius 1.5 := one_mul _
  have h1 : 1e-5 * L.pow g.Radius 1.5 < L.pow g.Radius 1.5 * fdCon L T P rho e := by
    rw [mul_comm (L.pow g.Radius 1.5)]
    exact mul_lt_mul_of_pos_right (fdCon_gt L T P rho e hexp) hD
  have h2 : 1e-5 * L.pow g.Radius 1.5 < L.pow g.Radius 1.5 * fdVis T P e := by
    rw [mul_comm (L.pow g.Radius 1.5)]
    exact mul_lt_mul_of_pos_right (fdVis_gt T P e hexp) hD
  refine lt_min (lt_min h0 ?_) ?_
  · split
    · exact h1
    · exact h0
  · split
    · exact h2
    · exact h0

theorem tau_eq_iff (L : Lib K) (T : MathLib K) (P : FloorParams K) (g : Geom K) (rho : K)
    (e : Elem K) (hD : 0 < L.pow g.Radius 1.5) :
    tau L T P g rho e = L.pow g.Radius 1.5 ↔
      (P.conduction = true → 1 ≤ fdCon L T P rho e) ∧
      (P.viscosity = true → 1 ≤ fdVis T P e) := by
  rw [tau_eq]
  have key : ∀ f : K, L.pow g.Radius 1.5 ≤ L.pow g.Radius 1.5 * f ↔ 1 ≤ f := by
    intro f
    constructor
    · intro h
      by_contra hlt
      have := mul_lt_mul_of_pos_left (not_le.mp hlt) hD
      rw [mul_one] at this
      exact absurd h (not_le.mpr this)
    · intro h
      calc L.pow g.Radius 1.5 = L.pow g.Radius 1.5 * 1 := (mul_one _).symm
        _ ≤ L.pow g.Radius 1.5 * f := mul_le_mul_of_nonneg_left h hD.le
  constructor
  · intro h
    have h3 : L.pow g.Radius 1.5
        ≤ (if P.conduction then L.pow g.Radius 1.5 * fdCon L T P rho e
          else L.pow g.Radius 1.5) :=
      le_trans (le_of_eq h.symm) (le_trans (min_le_left _ _) (min_le_right _ _))
    have h2 : L.pow g.Radius 1.5
        ≤ (if P.viscosity then L.pow g.Radius 1.5 * fdVis T P e else L.pow g.Radius 1.5) :=
      le_trans (le_of_eq h.symm) (min_le_right _ _)
    constructor
    · intro hc
      rw [hc, if_pos rfl] at h3
      exact (key _).mp h3
    · intro hv
      rw [hv, if_pos rfl] at h2
      exact (key _).mp h2
  · rintro ⟨hc, hv⟩
    have h3 : L.pow g.Radius 1.5
        ≤ (if P.conduction then L.pow g.Radius 1.5 * fdCon L T P rho e
          else L.pow g.Radius 1.5) := by
      split
      · rename_i h; exact (key _).mpr (hc h)
      · exact le_refl _
    have h2 : L.pow g.Radius 1.5
        ≤ (if P.viscosity then L.pow g.Radius 1.5 * fdVis T P e else L.pow g.Radius 1.5) := by
      split
      · rename_i h; exact (key _).mpr (hv h)
      · exact le_refl _
    rw [min_eq_left h3, min_eq_left h2]

/-! ## Relaxation time, torus enthalpy and flux filter: the claims -/

/-- C31: the time-component square root of the velocity repair is well defined.
For `gCon[0][0] < 0` and every value of `vsqr`, the value of `vsqr` after the
guard lies in `[1/gCon[0][0], 0)`, so the argument `-1/vsqr` of the square
root is strictly positive, and with an exact square root `ut^2 = -1/vsqr` is
at least `-gCon[0][0]`. -/
theorem vsqrGuarded_range (L : Lib K) (g : Geom K) (vsqr : K) (hL : L.SqrtExact)
    (hg : g.gCon 0 0 < 0) :
    1 / g.gCon 0 0 ≤ vsqrGuarded g vsqr ∧
    vsqrGuarded g vsqr < 0 ∧
    0 < -1 / vsqrGuarded g vsqr ∧
    ut L g vsqr ^ 2 = -1 / vsqrGuarded g vsqr ∧
    ut L g vsqr ^ 2 ≥ -g.gCon 0 0 := by
  obtain ⟨h1, h2⟩ := vsqrGuarded_mem g vsqr hg
  have hpos : 0 < -1 / vsqrGuarded g vsqr := div_pos_of_neg_of_neg (by norm_num) h2
  have hut : ut L g vsqr ^ 2 = -1 / vsqrGuarded g vsqr := by
    unfold ut
    rw [pow_two]
    exact (hL _ hpos.le).2
  refine ⟨h1, h2, hpos, hut, ?_⟩
  rw [hut, ge_iff_le, neg_div, neg_le_neg_iff, div_le_iff_of_neg h2]
  rw [mul_comm]
  exact (div_le_iff_of_neg hg).mp h1

/-- C32 (as amended): relaxation-time bounds.  For `Radius > 0`, with positive
values of `exp` and a positive power of a positive base, the relaxation time
set by `fluidElement::setFluidElementParameters` satisfies
`1e-5 * Radius^1.5 < tau <= Radius^1.5` for every `q` and `deltaP`;
`tau = Radius^1.5` when conduction and viscosity are both disabled, and with a
closure enabled `tau = Radius^1.5` exactly when the factor `fdCon`, `fdVis` of
every enabled closure is at least 1. -/
theorem tau_bounds (L : Lib K) (T : MathLib K) (P : FloorParams K) (g : Geom K) (rho : K)
    (e : Elem K) (hexp : T.ExpPos) (hpow : L.PowPos) (hR : 0 < g.Radius) :
    1e-5 * L.pow g.Radius 1.5 < tau L T P g rho e ∧
    tau L T P g rho e ≤ L.pow g.Radius 1.5 ∧
    (P.conduction = false → P.viscosity = false → tau L T P g rho e = L.pow g.Radius 1.5) ∧
    (tau L T P g rho e = L.pow g.Radius 1.5 ↔
      (P.conduction = true → 1 ≤ fdCon L T P rho e) ∧
      (P.viscosity = true → 1 ≤ fdVis T P e)) := by
  have hD : 0 < L.pow g.Radius 1.5 := hpow _ _ hR
  refine ⟨tau_gt L T P g rho e hexp hD, tau_le L T P g rho e, ?_, tau_eq_iff L T P g rho e hD⟩
  intro hc hv
  apply (tau_eq_iff L T P g rho e hD).mpr
  constructor
  · intro h; rw [hc] at h; exact absurd h Bool.false_ne_true
  · intro h; rw [hv] at h; exact absurd h Bool.false_ne_true

/-- C33 (as amended): the torus enthalpy at the inner edge is the rounding error
of a sum that cancels.  For every spin `a`,
`computeLnOfh(a, InnerEdgeRadius, M_PI/2.)` is the sum
`t1 + t2 + t3 - t1 - t2 - t3`, taken from left to right, of the three terms
evaluated at the inner edge with the same angular momentum `l`; it is 0 when
no partial sum is rounded, in particular in exact arithmetic. -/
theorem computeLnOfh_innerEdge (fl : K → K) (L : Lib K) (T : MathLib K) (P : DiskParams K)
    (a : K) :
    let l : K := lFishboneMoncrief L a P.PressureMaxRadius (T.M_PI / 2)
    let t1 : K := lnOfhTerm1 L T a P.InnerEdgeRadius (T.M_PI / 2) l
    let t2 : K := lnOfhTerm2 L T a P.InnerEdgeRadius (T.M_PI / 2) l
    let t3 : K := lnOfhTerm3 L T a P.InnerEdgeRadius (T.M_PI / 2) l
    computeLnOfh fl L T P a P.InnerEdgeRadius (T.M_PI / 2)
      = fl (fl (fl (fl (fl (t1 + t2) + t3) - t1) - t2) - t3) ∧
    (fl (t1 + t2) = t1 + t2 → fl (t1 + t2 + t3) = t1 + t2 + t3 → fl (t2 + t3) = t2 + t3 →
      fl t3 = t3 → fl 0 = 0 → computeLnOfh fl L T P a P.InnerEdgeRadius (T.M_PI / 2) = 0) ∧
    ((∀ x, fl x = x) → computeLnOfh fl L T P a P.InnerEdgeRadius (T.M_PI / 2) = 0) ∧
    computeLnOfh (fun x => x) L T P a P.InnerEdgeRadius (T.M_PI / 2) = 0 := by
  intro l t1 t2 t3
  have h0 : computeLnOfh fl L T P a P.InnerEdgeRadius (T.M_PI / 2)
      = fl (fl (fl (fl (fl (t1 + t2) + t3) - t1) - t2) - t3) := rfl
  have h1 : fl (t1 + t2) = t1 + t2 → fl (t1 + t2 + t3) = t1 + t2 + t3 →
      fl (t2 + t3) = t2 + t3 → fl t3 = t3 → fl 0 = 0 →
      computeLnOfh fl L T P a P.InnerEdgeRadius (T.M_PI / 2) = 0 := by
    intro e1 e2 e3 e4 e5
    rw [h0, e1, e2]
    have a1 : t1 + t2 + t3 - t1 = t2 + t3 := by ring
    rw [a1, e3]
    have a2 : t2 + t3 - t2 = t3 := by ring
    rw [a2, e4, sub_self, e5]
  refine ⟨h0, h1, ?_, ?_⟩
  · intro hid
    exact h1 (hid _) (hid _) (hid _) (hid _) (hid _)
  · show (t1 + t2 + t3 - t1 - t2 - t3 : K) = 0
    ring


section Filter

variable {κ : Type}

/-- C34: no mass inflow through the radial boundaries.  On a grid with at least
one zone in the first direction (`N1Local > 0`), after
`timeStepper::applyProblemSpecificFluxFilter` the X1 flux of `RHO` at index
`numGhost` is `min(old, 0) <= 0` on a process that owns the inner radial
boundary, the one at index `N1Local + numGhost` is `max(old, 0) >= 0` on a
process that owns the outer radial boundary, every other entry of the X1
flux of `RHO` is unchanged, and applying the filter twice gives the same
fluxes as applying it once. -/
theorem fluxFilter_no_inflow (numGhost : ℤ) (dof : ℕ) (primOld : GridInfo) (F : Fluxes κ K)
    (hN : 0 < primOld.N1Local) :
    (primOld.iLocalStart = 0 → ∀ (j : ℤ) (k : κ),
      (applyProblemSpecificFluxFilter numGhost dof primOld F).fluxesX1 vars.RHO numGhost j k
        = min (F.fluxesX1 vars.RHO numGhost j k) 0 ∧
      (applyProblemSpecificFluxFilter numGhost dof primOld F).fluxesX1 vars.RHO numGhost j k
        ≤ 0) ∧
    (primOld.iLocalEnd = primOld.N1 → ∀ (j : ℤ) (k : κ),
      (applyProblemSpecificFluxFilter numGhost dof primOld F).fluxesX1 vars.RHO
          (primOld.N1Local + numGhost) j k
        = max (F.fluxesX1 vars.RHO (primOld.N1Local + numGhost) j k) 0 ∧
      0 ≤ (applyProblemSpecificFluxFilter numGhost dof primOld F).fluxesX1 vars.RHO
          (primOld.N1Local + numGhost) j k) ∧
    (∀ (i j : ℤ) (k : κ),
      ¬ (primOld.iLocalStart = 0 ∧ i = numGhost) →
      ¬ (primOld.iLocalEnd = primOld.N1 ∧ i = primOld.N1Local + numGhost) →
      (applyProblemSpecificFluxFilter numGhost dof primOld F).fluxesX1 vars.RHO i j k
        = F.fluxesX1 vars.RHO i j k) ∧
    applyProblemSpecificFluxFilter numGhost dof primOld
        (applyProblemSpecificFluxFilter numGhost dof primOld F)
      = applyProblemSpecificFluxFilter numGhost dof primOld F := by
  have hne : numGhost ≠ primOld.N1Local + numGhost := by omega
  refine ⟨?_, ?_, ?_, filter_idempotent numGhost dof primOld F⟩
  · intro h j k
    have e : (applyProblemSpecificFluxFilter numGhost dof primOld F).fluxesX1 vars.RHO numGhost j k
        = min (F.fluxesX1 vars.RHO numGhost j k) 0 := by
      rw [filter_fluxesX1_RHO, if_neg (fun hc => hne hc.2), if_pos ⟨h, rfl⟩]
    exact ⟨e, by rw [e]; exact min_le_right _ _⟩
  · intro h j k
    have e : (applyProblemSpecificFluxFilter numGhost dof primOld F).fluxesX1 vars.RHO
          (primOld.N1Local + numGhost) j k
        = max (F.fluxesX1 vars.RHO (primOld.N1Local + numGhost) j k) 0 := by
      rw [filter_fluxesX1_RHO, if_pos ⟨h, rfl⟩, if_neg (fun hc => hne hc.2.symm)]
    exact ⟨e, by rw [e]; exact le_max_right _ _⟩
  · intro i j k h1 h2
    rw [filter_fluxesX1_RHO, if_neg h2, if_neg h1]

end Filter

/-! ## Relaxation time, torus enthalpy and flux filter: examples -/

/-- C31, witness: over the reals in flat space (`gCon[0][0] = -1`), the value
`vsqr = 3` is replaced by a value in `[-1, 0)`. -/
theorem vsqrGuarded_range_witness :
    (Lib.mk Real.sqrt Real.rpow).SqrtExact ∧
    (flatGeom : Geom ℝ).gCon 0 0 < 0 ∧
    1 / (flatGeom : Geom ℝ).gCon 0 0 ≤ vsqrGuarded (flatGeom : Geom ℝ) 3 ∧
    vsqrGuarded (flatGeom : Geom ℝ) 3 < 0 ∧
    ut (Lib.mk Real.sqrt Real.rpow) (flatGeom : Geom ℝ) 3 ^ 2 ≥ -(flatGeom : Geom ℝ).gCon 0 0 :=
  have hg : (flatGeom : Geom ℝ).gCon 0 0 < 0 := by simp [flatGeom]
  have h := vsqrGuarded_range (Lib.mk Real.sqrt Real.rpow) (flatGeom : Geom ℝ) 3
    realLib_sqrtExact hg
  ⟨realLib_sqrtExact, hg, h.1, h.2.1, h.2.2.2.2⟩

theorem realLib_powPos : (Lib.mk Real.sqrt Real.rpow).PowPos :=
  fun _ y hx => Real.rpow_pos_of_pos hx y

theorem realMathLib_expPos :
    (MathLib.mk Real.exp Real.log Real.sin Real.cos Real.pi).ExpPos :=
  fun x => Real.exp_pos x

theorem real_exp_hundred : (99999 : ℝ) ≤ Real.exp 100 := by
  have h25 : (26 : ℝ) ≤ Real.exp 25 := by
    have := Real.add_one_le_exp (25 : ℝ)
    linarith
  have h100 : Real.exp 100 = Real.exp 25 ^ 4 := by
    rw [← Real.exp_nat_mul]
    norm_num
  rw [h100]
  calc (99999 : ℝ) ≤ 26 ^ 4 := by norm_num
    _ ≤ Real.exp 25 ^ 4 := pow_le_pow_left₀ (by norm_num) h25 4

/-- C32, witness: over the reals at radius 1, the relaxation time of the stressed
cell lies in `(1e-5 * Radius^1.5, Radius^1.5]`. -/
theorem tau_bounds_witness :
    (MathLib.mk Real.exp Real.log Real.sin Real.cos Real.pi).ExpPos ∧
    (Lib.mk Real.sqrt Real.rpow).PowPos ∧
    0 < (flatGeom : Geom ℝ).Radius ∧
    1e-5 * (Lib.mk Real.sqrt Real.rpow).pow (flatGeom : Geom ℝ).Radius 1.5
      < tau (Lib.mk Real.sqrt Real.rpow) (MathLib.mk Real.exp Real.log Real.sin Real.cos Real.pi)
          torusParams flatGeom 8 (flatSet Real.sqrt (4 / 3) flatGeom stressedCell) ∧
    tau (Lib.mk Real.sqrt Real.rpow) (MathLib.mk Real.exp Real.log Real.sin Real.cos Real.pi)
        torusParams flatGeom 8 (flatSet Real.sqrt (4 / 3) flatGeom stressedCell)
      ≤ (Lib.mk Real.sqrt Real.rpow).pow (flatGeom : Geom ℝ).Radius 1.5 :=
  have hR : 0 < (flatGeom : Geom ℝ).Radius := by simp [flatGeom]
  have h := tau_bounds (Lib.mk Real.sqrt Real.rpow)
    (MathLib.mk Real.exp Real.log Real.sin Real.cos Real.pi) torusParams flatGeom 8
    (flatSet Real.sqrt (4 / 3) flatGeom stressedCell) realMathLib_expPos realLib_powPos hR
  ⟨realMathLib_expPos, realLib_powPos, hR, h.1, h.2.1⟩

/-- C32, counterexample to the claim as stated: with conduction and viscosity both
enabled, a cell with `q = 0` and `deltaP = 0` has `fdCon = fdVis > 1`
(`exp(100) >= 99999`), so `tau = Radius^1.5` although no closure is disabled. -/
theorem tau_full_with_closures_enabled :
    (torusParams : FloorParams ℝ).conduction = true ∧
    (torusParams : FloorParams ℝ).viscosity = true ∧
    tau (Lib.mk Real.sqrt Real.rpow) (MathLib.mk Real.exp Real.log Real.sin Real.cos Real.pi)
        torusParams flatGeom 8 (flatSet Real.sqrt (4 / 3) flatGeom validCell)
      = (Lib.mk Real.sqrt Real.rpow).pow (flatGeom : Geom ℝ).Radius 1.5 := by
  refine ⟨rfl, rfl, ?_⟩
  have hR : 0 < (flatGeom : Geom ℝ).Radius := by simp [flatGeom]
  apply (tau_eq_iff _ _ _ _ _ _ (realLib_powPos _ _ hR)).mpr
  constructor
  · intro _
    rw [fdCon_of_q_zero _ _ _ _ _ (by simp [flatSet, validCell])]
    exact fd_ge_one real_exp_hundred
  · intro _
    rw [fdVis_of_deltaP_zero _ _ _ (by simp [flatSet, validCell])]
    exact fd_ge_one real_exp_hundred

/-- C34, witness: on a grid with four zones that owns both radial boundaries, the
mass flux at the first active face is `min(old, 0)`. -/
theorem fluxFilter_no_inflow_witness :
    (0 : ℤ) < smallGrid.N1Local ∧
    (applyProblemSpecificFluxFilter 2 8 smallGrid
        ({ fluxesX1 := fun _ _ _ _ => 1, fluxesX2 := fun _ _ _ _ => 1 } : Fluxes Unit ℚ)).fluxesX1
        vars.RHO 2 0 ()
      = min ((fun _ _ _ _ => 1 : ℕ → ℤ → ℤ → Unit → ℚ) vars.RHO 2 0 ()) 0 :=
  have h : (0 : ℤ) < smallGrid.N1Local := by decide
  ⟨h, ((fluxFilter_no_inflow 2 8 smallGrid
    ({ fluxesX1 := fun _ _ _ _ => 1, fluxesX2 := fun _ _ _ _ => 1 } : Fluxes Unit ℚ) h).1 rfl
    0 ()).1⟩

theorem roundDouble_edgeTerm1 : roundDouble edgeTerm1 = edgeTerm1 := by
  unfold edgeTerm1
  rw [roundDouble_of (5976531330197733 / 2 ^ 53) (-1) 5976531330197733
    (by norm_num [abs_of_pos]) (by norm_num [abs_of_pos])
    (roundTiesEven_near (by rw [abs_lt]; constructor <;> norm_num))]
  norm_num

theorem roundDouble_edgeTerm2 : roundDouble edgeTerm2 = edgeTerm2 := by
  unfold edgeTerm2
  rw [roundDouble_of (-3429921475134593 / 2 ^ 52) (-1) (-6859842950269186)
    (by rw [abs_of_neg (by norm_num)]; norm_num) (by rw [abs_of_neg (by norm_num)]; norm_num)
    (roundTiesEven_near (by rw [abs_lt]; constructor <;> norm_num))]
  norm_num

theorem roundDouble_edgeTerm3 : roundDouble edgeTerm3 = edgeTerm3 := by
  unfold edgeTerm3
  rw [roundDouble_of (-2593518774227469 / 2 ^ 56) (-5) (-5187037548454938)
    (by rw [abs_of_neg (by norm_num)]; norm_num) (by rw [abs_of_neg (by norm_num)]; norm_num)
    (roundTiesEven_near (by rw [abs_lt]; constructor <;> norm_num))]
  norm_num

/-- The first partial sum `t1 + t2` is a double. -/
theorem edge_sum1 : roundDouble (edgeTerm1 + edgeTerm2) = -883311620071453 / 2 ^ 53 := by
  have hx : edgeTerm1 + edgeTerm2 = -883311620071453 / 2 ^ 53 := by
    unfold edgeTerm1 edgeTerm2; norm_num
  rw [hx, roundDouble_of (-883311620071453 / 2 ^ 53) (-4) (-7066492960571624)
    (by rw [abs_of_neg (by norm_num)]; norm_num) (by rw [abs_of_neg (by norm_num)]; norm_num)
    (roundTiesEven_near (by rw [abs_lt]; constructor <;> norm_num))]
  norm_num

/-- The second partial sum is a tie and is rounded to the even significand. -/
theorem edge_sum2 :
    roundDouble (-883311620071453 / 2 ^ 53 + edgeTerm3) = -4830005867399546 / 2 ^ 55 := by
  have hx : (-883311620071453 / 2 ^ 53 + edgeTerm3 : ℚ) = -9660011734799093 / 2 ^ 56 := by
    unfold edgeTerm3; norm_num
  rw [hx, roundDouble_of (-9660011734799093 / 2 ^ 56) (-3) (-4830005867399546)
    (by rw [abs_of_neg (by norm_num)]; norm_num) (by rw [abs_of_neg (by norm_num)]; norm_num)
    (by
      have := @roundTiesEven_tie_odd (-9660011734799093 / 2 ^ 56 / 2 ^ ((-3 : ℤ) - 52))
        (-4830005867399547) (by norm_num) (by decide)
      rw [this]; norm_num)]
  norm_num

/-- The third partial sum is a tie as well. -/
theorem edge_sum3 :
    roundDouble (-4830005867399546 / 2 ^ 55 - edgeTerm1) = -7184032797047620 / 2 ^ 53 := by
  have hx : (-4830005867399546 / 2 ^ 55 - edgeTerm1 : ℚ) = -14368065594095239 / 2 ^ 54 := by
    unfold edgeTerm1; norm_num
  rw [hx, roundDouble_of (-14368065594095239 / 2 ^ 54) (-1) (-7184032797047620)
    (by rw [abs_of_neg (by norm_num)]; norm_num) (by rw [abs_of_neg (by norm_num)]; norm_num)
    (@roundTiesEven_tie_even (-14368065594095239 / 2 ^ 54 / 2 ^ ((-1 : ℤ) - 52))
        (-7184032797047620) (by norm_num) (by decide))]
  norm_num

theorem edge_sum4 :
    roundDouble (-7184032797047620 / 2 ^ 53 - edgeTerm2) = -5187037548454944 / 2 ^ 57 := by
  have hx : (-7184032797047620 / 2 ^ 53 - edgeTerm2 : ℚ) = -162094923389217 / 2 ^ 52 := by
    unfold edgeTerm2; norm_num
  rw [hx, roundDouble_of (-162094923389217 / 2 ^ 52) (-5) (-5187037548454944)
    (by rw [abs_of_neg (by norm_num)]; norm_num) (by rw [abs_of_neg (by norm_num)]; norm_num)
    (roundTiesEven_near (by rw [abs_lt]; constructor <;> norm_num))]
  norm_num

theorem edge_sum5 :
    roundDouble (-5187037548454944 / 2 ^ 57 - edgeTerm3) = -3 / 2 ^ 56 := by
  have hx : (-5187037548454944 / 2 ^ 57 - edgeTerm3 : ℚ) = -3 / 2 ^ 56 := by
    unfold edgeTerm3; norm_num
  rw [hx, roundDouble_of (-3 / 2 ^ 56) (-55) (-6755399441055744)
    (by rw [abs_of_neg (by norm_num)]; norm_num) (by rw [abs_of_neg (by norm_num)]; norm_num)
    (roundTiesEven_near (by rw [abs_lt]; constructor <;> norm_num))]
  norm_num

/-- C33, counterexample to the claim as stated: at `a = 0.9375` with
`InnerEdgeRadius = 6` and `PressureMaxRadius = 12` the three inner-edge terms
are the doubles `edgeTerm1`, `edgeTerm2`, `edgeTerm3`; the partial sums
`t1 + t2 + t3` and `t1 + t2 + t3 - t1` are rounded, and the sum of lines
129-130 is `-3/2^56` (about `-4.16e-17`), not 0. -/
theorem lnOfhSum_rounding_error :
    roundDouble edgeTerm1 = edgeTerm1 ∧ roundDouble edgeTerm2 = edgeTerm2 ∧
    roundDouble edgeTerm3 = edgeTerm3 ∧
    lnOfhSum roundDouble edgeTerm1 edgeTerm2 edgeTerm3 edgeTerm1 edgeTerm2 edgeTerm3
      = -3 / 2 ^ 56 ∧
    lnOfhSum roundDouble edgeTerm1 edgeTerm2 edgeTerm3 edgeTerm1 edgeTerm2 edgeTerm3 ≠ 0 := by
  have h : lnOfhSum roundDouble edgeTerm1 edgeTerm2 edgeTerm3 edgeTerm1 edgeTerm2 edgeTerm3
      = -3 / 2 ^ 56 := by
    unfold lnOfhSum
    rw [edge_sum1, edge_sum2, edge_sum3, edge_sum4, edge_sum5]
  refine ⟨roundDouble_edgeTerm1, roundDouble_edgeTerm2, roundDouble_edgeTerm3, h, ?_⟩
  rw [h]
  norm_num

end Grim
